import Mathlib

/-!
Verification of the ball-pivoting surface-reconstruction core
(`SurfaceReconstructionBallPivoting.cpp`).

The development is a shallow embedding of the C++ source:

* 3D vectors over `ℝ` with the Eigen operations used by the code
  (`dot`, `cross`, `squaredNorm`, `norm`, componentwise arithmetic);
* the geometric predicates `ComputeBallCenter`, `ComputeFaceNormal`,
  `IsCompatible`;
* the topology store (`BallPivotingVertex`, `BallPivotingEdge`,
  `BallPivotingTriangle`) as an arena state `BPState`, with edges and
  triangles referred to by their index in the arena;
* the engine operations `UpdateType`, `AddAdjacentTriangle`,
  `GetOppositeVertex`, `GetLinkingEdge`, `CreateTriangle`,
  `FindCandidateVertex`, `ExpandTriangulation`, `TryTriangleSeed`,
  `TrySeed`, `FindSeedTriangle`, `Run`.

External collaborators that are out of scope for the source file
(the KD-tree `SearchRadius`, `IntersectionTest::PointsCoplanar`,
`IntersectionTest::LineSegmentsMinimumDistance`, and the point-cloud
container) are taken as parameters, following their interface in the
specification.  `utility::LogError` throws in Open3D, so the functions
that can reach it are modelled in the `Except` monad; `LogDebug` is a
no-op.  The unbounded `while`/`for` loops of `ExpandTriangulation` and
`Run` are modelled with explicit fuel.
-/

namespace BPA

/-- A 3D vector (`Eigen::Vector3d`). -/
structure Vec3 where
  x : ℝ
  y : ℝ
  z : ℝ

namespace Vec3

@[ext] theorem ext_iff' {a b : Vec3} (hx : a.x = b.x) (hy : a.y = b.y) (hz : a.z = b.z) :
    a = b := by
  cases a; cases b; simp_all

instance : Zero Vec3 := ⟨⟨0, 0, 0⟩⟩

instance : Add Vec3 := ⟨fun a b => ⟨a.x + b.x, a.y + b.y, a.z + b.z⟩⟩

instance : Sub Vec3 := ⟨fun a b => ⟨a.x - b.x, a.y - b.y, a.z - b.z⟩⟩

instance : Neg Vec3 := ⟨fun a => ⟨-a.x, -a.y, -a.z⟩⟩

instance : SMul ℝ Vec3 := ⟨fun c a => ⟨c * a.x, c * a.y, c * a.z⟩⟩

/-- Eigen `a.dot(b)`. -/
def dot (a b : Vec3) : ℝ := a.x * b.x + a.y * b.y + a.z * b.z

/-- Eigen `a.cross(b)`. -/
def cross (a b : Vec3) : Vec3 :=
  ⟨a.y * b.z - a.z * b.y, a.z * b.x - a.x * b.z, a.x * b.y - a.y * b.x⟩

/-- Eigen `a.squaredNorm()`. -/
def squaredNorm (a : Vec3) : ℝ := a.x * a.x + a.y * a.y + a.z * a.z

/-- Eigen `a.norm()`. -/
noncomputable def norm (a : Vec3) : ℝ := Real.sqrt a.squaredNorm

/-- Eigen `a / s` (componentwise division by a scalar). -/
noncomputable def sdiv (a : Vec3) (s : ℝ) : Vec3 := ⟨a.x / s, a.y / s, a.z / s⟩

theorem zero_def : (0 : Vec3) = ⟨0, 0, 0⟩ := rfl

theorem add_def (a b : Vec3) : a + b = ⟨a.x + b.x, a.y + b.y, a.z + b.z⟩ := rfl

theorem sub_def (a b : Vec3) : a - b = ⟨a.x - b.x, a.y - b.y, a.z - b.z⟩ := rfl

theorem neg_def (a : Vec3) : -a = ⟨-a.x, -a.y, -a.z⟩ := rfl

theorem smul_def (c : ℝ) (a : Vec3) : c • a = ⟨c * a.x, c * a.y, c * a.z⟩ := rfl

theorem squaredNorm_nonneg (a : Vec3) : 0 ≤ a.squaredNorm := by
  unfold squaredNorm; nlinarith [sq_nonneg a.x, sq_nonneg a.y, sq_nonneg a.z]

theorem squaredNorm_eq_zero {a : Vec3} (h : a.squaredNorm = 0) : a = 0 := by
  unfold squaredNorm at h
  have hx : a.x = 0 := by nlinarith [sq_nonneg a.x, sq_nonneg a.y, sq_nonneg a.z]
  have hy : a.y = 0 := by nlinarith [sq_nonneg a.x, sq_nonneg a.y, sq_nonneg a.z]
  have hz : a.z = 0 := by nlinarith [sq_nonneg a.x, sq_nonneg a.y, sq_nonneg a.z]
  cases a; simp_all [zero_def]

theorem norm_nonneg (a : Vec3) : 0 ≤ a.norm := Real.sqrt_nonneg _

theorem norm_eq_zero_iff {a : Vec3} : a.norm = 0 ↔ a = 0 := by
  constructor
  · intro h
    have h1 := Real.sqrt_eq_zero'.mp h
    exact squaredNorm_eq_zero (le_antisymm h1 (squaredNorm_nonneg a))
  · intro h; subst h
    show Real.sqrt ((0:ℝ) * 0 + 0 * 0 + 0 * 0) = 0
    rw [show (0:ℝ) * 0 + 0 * 0 + 0 * 0 = 0 by ring, Real.sqrt_zero]

theorem squaredNorm_sub_comm (a b : Vec3) : (a - b).squaredNorm = (b - a).squaredNorm := by
  simp only [sub_def, squaredNorm]; ring

end Vec3

/-- `std::vector<Eigen::Vector3d>` access `v[i]` (we use a default of `0`
for out-of-range access; all uses in the claims are in range). -/
def getV (l : List Vec3) (i : Nat) : Vec3 := l.getD i 0

/-! ### Geometric predicates

`pts` and `nms` are the position and normal arrays of the input point
cloud; the engine's `vertices[i]->point_` and `vertices[i]->normal_`
are `getV pts i` and `getV nms i`. -/

/-- `BallPivoting::ComputeBallCenter(vidx1, vidx2, vidx3, radius, center)`.
Returns `some center` where the C++ returns `true` and writes `center`. -/
noncomputable def ComputeBallCenter (pts nms : List Vec3) (vidx1 vidx2 vidx3 : Nat)
    (radius : ℝ) : Option Vec3 :=
  let v1 := getV pts vidx1
  let v2 := getV pts vidx2
  let v3 := getV pts vidx3
  let c := (v2 - v1).squaredNorm
  let b := (v1 - v3).squaredNorm
  let a := (v3 - v2).squaredNorm
  let alpha := a * (b + c - a)
  let beta := b * (a + c - b)
  let gamma := c * (a + b - c)
  let abg := alpha + beta + gamma
  if abg < 1e-16 then none
  else
    let alpha := alpha / abg
    let beta := beta / abg
    let gamma := gamma / abg
    let circ_center := alpha • v1 + beta • v2 + gamma • v3
    let circ_radius2 := a * b * c
    let sa := Real.sqrt a
    let sb := Real.sqrt b
    let sc := Real.sqrt c
    let circ_radius2 := circ_radius2 / ((sa + sb + sc) * (sb + sc - sa) *
      (sc + sa - sb) * (sa + sb - sc))
    let height := radius * radius - circ_radius2
    if 0 ≤ height then
      let tr_norm := (v2 - v1).cross (v3 - v1)
      let tr_norm := tr_norm.sdiv tr_norm.norm
      let pt_norm := getV nms vidx1 + getV nms vidx2 + getV nms vidx3
      let pt_norm := pt_norm.sdiv pt_norm.norm
      let tr_norm := if tr_norm.dot pt_norm < 0 then (-1 : ℝ) • tr_norm else tr_norm
      some (circ_center + Real.sqrt height • tr_norm)
    else none

/-! Specification-side definitions for claim C1, written from the spec text
("Algorithm: let a=|v3−v2|², b=|v1−v3|², c=|v2−v1|². Compute barycentric
weights α=a(b+c−a), β=b(a+c−b), γ=c(a+b−c); let S=α+β+γ. ...  Circumradius²
= (abc)/((√a+√b+√c)(−√a+√b+√c)(√a−√b+√c)(√a+√b−√c)).  Let h² = r² −
circumradius².  Compute triangle normal n = (v2−v1)×(v3−v1), normalize.
Flip n so that n·(n1+n2+n3) ≥ 0.  Return P + √h²·n."). -/

/-- The spec's barycentric weight sum S = α+β+γ. -/
def barySumSpec (pts : List Vec3) (i j k : Nat) : ℝ :=
  let a := (getV pts k - getV pts j).squaredNorm
  let b := (getV pts i - getV pts k).squaredNorm
  let c := (getV pts j - getV pts i).squaredNorm
  a * (b + c - a) + b * (a + c - b) + c * (a + b - c)

/-- The spec's α,β,γ-weighted circumcenter P (weights normalized by S). -/
noncomputable def circumcenterSpec (pts : List Vec3) (i j k : Nat) : Vec3 :=
  let a := (getV pts k - getV pts j).squaredNorm
  let b := (getV pts i - getV pts k).squaredNorm
  let c := (getV pts j - getV pts i).squaredNorm
  let s := barySumSpec pts i j k
  (a * (b + c - a) / s) • getV pts i + (b * (a + c - b) / s) • getV pts j +
    (c * (a + b - c) / s) • getV pts k

/-- The spec's circumradius², in Heron form. -/
noncomputable def circumRadius2Spec (pts : List Vec3) (i j k : Nat) : ℝ :=
  let a := (getV pts k - getV pts j).squaredNorm
  let b := (getV pts i - getV pts k).squaredNorm
  let c := (getV pts j - getV pts i).squaredNorm
  (a * b * c) / ((Real.sqrt a + Real.sqrt b + Real.sqrt c) *
    (Real.sqrt b + Real.sqrt c - Real.sqrt a) *
    (Real.sqrt c + Real.sqrt a - Real.sqrt b) *
    (Real.sqrt a + Real.sqrt b - Real.sqrt c))

/-- The spec's h² = r² − circumradius². -/
noncomputable def ballHeight2Spec (pts : List Vec3) (i j k : Nat) (r : ℝ) : ℝ :=
  r * r - circumRadius2Spec pts i j k

/-- The spec's unit triangle normal (v2−v1)×(v3−v1), normalized. -/
noncomputable def unitTriNormalSpec (pts : List Vec3) (i j k : Nat) : Vec3 :=
  let n := (getV pts j - getV pts i).cross (getV pts k - getV pts i)
  n.sdiv n.norm

/-- The spec's triangle normal after the flip: "Flip n so that
n·(n1+n2+n3) ≥ 0", i.e. negated exactly when the dot with the plain sum of
the three vertex normals is negative. -/
noncomputable def flippedNormalSpec (pts nms : List Vec3) (i j k : Nat) : Vec3 :=
  let n := unitTriNormalSpec pts i j k
  if n.dot (getV nms i + getV nms j + getV nms k) < 0 then (-1 : ℝ) • n else n

theorem dot_sdiv_right (a b : Vec3) (s : ℝ) : a.dot (b.sdiv s) = a.dot b / s := by
  simp only [Vec3.dot, Vec3.sdiv]; ring

/-- The code tests the flip against the normalized normal sum, the spec
against the plain sum; the two tests agree. -/
theorem flip_test_agree (n s : Vec3) :
    (n.dot (s.sdiv s.norm) < 0) ↔ (n.dot s < 0) := by
  rw [dot_sdiv_right]
  rcases lt_or_eq_of_le (Vec3.norm_nonneg s) with h | h
  · constructor
    · intro hlt
      rcases div_neg_iff.mp hlt with ⟨_, hb⟩ | ⟨ha, _⟩
      · linarith
      · exact ha
    · intro ha; exact div_neg_of_neg_of_pos ha h
  · rw [← h]
    have hs : s = 0 := Vec3.norm_eq_zero_iff.mp h.symm
    subst hs
    simp [Vec3.dot, Vec3.zero_def]

theorem dot_neg_smul (n s : Vec3) : ((-1 : ℝ) • n).dot s = -(n.dot s) := by
  simp only [Vec3.smul_def, Vec3.dot]; ring

theorem flippedNormalSpec_dot_nonneg (pts nms : List Vec3) (i j k : Nat) :
    0 ≤ (flippedNormalSpec pts nms i j k).dot (getV nms i + getV nms j + getV nms k) := by
  unfold flippedNormalSpec
  by_cases h : (unitTriNormalSpec pts i j k).dot (getV nms i + getV nms j + getV nms k) < 0
  · rw [if_pos h, dot_neg_smul]; linarith
  · rw [if_neg h]; linarith [not_lt.mp h]

/-- The flip as written in the code (test against the normalized normal
sum) equals the flip as written in the spec (test against the plain sum). -/
theorem flippedNormalSpec_eq_code (pts nms : List Vec3) (i j k : Nat) :
    (if (unitTriNormalSpec pts i j k).dot
        ((getV nms i + getV nms j + getV nms k).sdiv
          (getV nms i + getV nms j + getV nms k).norm) < 0
     then (-1 : ℝ) • unitTriNormalSpec pts i j k else unitTriNormalSpec pts i j k) =
    flippedNormalSpec pts nms i j k := by
  unfold flippedNormalSpec
  exact if_congr (flip_test_agree _ _) rfl rfl

/-- `ComputeBallCenter`, rewritten through the spec-side quantities. -/
theorem ComputeBallCenter_eq (pts nms : List Vec3) (i j k : Nat) (r : ℝ) :
    ComputeBallCenter pts nms i j k r =
      if barySumSpec pts i j k < 1e-16 then none
      else if 0 ≤ ballHeight2Spec pts i j k r then
        some (circumcenterSpec pts i j k +
          Real.sqrt (ballHeight2Spec pts i j k r) • flippedNormalSpec pts nms i j k)
      else none := by
  unfold ComputeBallCenter flippedNormalSpec unitTriNormalSpec circumcenterSpec
    ballHeight2Spec circumRadius2Spec barySumSpec
  simp only []
  split_ifs
  all_goals try rfl
  all_goals rename_i hc hd
  all_goals
    first
    | exact absurd ((flip_test_agree _ _).mp hc) hd
    | exact absurd ((flip_test_agree _ _).mpr hd) hc

/-- C1.  For every three vertex indices and radius r, `ComputeBallCenter`
returns a center iff the barycentric weight sum S = α+β+γ is at least
1e-16 and h² = r² − circumradius² is non-negative; on success the returned
center equals the α,β,γ-weighted circumcenter P plus √h² times the unit
triangle normal (v2−v1)×(v3−v1), flipped when necessary so that its dot
with the sum of the three vertex normals is non-negative. -/
theorem computeBallCenter_characterization (pts nms : List Vec3) (i j k : Nat)
    (r : ℝ) (c : Vec3) :
    ComputeBallCenter pts nms i j k r = some c ↔
      1e-16 ≤ barySumSpec pts i j k ∧
      0 ≤ ballHeight2Spec pts i j k r ∧
      c = circumcenterSpec pts i j k +
            Real.sqrt (ballHeight2Spec pts i j k r) • flippedNormalSpec pts nms i j k ∧
      0 ≤ (flippedNormalSpec pts nms i j k).dot
            (getV nms i + getV nms j + getV nms k) := by
  rw [ComputeBallCenter_eq]
  split_ifs with h1 h2
  · simp only [false_iff, reduceCtorEq]
    rintro ⟨hS, -⟩
    linarith
  · rw [Option.some_inj]
    constructor
    · intro hc
      exact ⟨not_lt.mp h1, h2, hc.symm, flippedNormalSpec_dot_nonneg pts nms i j k⟩
    · rintro ⟨-, -, hc, -⟩
      exact hc.symm
  · simp only [false_iff, reduceCtorEq]
    rintro ⟨-, hh, -⟩
    exact h2 hh

/-- `BallPivoting::ComputeFaceNormal(v0, v1, v2)`: normalized
(v1−v0)×(v2−v0); left unnormalized (zero) when its norm is not positive. -/
noncomputable def ComputeFaceNormal (v0 v1 v2 : Vec3) : Vec3 :=
  let normal := (v1 - v0).cross (v2 - v0)
  let n := normal.norm
  if 0 < n then normal.sdiv n else normal

/-- `BallPivoting::IsCompatible(v0, v1, v2)` on vertex indices. -/
noncomputable def IsCompatible (pts nms : List Vec3) (i j k : Nat) : Bool :=
  let normal := ComputeFaceNormal (getV pts i) (getV pts j) (getV pts k)
  let normal := if normal.dot (getV nms i) < -1e-16 then (-1 : ℝ) • normal else normal
  if -1e-16 < normal.dot (getV nms i) ∧ -1e-16 < normal.dot (getV nms j) ∧
      -1e-16 < normal.dot (getV nms k) then true else false

/-- Claim C8's reading of `IsCompatible`: the face normal is oriented so
that its dot with v0's normal is non-negative (i.e. flipped when that dot
is negative), and the result is true iff the dots of the oriented normal
with the three vertex normals are all ≥ −1e-16. -/
noncomputable def IsCompatibleClaim (pts nms : List Vec3) (i j k : Nat) : Prop :=
  let normal := ComputeFaceNormal (getV pts i) (getV pts j) (getV pts k)
  let oriented := (if normal.dot (getV nms i) < 0 then (-1 : ℝ) • normal else normal)
  (-1e-16 ≤ oriented.dot (getV nms i)) ∧ (-1e-16 ≤ oriented.dot (getV nms j)) ∧
    (-1e-16 ≤ oriented.dot (getV nms k))

/-! ### Topology-store node types -/

/-- `BallPivotingVertex::Type`. -/
inductive VType
  | Orphan
  | Front
  | Inner
  deriving DecidableEq

/-- `BallPivotingEdge::Type`. -/
inductive EType
  | Border
  | Front
  | Inner
  deriving DecidableEq

/-- `BallPivotingVertex::UpdateType`, as a function of the types of the
vertex's incident edges: `Orphan` when there are none, and otherwise the
loop returns `Front` as soon as it sees an edge whose type is not `Inner`,
falling through to `Inner`. -/
def UpdateTypeFn (ts : List EType) : VType :=
  if ts.isEmpty then VType.Orphan
  else if ts.any (fun t => t != EType.Inner) then VType.Front
  else VType.Inner

/-- The face normal after the code's orientation step: flipped exactly when
its dot with v0's normal is < −1e-16. -/
noncomputable def orientedFaceNormal (pts nms : List Vec3) (i j k : Nat) : Vec3 :=
  let normal := ComputeFaceNormal (getV pts i) (getV pts j) (getV pts k)
  if normal.dot (getV nms i) < -1e-16 then (-1 : ℝ) • normal else normal

/-- C8 (amended).  `IsCompatible(v0,v1,v2)` flips the face normal when its
dot with v0's normal is strictly below −1e-16 (not whenever it is
negative), and returns true iff the dots of the resulting normal with the
three vertex normals are all strictly greater than −1e-16 (not ≥ −1e-16). -/
theorem isCompatible_characterization (pts nms : List Vec3) (i j k : Nat) :
    IsCompatible pts nms i j k = true ↔
      -1e-16 < (orientedFaceNormal pts nms i j k).dot (getV nms i) ∧
      -1e-16 < (orientedFaceNormal pts nms i j k).dot (getV nms j) ∧
      -1e-16 < (orientedFaceNormal pts nms i j k).dot (getV nms k) := by
  unfold IsCompatible orientedFaceNormal
  simp only []
  split_ifs with h1 h2 <;> simp_all

/-- The triangle used in the C8 and C5 counterexamples. -/
def ptsCex : List Vec3 := [⟨0, 0, 0⟩, ⟨1, 0, 0⟩, ⟨0, 1, 0⟩]

/-- Vertex normals for the C8 counterexample: all equal to (0,0,−1e-16). -/
def nmsCex : List Vec3 := [⟨0, 0, -1e-16⟩, ⟨0, 0, -1e-16⟩, ⟨0, 0, -1e-16⟩]

theorem faceNormal_cex :
    ComputeFaceNormal (getV ptsCex 0) (getV ptsCex 1) (getV ptsCex 2) = ⟨0, 0, 1⟩ := by
  show ComputeFaceNormal ⟨0, 0, 0⟩ ⟨1, 0, 0⟩ ⟨0, 1, 0⟩ = ⟨0, 0, 1⟩
  unfold ComputeFaceNormal Vec3.norm
  simp only [Vec3.sub_def, Vec3.cross, Vec3.squaredNorm]
  norm_num [Real.sqrt_one, Vec3.sdiv]

theorem dot_cex_eval (m : Nat) (hm : m < 3) :
    Vec3.dot ⟨0, 0, 1⟩ (getV nmsCex m) = -1e-16 := by
  interval_cases m <;>
  · show Vec3.dot ⟨0, 0, 1⟩ ⟨0, 0, -1e-16⟩ = -1e-16
    unfold Vec3.dot
    norm_num

theorem isCompatible_cex_eval : IsCompatible ptsCex nmsCex 0 1 2 = false := by
  unfold IsCompatible
  simp only []
  rw [faceNormal_cex]
  have hin : (if Vec3.dot ⟨0, 0, 1⟩ (getV nmsCex 0) < -1e-16
      then (-1 : ℝ) • (⟨0, 0, 1⟩ : Vec3) else (⟨0, 0, 1⟩ : Vec3)) = ⟨0, 0, 1⟩ :=
    if_neg (by rw [dot_cex_eval 0 (by norm_num)]; norm_num)
  rw [hin, dot_cex_eval 0 (by norm_num)]
  rw [if_neg (fun hcon => absurd hcon.1 (by norm_num))]

theorem isCompatibleClaim_cex_eval : IsCompatibleClaim ptsCex nmsCex 0 1 2 := by
  unfold IsCompatibleClaim
  simp only []
  rw [faceNormal_cex]
  have hin : (if Vec3.dot ⟨0, 0, 1⟩ (getV nmsCex 0) < 0
      then (-1 : ℝ) • (⟨0, 0, 1⟩ : Vec3) else (⟨0, 0, 1⟩ : Vec3)) =
      (-1 : ℝ) • (⟨0, 0, 1⟩ : Vec3) :=
    if_pos (by rw [dot_cex_eval 0 (by norm_num)]; norm_num)
  rw [hin]
  have hneg : ∀ m : Nat, m < 3 →
      Vec3.dot ((-1 : ℝ) • ⟨0, 0, 1⟩) (getV nmsCex m) = 1e-16 := by
    intro m hm
    interval_cases m <;>
    · show Vec3.dot ((-1 : ℝ) • ⟨0, 0, 1⟩) ⟨0, 0, -1e-16⟩ = 1e-16
      rw [Vec3.smul_def]
      unfold Vec3.dot
      norm_num
  refine ⟨?_, ?_, ?_⟩
  · rw [hneg 0 (by norm_num)]; norm_num
  · rw [hneg 1 (by norm_num)]; norm_num
  · rw [hneg 2 (by norm_num)]; norm_num

/-- C8 counterexample: with the triangle (0,0,0),(1,0,0),(0,1,0) and all
three vertex normals equal to (0,0,−1e-16), the face normal's dot with
v0's normal is exactly −1e-16, so the code does not flip and then rejects
(strict > −1e-16 fails), while the claim's description (orient to
non-negative dot, then accept at ≥ −1e-16) accepts. -/
theorem isCompatible_claim_cex :
    ¬ ((IsCompatible ptsCex nmsCex 0 1 2 = true) ↔ IsCompatibleClaim ptsCex nmsCex 0 1 2) := by
  intro h
  have := h.mpr isCompatibleClaim_cex_eval
  rw [isCompatible_cex_eval] at this
  exact Bool.false_ne_true this

/-- C5 counterexample: a vertex whose single incident edge is `Border` is
classified `Front` by `UpdateType`, although none of its incident edges is
`Front`; the claim's "Front iff at least one incident edge is Front" fails. -/
theorem updateType_claim_cex :
    ¬ (UpdateTypeFn [EType.Border] = VType.Front ↔ EType.Front ∈ [EType.Border]) := by
  decide

/-- C5 (amended).  `UpdateType` classifies a vertex `Orphan` iff it has no
incident edges, `Front` iff it has an incident edge and at least one
incident edge is not `Inner` (`Front` or `Border`), and `Inner` iff it has
an incident edge and all incident edges are `Inner`. -/
theorem updateTypeFn_characterization (ts : List EType) :
    (UpdateTypeFn ts = VType.Orphan ↔ ts = []) ∧
    (UpdateTypeFn ts = VType.Front ↔ ts ≠ [] ∧ ∃ t ∈ ts, t ≠ EType.Inner) ∧
    (UpdateTypeFn ts = VType.Inner ↔ ts ≠ [] ∧ ∀ t ∈ ts, t = EType.Inner) := by
  unfold UpdateTypeFn
  split_ifs with h1 h2
  · rw [List.isEmpty_iff] at h1
    subst h1
    exact ⟨by simp, by simp, by simp⟩
  · rw [List.isEmpty_iff] at h1
    rw [List.any_eq_true] at h2
    simp only [bne_iff_ne, ne_eq] at h2
    obtain ⟨t, ht, hne⟩ := h2
    refine ⟨⟨fun h => absurd h (by decide), fun h => absurd h h1⟩,
      ⟨fun _ => ⟨h1, t, ht, hne⟩, fun _ => rfl⟩,
      ⟨fun h => absurd h (by decide), ?_⟩⟩
    rintro ⟨-, hall⟩
    exact absurd (hall t ht) hne
  · rw [List.isEmpty_iff] at h1
    rw [List.any_eq_true] at h2
    push_neg at h2
    simp only [bne_iff_ne, ne_eq, not_not] at h2
    refine ⟨⟨fun h => absurd h (by decide), fun h => absurd h h1⟩,
      ⟨fun h => absurd h (by decide), ?_⟩,
      ⟨fun _ => ⟨h1, h2⟩, fun _ => rfl⟩⟩
    rintro ⟨-, t, ht, hne⟩
    exact absurd (h2 t ht) hne

/-! ### The topology store and engine state -/

/-- `BallPivotingEdge` (topological data: the oriented endpoints and the
two triangle slots refer to vertex indices and triangle arena indices). -/
structure EdgeData where
  source : Nat
  target : Nat
  tri0 : Option Nat
  tri1 : Option Nat
  etype : EType

instance : Inhabited EdgeData := ⟨⟨0, 0, none, none, EType.Front⟩⟩

/-- `BallPivotingTriangle`. -/
structure TriData where
  v0 : Nat
  v1 : Nat
  v2 : Nat
  center : Vec3

instance : Inhabited TriData := ⟨⟨0, 0, 0, 0⟩⟩

/-- The mutable engine state: per-vertex incident-edge sets (`edges_` of
each `BallPivotingVertex`) and cached vertex types, the edge and triangle
arenas, the front queue (`edge_front_`), the border list (`border_edges_`)
and the output mesh triangles/normals. -/
structure BPState where
  vedges : List (List Nat)
  vtype : List VType
  edges : List EdgeData
  tris : List TriData
  front : List Nat
  border : List Nat
  meshTris : List (Nat × Nat × Nat)
  meshNormals : List Vec3

/-- Modelled from the spec (§6, external interfaces): the collaborators
consumed by the engine, which are not part of the source file: the input
point cloud (positions, normals, has-normals flag), the spatial index
`radius_search` (the core only uses the returned indices, not the squared
distances), `IntersectionTest::PointsCoplanar` and
`IntersectionTest::LineSegmentsMinimumDistance`. -/
structure Env where
  pts : List Vec3
  nms : List Vec3
  hasNormals : Bool
  sr : Vec3 → ℝ → List Nat
  coplanar : Vec3 → Vec3 → Vec3 → Vec3 → Bool
  segDist : Vec3 → Vec3 → Vec3 → Vec3 → ℝ

/-- Spec §6: the indices returned by `radius_search` "refer into the same
point sequence". -/
def SROk (env : Env) : Prop :=
  ∀ q r, ∀ i ∈ env.sr q r, i < env.pts.length

/-- Access an edge of the arena. -/
def getE (s : BPState) (eid : Nat) : EdgeData := s.edges.getD eid default

/-- Access a triangle of the arena. -/
def getT (s : BPState) (tid : Nat) : TriData := s.tris.getD tid default

/-- Access a vertex's incident-edge set. -/
def getVE (s : BPState) (v : Nat) : List Nat := s.vedges.getD v []

/-- Access a vertex's cached type. -/
def getVT (s : BPState) (v : Nat) : VType := s.vtype.getD v VType.Orphan

/-- Error conditions of the engine.  `missingNormals` and `invalidRadius`
are the two `LogError`s of `Run` (Open3D's `LogError` throws);
`nullOpposite` is the `LogError` in `FindCandidateVertex` when
`GetOppositeVertex` returns null; `nullLinkingEdge` stands for the C++
undefined behavior of dereferencing a null `GetLinkingEdge` result right
after `CreateTriangle`. -/
inductive Err
  | missingNormals
  | invalidRadius
  | nullOpposite
  | nullLinkingEdge
  deriving DecidableEq

/-- The vertex of a triangle whose index differs from both edge endpoints
(the `if`/`else if`/`else` chain of `GetOppositeVertex`). -/
def oppositeOfTri (T : TriData) (src tgt : Nat) : Nat :=
  if T.v0 ≠ src ∧ T.v0 ≠ tgt then T.v0
  else if T.v1 ≠ src ∧ T.v1 ≠ tgt then T.v1
  else T.v2

/-- `BallPivotingEdge::GetOppositeVertex`: null iff `triangle0` is null. -/
def GetOppositeVertex (s : BPState) (e : EdgeData) : Option Nat :=
  match e.tri0 with
  | some t => some (oppositeOfTri (getT s t) e.source e.target)
  | none => none

/-- `BallPivotingEdge::AddAdjacentTriangle(triangle)` on edge `eid` and
triangle `tid`.  In the slot-0 branch the code calls `GetOppositeVertex`
after storing `triangle0_ = triangle`, so the opposite vertex always
exists there (its `LogError` branch is unreachable) and the orientation
update may swap source and target. -/
noncomputable def AddAdjacentTriangle (env : Env) (s : BPState) (eid tid : Nat) : BPState :=
  let e := getE s eid
  if some tid ≠ e.tri0 ∧ some tid ≠ e.tri1 then
    if e.tri0 = none then
      let e1 : EdgeData := { e with tri0 := some tid, etype := EType.Front }
      let opp := oppositeOfTri (getT s tid) e1.source e1.target
      let trn := (getV env.pts e1.target - getV env.pts e1.source).cross
          (getV env.pts opp - getV env.pts e1.source)
      let trn := trn.sdiv trn.norm
      let ptn := getV env.nms e1.source + getV env.nms e1.target + getV env.nms opp
      let ptn := ptn.sdiv ptn.norm
      let e2 := (if ptn.dot trn < 0
        then { e1 with source := e1.target, target := e1.source } else e1)
      { s with edges := s.edges.set eid e2 }
    else if e.tri1 = none then
      { s with edges := s.edges.set eid { e with tri1 := some tid, etype := EType.Inner } }
    else s
  else s

/-- `BallPivoting::GetLinkingEdge(v0, v1)`: the nested loops over the two
incident-edge sets, returning the first edge of `u`'s set whose
(source, target) index pair equals that of some edge of `w`'s set. -/
def GetLinkingEdge (s : BPState) (u w : Nat) : Option Nat :=
  (getVE s u).findSome? (fun e0 =>
    ((getVE s w).find? (fun e1 =>
      ((getE s e0).source == (getE s e1).source) &&
        ((getE s e0).target == (getE s e1).target))).map (fun _ => e0))

/-- `std::unordered_set::insert` of an edge id into an incident-edge set. -/
def insertEdge (l : List Nat) (e : Nat) : List Nat := if e ∈ l then l else l ++ [e]

/-- One `GetLinkingEdge` / create-if-null / `AddAdjacentTriangle` /
insert-into-both-endpoint-sets block of `CreateTriangle`, for the vertex
pair (u, w). -/
noncomputable def addEdgePair (env : Env) (s : BPState) (u w tid : Nat) : BPState :=
  let eo := GetLinkingEdge s u w
  let eid := (match eo with
    | some eid => eid
    | none => s.edges.length)
  let s0 := (match eo with
    | some _ => s
    | none => { s with edges := s.edges ++ [⟨u, w, none, none, EType.Front⟩] })
  let s1 := AddAdjacentTriangle env s0 eid tid
  let s2 := { s1 with vedges := s1.vedges.set u (insertEdge (getVE s1 u) eid) }
  { s2 with vedges := s2.vedges.set w (insertEdge (getVE s2 w) eid) }

/-- `BallPivotingVertex::UpdateType` on vertex `v` of the state. -/
def UpdateType (s : BPState) (v : Nat) : BPState :=
  { s with vtype :=
      s.vtype.set v (UpdateTypeFn ((getVE s v).map (fun e => (getE s e).etype))) }

/-- `BallPivoting::CreateTriangle(v0, v1, v2, center)`. -/
noncomputable def CreateTriangle (env : Env) (s : BPState) (v0 v1 v2 : Nat)
    (center : Vec3) : BPState :=
  let tid := s.tris.length
  let s0 := { s with tris := s.tris ++ [⟨v0, v1, v2, center⟩] }
  let s1 := addEdgePair env s0 v0 v1 tid
  let s2 := addEdgePair env s1 v1 v2 tid
  let s3 := addEdgePair env s2 v2 v0 tid
  let s4 := UpdateType (UpdateType (UpdateType s3 v0) v1) v2
  let fn := ComputeFaceNormal (getV env.pts v0) (getV env.pts v1) (getV env.pts v2)
  let tri := (if -1e-16 < fn.dot (getV env.nms v0) then (v0, v1, v2) else (v0, v2, v1))
  { s4 with meshTris := s4.meshTris ++ [tri], meshNormals := s4.meshNormals ++ [fn] }

/-- One iteration of the candidate loop of `FindCandidateVertex`.
The accumulator is (min_candidate, min_angle, candidate_center). -/
noncomputable def candidateStep (env : Env) (src tgt opp : Nat) (mp v a : Vec3)
    (radius : ℝ) (indices : List Nat) (acc : Option Nat × ℝ × Vec3) (nbidx : Nat) :
    Option Nat × ℝ × Vec3 :=
  if nbidx = src ∨ nbidx = tgt ∨ nbidx = opp then acc
  else if env.coplanar (getV env.pts src) (getV env.pts tgt) (getV env.pts opp)
        (getV env.pts nbidx) = true ∧
      (env.segDist mp (getV env.pts nbidx) (getV env.pts src) (getV env.pts opp) < 1e-12 ∨
       env.segDist mp (getV env.pts nbidx) (getV env.pts tgt) (getV env.pts opp) < 1e-12) then
    acc
  else
    match ComputeBallCenter env.pts env.nms src tgt nbidx radius with
    | none => acc
    | some nc =>
      let b := (nc - mp).sdiv (nc - mp).norm
      let cosinus := min (a.dot b) 1
      let cosinus := max cosinus (-1)
      let angle := Real.arccos cosinus
      let c := a.cross b
      let angle := (if c.dot v < 0 then 2 * Real.pi - angle else angle)
      if acc.2.1 ≤ angle then acc
      else
        let empty_ball := indices.all (fun nb =>
          if nb = src ∨ nb = tgt ∨ nb = nbidx then true
          else if (nc - getV env.pts nb).norm < radius - 1e-16 then false else true)
        if empty_ball then (some nbidx, angle, nc) else acc

/-- `BallPivoting::FindCandidateVertex(edge, radius, candidate_center)`.
Returns the found candidate (or none) together with the final value of the
`candidate_center` out-parameter (initialized to `0` here; the caller only
reads it when a candidate was found). -/
noncomputable def FindCandidateVertex (env : Env) (s : BPState) (eid : Nat)
    (radius : ℝ) : Except Err (Option Nat × Vec3) :=
  let e := getE s eid
  match e.tri0 with
  | none => Except.error Err.nullOpposite
  | some t =>
    let src := e.source
    let tgt := e.target
    let opp := oppositeOfTri (getT s t) src tgt
    let mp := (0.5 : ℝ) • (getV env.pts src + getV env.pts tgt)
    let center := (getT s t).center
    let v := getV env.pts tgt - getV env.pts src
    let v := v.sdiv v.norm
    let a := center - mp
    let a := a.sdiv a.norm
    let indices := env.sr mp (2 * radius)
    let res := indices.foldl (candidateStep env src tgt opp mp v a radius indices)
      (none, 2 * Real.pi, 0)
    Except.ok (res.1, res.2.2)

/-- Whether an optional linking edge exists and is not `Front`. -/
def linkNotFront (s : BPState) (o : Option Nat) : Bool :=
  match o with
  | some x => (getE s x).etype != EType.Front
  | none => false

/-- Whether an optional linking edge exists and is `Inner`. -/
def linkIsInner (s : BPState) (o : Option Nat) : Bool :=
  match o with
  | some x => (getE s x).etype == EType.Inner
  | none => false

/-- The border-marking of `ExpandTriangulation`: `edge->type_ = Border`
and `border_edges_.push_back(edge)`. -/
def markBorder (s : BPState) (eid : Nat) : BPState :=
  { s with edges := s.edges.set eid { getE s eid with etype := EType.Border },
           border := s.border ++ [eid] }

/-- The successful tail of an `ExpandTriangulation` iteration:
`CreateTriangle(source, target, candidate, center)`, then re-fetch the two
linking edges and `push_front` each one that is Front. -/
noncomputable def expandCommit (env : Env) (s : BPState) (src tgt cand : Nat)
    (center : Vec3) : Except Err BPState :=
  let s1 := CreateTriangle env s src tgt cand center
  match GetLinkingEdge s1 cand src, GetLinkingEdge s1 cand tgt with
  | some x0, some x1 =>
    let s2 := (if (getE s1 x0).etype = EType.Front
      then { s1 with front := x0 :: s1.front } else s1)
    let s3 := (if (getE s2 x1).etype = EType.Front
      then { s2 with front := x1 :: s2.front } else s2)
    Except.ok s3
  | _, _ => Except.error Err.nullLinkingEdge

/-- The branch of an `ExpandTriangulation` iteration on the result of
`FindCandidateVertex`: mark Border when there is no candidate, the
candidate is Inner, `IsCompatible` fails, or an existing linking edge to
source or target is not Front; otherwise commit the triangle. -/
noncomputable def expandDecide (env : Env) (s : BPState) (eid : Nat)
    (candOpt : Option Nat) (center : Vec3) : Except Err BPState :=
  let e := getE s eid
  match candOpt with
  | none => Except.ok (markBorder s eid)
  | some cand =>
    if getVT s cand = VType.Inner ∨
        IsCompatible env.pts env.nms cand e.source e.target = false then
      Except.ok (markBorder s eid)
    else if linkNotFront s (GetLinkingEdge s cand e.source) = true ∨
        linkNotFront s (GetLinkingEdge s cand e.target) = true then
      Except.ok (markBorder s eid)
    else expandCommit env s e.source e.target cand center

/-- The body of an `ExpandTriangulation` iteration after the pop: the
staleness check, then `FindCandidateVertex` and the branch on its result. -/
noncomputable def expandBody (env : Env) (s : BPState) (eid : Nat) (radius : ℝ) :
    Except Err BPState :=
  if (getE s eid).etype ≠ EType.Front then Except.ok s
  else
    match FindCandidateVertex env s eid radius with
    | Except.error er => Except.error er
    | Except.ok (candOpt, center) => expandDecide env s eid candOpt center

/-- One iteration of the `while` loop of
`BallPivoting::ExpandTriangulation(radius)`: pop the head of the front
queue and run the body on it. -/
noncomputable def expandStep (env : Env) (s : BPState) (radius : ℝ) :
    Except Err BPState :=
  match s.front with
  | [] => Except.ok s
  | eid :: rest => expandBody env { s with front := rest } eid radius

/-- The `while (!edge_front_.empty())` loop of `ExpandTriangulation`, with
fuel; `ok none` means the fuel ran out. -/
noncomputable def expandLoop (env : Env) : Nat → BPState → ℝ → Except Err (Option BPState)
  | 0, _, _ => Except.ok none
  | fuel + 1, s, radius =>
    match s.front with
    | [] => Except.ok (some s)
    | _ :: _ =>
      match expandStep env s radius with
      | Except.error er => Except.error er
      | Except.ok s1 => expandLoop env fuel s1 radius

/-- `BallPivoting::TryTriangleSeed(v0, v1, v2, nb_indices, radius, center)`:
`some center` where the C++ returns true. -/
noncomputable def TryTriangleSeed (env : Env) (s : BPState) (v0 v1 v2 : Nat)
    (nbIndices : List Nat) (radius : ℝ) : Option Vec3 :=
  if IsCompatible env.pts env.nms v0 v1 v2 = false then none
  else if linkIsInner s (GetLinkingEdge s v0 v2) = true then none
  else if linkIsInner s (GetLinkingEdge s v1 v2) = true then none
  else
    match ComputeBallCenter env.pts env.nms v0 v1 v2 radius with
    | none => none
    | some center =>
      if nbIndices.all (fun nb =>
          if nb = v0 ∨ nb = v1 ∨ nb = v2 then true
          else if (center - getV env.pts nb).norm < radius - 1e-16 then false else true)
      then some center else none

/-- The inner loop of `TrySeed` (nbidx1 ranging over the positions after
nbidx0): the first still-orphan neighbor distinct from `v` for which
`TryTriangleSeed` succeeds, with its center. -/
noncomputable def trySeedInner (env : Env) (s : BPState) (v nb0 : Nat)
    (rest nbIndices : List Nat) (radius : ℝ) : Option (Nat × Vec3) :=
  match rest with
  | [] => none
  | i1 :: rest1 =>
    if getVT s i1 ≠ VType.Orphan then trySeedInner env s v nb0 rest1 nbIndices radius
    else if i1 = v then trySeedInner env s v nb0 rest1 nbIndices radius
    else
      match TryTriangleSeed env s v nb0 i1 nbIndices radius with
      | some center => some (i1, center)
      | none => trySeedInner env s v nb0 rest1 nbIndices radius

/-- The commit part of a `TrySeed` outer iteration: the three
Front-or-absent checks on the linking edges (`continue`, i.e. `(s, false)`,
when one fails), then `CreateTriangle(v, nb0, nb1, center)`, the re-fetch
of the three linking edges with a `push_front` for each Front one, and the
`edge_front_.size() > 0` test (true = return true, false = `continue` with
the mutated state). -/
noncomputable def seedCommit (env : Env) (s : BPState) (v nb0 nb1 : Nat)
    (center : Vec3) : Except Err (BPState × Bool) :=
  if linkNotFront s (GetLinkingEdge s v nb1) = true then Except.ok (s, false)
  else if linkNotFront s (GetLinkingEdge s nb0 nb1) = true then Except.ok (s, false)
  else if linkNotFront s (GetLinkingEdge s v nb0) = true then Except.ok (s, false)
  else
    let s1 := CreateTriangle env s v nb0 nb1 center
    match GetLinkingEdge s1 v nb1, GetLinkingEdge s1 nb0 nb1, GetLinkingEdge s1 v nb0 with
    | some x0, some x1, some x2 =>
      let s2 := (if (getE s1 x0).etype = EType.Front
        then { s1 with front := x0 :: s1.front } else s1)
      let s3 := (if (getE s2 x1).etype = EType.Front
        then { s2 with front := x1 :: s2.front } else s2)
      let s4 := (if (getE s3 x2).etype = EType.Front
        then { s3 with front := x2 :: s3.front } else s3)
      if 0 < s4.front.length then Except.ok (s4, true)
      else Except.ok (s4, false)
    | _, _, _ => Except.error Err.nullLinkingEdge

/-- The outer loop of `TrySeed` over the neighbor list: skip non-orphan
neighbors and `v` itself, search the later positions for a seed partner,
and on a found pair run the commit; a commit returning false `continue`s
the loop with its (possibly mutated) state. -/
noncomputable def trySeedOuter (env : Env) (s : BPState) (v : Nat)
    (outer nbIndices : List Nat) (radius : ℝ) : Except Err (BPState × Bool) :=
  match outer with
  | [] => Except.ok (s, false)
  | i0 :: rest =>
    if getVT s i0 ≠ VType.Orphan then trySeedOuter env s v rest nbIndices radius
    else if i0 = v then trySeedOuter env s v rest nbIndices radius
    else
      match trySeedInner env s v i0 rest nbIndices radius with
      | none => trySeedOuter env s v rest nbIndices radius
      | some (i1, center) =>
        match seedCommit env s v i0 i1 center with
        | Except.error er => Except.error er
        | Except.ok (s1, true) => Except.ok (s1, true)
        | Except.ok (s1, false) => trySeedOuter env s1 v rest nbIndices radius

/-- `BallPivoting::TrySeed(v, radius)`. -/
noncomputable def TrySeed (env : Env) (s : BPState) (v : Nat) (radius : ℝ) :
    Except Err (BPState × Bool) :=
  let indices := env.sr (getV env.pts v) (2 * radius)
  if indices.length < 3 then Except.ok (s, false)
  else trySeedOuter env s v indices indices radius

/-- The loop of `BallPivoting::FindSeedTriangle(radius)` over the vertex
indices: try a seed at each still-orphan vertex and on success immediately
exhaust the front by `ExpandTriangulation`. -/
noncomputable def findSeedLoop (env : Env) (fuel : Nat) (radius : ℝ) :
    List Nat → BPState → Except Err (Option BPState)
  | [], s => Except.ok (some s)
  | vidx :: rest, s =>
    if getVT s vidx = VType.Orphan then
      match TrySeed env s vidx radius with
      | Except.error er => Except.error er
      | Except.ok (s1, b) =>
        if b then
          match expandLoop env fuel s1 radius with
          | Except.error er => Except.error er
          | Except.ok none => Except.ok none
          | Except.ok (some s2) => findSeedLoop env fuel radius rest s2
        else findSeedLoop env fuel radius rest s1
    else findSeedLoop env fuel radius rest s

/-- `BallPivoting::FindSeedTriangle(radius)`. -/
noncomputable def FindSeedTriangle (env : Env) (fuel : Nat) (s : BPState)
    (radius : ℝ) : Except Err (Option BPState) :=
  findSeedLoop env fuel radius (List.range s.vtype.length) s

/-- The decision of the border-revisit loop of `Run` for one border edge:
revive iff `ComputeBallCenter` succeeds on `triangle0`'s corners and the
radius-r search around the center contains no vertex outside that triangle.
(The C++ dereferences `triangle0_` unconditionally; for arena edges it is
always filled, so the `none` branch here is unreachable in reachable
states and conservatively keeps the edge on the border list.) -/
noncomputable def reviveDecision (env : Env) (s : BPState) (eid : Nat)
    (radius : ℝ) : Bool :=
  match (getE s eid).tri0 with
  | none => false
  | some t =>
    let T := getT s t
    match ComputeBallCenter env.pts env.nms T.v0 T.v1 T.v2 radius with
    | none => false
    | some center =>
      (env.sr center radius).all (fun idx => idx == T.v0 || idx == T.v1 || idx == T.v2)

/-- The border-revisit loop body: processes the pending border edges in
order, reviving (type := Front, `push_back` to the front queue, erase from
the border list) those whose decision is positive; returns the kept border
edges in order together with the updated state. -/
noncomputable def revisitGo (env : Env) (radius : ℝ) :
    List Nat → BPState → List Nat × BPState
  | [], s => ([], s)
  | eid :: rest, s =>
    if reviveDecision env s eid radius = true then
      revisitGo env radius rest
        { s with edges := s.edges.set eid { getE s eid with etype := EType.Front },
                 front := s.front ++ [eid] }
    else
      let r := revisitGo env radius rest s
      (eid :: r.1, r.2)

/-- The whole border-revisit pass of `Run` for one radius. -/
noncomputable def borderRevisit (env : Env) (s : BPState) (radius : ℝ) : BPState :=
  let r := revisitGo env radius s.border s
  { r.2 with border := r.1 }

/-- The per-radius body of `Run` after the radius check: border revisit,
then seed search if the front queue is empty, else expansion. -/
noncomputable def runRadius (env : Env) (fuel : Nat) (s : BPState) (radius : ℝ) :
    Except Err (Option BPState) :=
  let s1 := borderRevisit env s radius
  if s1.front.isEmpty then FindSeedTriangle env fuel s1 radius
  else expandLoop env fuel s1 radius

/-- The radius loop of `Run` (each radius is first checked positive). -/
noncomputable def runRadii (env : Env) (fuel : Nat) :
    List ℝ → BPState → Except Err (Option BPState)
  | [], s => Except.ok (some s)
  | r :: rs, s =>
    if r ≤ 0 then Except.error Err.invalidRadius
    else
      match runRadius env fuel s r with
      | Except.error er => Except.error er
      | Except.ok none => Except.ok none
      | Except.ok (some s1) => runRadii env fuel rs s1

/-- The initial engine state built by the `BallPivoting` constructor
(all vertices orphan, empty arenas and work lists; `Run` clears the mesh
triangle list before the radius loop, so it starts empty here). -/
def initState (env : Env) : BPState :=
  { vedges := List.replicate env.pts.length []
    vtype := List.replicate env.pts.length VType.Orphan
    edges := [], tris := [], front := [], border := []
    meshTris := [], meshNormals := [] }

/-- `BallPivoting::Run(radii)`: the returned mesh is its triangle list and
triangle normals; `ok none` means the fuel for the inner loops ran out. -/
noncomputable def Run (env : Env) (radii : List ℝ) (fuel : Nat) :
    Except Err (Option (List (Nat × Nat × Nat) × List Vec3)) :=
  if env.hasNormals = false then Except.error Err.missingNormals
  else
    match runRadii env fuel radii (initState env) with
    | Except.error er => Except.error er
    | Except.ok none => Except.ok none
    | Except.ok (some s1) => Except.ok (some (s1.meshTris, s1.meshNormals))

/-! ### Utility lemmas on list access and the pair predicates -/

theorem getD_set_self {α : Type _} {l : List α} {i : Nat} (h : i < l.length) (a d : α) :
    (l.set i a).getD i d = a := by
  rw [List.getD_eq_getElem?_getD, List.getElem?_set_self h]
  rfl

theorem getD_set_ne {α : Type _} {l : List α} {i j : Nat} (h : i ≠ j) (a d : α) :
    (l.set i a).getD j d = l.getD j d := by
  rw [List.getD_eq_getElem?_getD, List.getElem?_set_ne h, ← List.getD_eq_getElem?_getD]

theorem getD_append_left {α : Type _} {l l2 : List α} {i : Nat} (h : i < l.length) (d : α) :
    (l ++ l2).getD i d = l.getD i d := by
  rw [List.getD_eq_getElem?_getD, List.getElem?_append_left h, ← List.getD_eq_getElem?_getD]

theorem getD_append_len {α : Type _} {l : List α} (x d : α) :
    (l ++ [x]).getD l.length d = x := by
  rw [List.getD_eq_getElem?_getD, List.getElem?_append_right (Nat.le_refl _)]
  simp

theorem mem_insertEdge_self (l : List Nat) (e : Nat) : e ∈ insertEdge l e := by
  unfold insertEdge
  split_ifs with h
  · exact h
  · simp

theorem mem_insertEdge_of_mem {l : List Nat} {x : Nat} (h : x ∈ l) (e : Nat) :
    x ∈ insertEdge l e := by
  unfold insertEdge
  split_ifs
  · exact h
  · simp [h]

theorem mem_insertEdge_iff {l : List Nat} {x e : Nat} :
    x ∈ insertEdge l e ↔ x ∈ l ∨ x = e := by
  unfold insertEdge
  split_ifs with h
  · constructor
    · exact Or.inl
    · rintro (hx | rfl)
      · exact hx
      · exact h
  · simp

/-- Two edges connect the same unordered vertex pair. -/
def samePair (e1 e2 : EdgeData) : Prop :=
  (e1.source = e2.source ∧ e1.target = e2.target) ∨
    (e1.source = e2.target ∧ e1.target = e2.source)

/-- An edge connects the unordered pair (u, w). -/
def pairEq (e : EdgeData) (u w : Nat) : Prop :=
  (e.source = u ∧ e.target = w) ∨ (e.source = w ∧ e.target = u)

theorem pairEq_swap {e : EdgeData} {u w : Nat} (h : pairEq e u w) : pairEq e w u := by
  rcases h with ⟨h1, h2⟩ | ⟨h1, h2⟩
  · exact Or.inr ⟨h1, h2⟩
  · exact Or.inl ⟨h1, h2⟩

theorem samePair_of_pairEq {e1 e2 : EdgeData} {u w : Nat}
    (h1 : pairEq e1 u w) (h2 : pairEq e2 u w) : samePair e1 e2 := by
  rcases h1 with ⟨a1, b1⟩ | ⟨a1, b1⟩ <;> rcases h2 with ⟨a2, b2⟩ | ⟨a2, b2⟩ <;>
    [exact Or.inl ⟨a1.trans a2.symm, b1.trans b2.symm⟩;
     exact Or.inr ⟨a1.trans b2.symm, b1.trans a2.symm⟩;
     exact Or.inr ⟨a1.trans b2.symm, b1.trans a2.symm⟩;
     exact Or.inl ⟨a1.trans a2.symm, b1.trans b2.symm⟩]

/-- The unordered triple of three vertex indices. -/
def tripleF (a b c : Nat) : Finset Nat := {a, b, c}

/-- The unordered corner triple of a triangle. -/
def cornerF (T : TriData) : Finset Nat := tripleF T.v0 T.v1 T.v2

theorem mem_tripleF {x a b c : Nat} : x ∈ tripleF a b c ↔ x = a ∨ x = b ∨ x = c := by
  unfold tripleF
  simp

theorem tripleF_comm (a b c : Nat) :
    tripleF a b c = tripleF b a c ∧ tripleF a b c = tripleF a c b := by
  constructor <;> (apply Finset.ext; intro x; rw [mem_tripleF, mem_tripleF]; tauto)

theorem tripleF_rot (a b c : Nat) : tripleF a b c = tripleF b c a := by
  apply Finset.ext; intro x; rw [mem_tripleF, mem_tripleF]; tauto

/-- `GetOppositeVertex`'s selection: when src and tgt are two distinct
corners of T and T's corners are pairwise distinct, `oppositeOfTri` is the
third corner: a corner, distinct from src and tgt, and the corner triple
equals the triple src, tgt, opposite. -/
theorem oppositeOfTri_spec (T : TriData) (src tgt : Nat)
    (hsrc : src = T.v0 ∨ src = T.v1 ∨ src = T.v2)
    (htgt : tgt = T.v0 ∨ tgt = T.v1 ∨ tgt = T.v2)
    (hne : src ≠ tgt)
    (h01 : T.v0 ≠ T.v1) (h12 : T.v1 ≠ T.v2) (h02 : T.v0 ≠ T.v2) :
    oppositeOfTri T src tgt ≠ src ∧ oppositeOfTri T src tgt ≠ tgt ∧
      cornerF T = tripleF src tgt (oppositeOfTri T src tgt) := by
  have tripeq : ∀ a b c a' b' c' : Nat,
      (∀ x, (x = a ∨ x = b ∨ x = c) ↔ (x = a' ∨ x = b' ∨ x = c')) →
      tripleF a b c = tripleF a' b' c' := by
    intro a b c a' b' c' h
    apply Finset.ext
    intro x
    rw [mem_tripleF, mem_tripleF]
    exact h x
  rcases hsrc with rfl | rfl | rfl <;> rcases htgt with rfl | rfl | rfl
  · exact absurd rfl hne
  · have hopp : oppositeOfTri T T.v0 T.v1 = T.v2 := by
      unfold oppositeOfTri
      rw [if_neg (by tauto), if_neg (by tauto)]
    rw [hopp]
    exact ⟨fun h => h02 h.symm, fun h => h12 h.symm, tripeq _ _ _ _ _ _ (by tauto)⟩
  · have hopp : oppositeOfTri T T.v0 T.v2 = T.v1 := by
      unfold oppositeOfTri
      rw [if_neg (by tauto), if_pos ⟨Ne.symm h01, h12⟩]
    rw [hopp]
    exact ⟨fun h => h01 h.symm, h12, tripeq _ _ _ _ _ _ (by tauto)⟩
  · have hopp : oppositeOfTri T T.v1 T.v0 = T.v2 := by
      unfold oppositeOfTri
      rw [if_neg (by tauto), if_neg (by tauto)]
    rw [hopp]
    exact ⟨fun h => h12 h.symm, fun h => h02 h.symm, tripeq _ _ _ _ _ _ (by tauto)⟩
  · exact absurd rfl hne
  · have hopp : oppositeOfTri T T.v1 T.v2 = T.v0 := by
      unfold oppositeOfTri
      rw [if_pos ⟨h01, h02⟩]
    rw [hopp]
    exact ⟨h01, h02, tripeq _ _ _ _ _ _ (by tauto)⟩
  · have hopp : oppositeOfTri T T.v2 T.v0 = T.v1 := by
      unfold oppositeOfTri
      rw [if_neg (by tauto), if_pos ⟨h12, Ne.symm h01⟩]
    rw [hopp]
    exact ⟨h12, fun h => h01 h.symm, tripeq _ _ _ _ _ _ (by tauto)⟩
  · have hopp : oppositeOfTri T T.v2 T.v1 = T.v0 := by
      unfold oppositeOfTri
      rw [if_pos ⟨h02, h01⟩]
    rw [hopp]
    exact ⟨h02, h01, tripeq _ _ _ _ _ _ (by tauto)⟩
  · exact absurd rfl hne

/-! ### `GetLinkingEdge`: soundness, completeness, determinism -/

theorem GetLinkingEdge_mem {s : BPState} {u w eid : Nat}
    (h : GetLinkingEdge s u w = some eid) :
    eid ∈ getVE s u ∧ ∃ e1 ∈ getVE s w,
      (getE s eid).source = (getE s e1).source ∧
        (getE s eid).target = (getE s e1).target := by
  unfold GetLinkingEdge at h
  rw [List.findSome?_eq_some_iff] at h
  obtain ⟨l1, a, l2, hl, ha, -⟩ := h
  rw [Option.map_eq_some'] at ha
  obtain ⟨e1, hfind, rfl⟩ := ha
  have hmem : a ∈ getVE s u := by rw [hl]; simp
  have he1mem := List.mem_of_find?_eq_some hfind
  have hp := List.find?_some hfind
  rw [Bool.and_eq_true, beq_iff_eq, beq_iff_eq] at hp
  exact ⟨hmem, e1, he1mem, hp.1, hp.2⟩

theorem GetLinkingEdge_sound {s : BPState} {u w eid n : Nat}
    (hu : u < n) (hw : w < n) (hne : u ≠ w)
    (hlt : ∀ v, v < n → ∀ e ∈ getVE s v, e < s.edges.length)
    (hinc : ∀ v, v < n → ∀ e ∈ getVE s v,
      (getE s e).source = v ∨ (getE s e).target = v)
    (huniq : ∀ e1, e1 < s.edges.length → ∀ e2, e2 < s.edges.length →
      samePair (getE s e1) (getE s e2) → e1 = e2)
    (h : GetLinkingEdge s u w = some eid) :
    eid < s.edges.length ∧ pairEq (getE s eid) u w := by
  obtain ⟨hmemu, e1, hmemw, hs, ht⟩ := GetLinkingEdge_mem h
  have heid_lt := hlt u hu _ hmemu
  have he1_lt := hlt w hw _ hmemw
  have heq : eid = e1 := huniq _ heid_lt _ he1_lt (Or.inl ⟨hs, ht⟩)
  subst heq
  refine ⟨heid_lt, ?_⟩
  rcases hinc u hu _ hmemu with h1 | h1 <;> rcases hinc w hw _ hmemw with h2 | h2
  · exact absurd (h1.symm.trans h2) hne
  · exact Or.inl ⟨h1, h2⟩
  · exact Or.inr ⟨h2, h1⟩
  · exact absurd (h1.symm.trans h2) hne

theorem GetLinkingEdge_isSome {s : BPState} {u w x : Nat}
    (hmu : x ∈ getVE s u) (hmw : x ∈ getVE s w) :
    ∃ y, GetLinkingEdge s u w = some y := by
  rw [← Option.isSome_iff_exists]
  unfold GetLinkingEdge
  rw [List.findSome?_isSome_iff]
  refine ⟨x, hmu, ?_⟩
  rw [Option.isSome_map']
  rw [List.find?_isSome]
  exact ⟨x, hmw, by simp⟩

theorem GetLinkingEdge_eq {s : BPState} {u w x n : Nat}
    (hu : u < n) (hw : w < n) (hne : u ≠ w)
    (hlt : ∀ v, v < n → ∀ e ∈ getVE s v, e < s.edges.length)
    (hinc : ∀ v, v < n → ∀ e ∈ getVE s v,
      (getE s e).source = v ∨ (getE s e).target = v)
    (huniq : ∀ e1, e1 < s.edges.length → ∀ e2, e2 < s.edges.length →
      samePair (getE s e1) (getE s e2) → e1 = e2)
    (hx : x < s.edges.length)
    (hpair : pairEq (getE s x) u w)
    (hregs : x ∈ getVE s (getE s x).source) (hregt : x ∈ getVE s (getE s x).target) :
    GetLinkingEdge s u w = some x := by
  have hm : x ∈ getVE s u ∧ x ∈ getVE s w := by
    rcases hpair with ⟨h1, h2⟩ | ⟨h1, h2⟩
    · rw [h1] at hregs; rw [h2] at hregt; exact ⟨hregs, hregt⟩
    · rw [h1] at hregs; rw [h2] at hregt; exact ⟨hregt, hregs⟩
  obtain ⟨y, hy⟩ := GetLinkingEdge_isSome hm.1 hm.2
  obtain ⟨hylt, hypair⟩ := GetLinkingEdge_sound hu hw hne hlt hinc huniq hy
  have : y = x := huniq _ hylt _ hx (samePair_of_pairEq hypair hpair)
  rw [hy, this]

/-- When no arena edge connects the pair, `GetLinkingEdge` returns none
(contrapositive form used at edge-creation sites). -/
theorem GetLinkingEdge_none_no_edge {s : BPState} {u w n : Nat}
    (hu : u < n) (hw : w < n) (hne : u ≠ w)
    (hlt : ∀ v, v < n → ∀ e ∈ getVE s v, e < s.edges.length)
    (hinc : ∀ v, v < n → ∀ e ∈ getVE s v,
      (getE s e).source = v ∨ (getE s e).target = v)
    (huniq : ∀ e1, e1 < s.edges.length → ∀ e2, e2 < s.edges.length →
      samePair (getE s e1) (getE s e2) → e1 = e2)
    (hreg : ∀ eid, eid < s.edges.length →
      eid ∈ getVE s (getE s eid).source ∧ eid ∈ getVE s (getE s eid).target)
    (h : GetLinkingEdge s u w = none) :
    ∀ x, x < s.edges.length → ¬ pairEq (getE s x) u w := by
  intro x hx hpair
  have := GetLinkingEdge_eq hu hw hne hlt hinc huniq hx hpair (hreg x hx).1 (hreg x hx).2
  rw [h] at this
  cases this

/-! ### Branch and frame lemmas for the state operations -/

theorem AddAdjacentTriangle_dup {env : Env} {s : BPState} {eid tid : Nat}
    (h : some tid = (getE s eid).tri0 ∨ some tid = (getE s eid).tri1) :
    AddAdjacentTriangle env s eid tid = s := by
  unfold AddAdjacentTriangle
  simp only []
  rw [if_neg]
  rintro ⟨h1, h2⟩
  rcases h with h | h
  · exact h1 h
  · exact h2 h

theorem AddAdjacentTriangle_slot0 {env : Env} {s : BPState} {eid tid : Nat}
    (h0 : (getE s eid).tri0 = none) (h1 : some tid ≠ (getE s eid).tri1) :
    ∃ e2 : EdgeData,
      AddAdjacentTriangle env s eid tid = { s with edges := s.edges.set eid e2 } ∧
      e2.tri0 = some tid ∧ e2.tri1 = (getE s eid).tri1 ∧ e2.etype = EType.Front ∧
      pairEq e2 (getE s eid).source (getE s eid).target := by
  unfold AddAdjacentTriangle
  simp only []
  rw [if_pos ⟨by rw [h0]; exact Option.some_ne_none tid, h1⟩, if_pos h0]
  split_ifs with hswap
  · exact ⟨_, rfl, rfl, rfl, rfl, Or.inr ⟨rfl, rfl⟩⟩
  · exact ⟨_, rfl, rfl, rfl, rfl, Or.inl ⟨rfl, rfl⟩⟩

theorem AddAdjacentTriangle_slot1 {env : Env} {s : BPState} {eid tid : Nat}
    (hdup0 : some tid ≠ (getE s eid).tri0)
    (h0 : (getE s eid).tri0 ≠ none) (h1 : (getE s eid).tri1 = none) :
    AddAdjacentTriangle env s eid tid =
      { s with edges :=
          s.edges.set eid { getE s eid with tri1 := some tid, etype := EType.Inner } } := by
  unfold AddAdjacentTriangle
  simp only []
  rw [if_pos ⟨hdup0, by rw [h1]; exact Option.some_ne_none tid⟩, if_neg (by simp [h0]),
    if_pos h1]

theorem AddAdjacentTriangle_vedges (env : Env) (s : BPState) (eid tid : Nat) :
    (AddAdjacentTriangle env s eid tid).vedges = s.vedges := by
  unfold AddAdjacentTriangle
  simp only []
  split_ifs <;> rfl

theorem AddAdjacentTriangle_vtype (env : Env) (s : BPState) (eid tid : Nat) :
    (AddAdjacentTriangle env s eid tid).vtype = s.vtype := by
  unfold AddAdjacentTriangle
  simp only []
  split_ifs <;> rfl

theorem AddAdjacentTriangle_tris (env : Env) (s : BPState) (eid tid : Nat) :
    (AddAdjacentTriangle env s eid tid).tris = s.tris := by
  unfold AddAdjacentTriangle
  simp only []
  split_ifs <;> rfl

theorem AddAdjacentTriangle_front (env : Env) (s : BPState) (eid tid : Nat) :
    (AddAdjacentTriangle env s eid tid).front = s.front := by
  unfold AddAdjacentTriangle
  simp only []
  split_ifs <;> rfl

theorem AddAdjacentTriangle_border (env : Env) (s : BPState) (eid tid : Nat) :
    (AddAdjacentTriangle env s eid tid).border = s.border := by
  unfold AddAdjacentTriangle
  simp only []
  split_ifs <;> rfl

theorem AddAdjacentTriangle_meshTris (env : Env) (s : BPState) (eid tid : Nat) :
    (AddAdjacentTriangle env s eid tid).meshTris = s.meshTris := by
  unfold AddAdjacentTriangle
  simp only []
  split_ifs <;> rfl

theorem AddAdjacentTriangle_meshNormals (env : Env) (s : BPState) (eid tid : Nat) :
    (AddAdjacentTriangle env s eid tid).meshNormals = s.meshNormals := by
  unfold AddAdjacentTriangle
  simp only []
  split_ifs <;> rfl

/-- The edge arena is only modified at position `eid` by
`AddAdjacentTriangle` (in particular its length is unchanged). -/
theorem AddAdjacentTriangle_edges (env : Env) (s : BPState) (eid tid : Nat) :
    ∃ e2, (AddAdjacentTriangle env s eid tid).edges = s.edges.set eid e2 ∨
      (AddAdjacentTriangle env s eid tid).edges = s.edges := by
  unfold AddAdjacentTriangle
  simp only []
  split_ifs <;> first
    | exact ⟨_, Or.inl rfl⟩
    | exact ⟨default, Or.inr rfl⟩

theorem addEdgePair_vtype (env : Env) (s : BPState) (u w tid : Nat) :
    (addEdgePair env s u w tid).vtype = s.vtype := by
  unfold addEdgePair
  simp only []
  cases hgle : GetLinkingEdge s u w <;> rw [AddAdjacentTriangle_vtype]

theorem addEdgePair_tris (env : Env) (s : BPState) (u w tid : Nat) :
    (addEdgePair env s u w tid).tris = s.tris := by
  unfold addEdgePair
  simp only []
  cases hgle : GetLinkingEdge s u w <;> rw [AddAdjacentTriangle_tris]

theorem addEdgePair_front (env : Env) (s : BPState) (u w tid : Nat) :
    (addEdgePair env s u w tid).front = s.front := by
  unfold addEdgePair
  simp only []
  cases hgle : GetLinkingEdge s u w <;> rw [AddAdjacentTriangle_front]

theorem addEdgePair_border (env : Env) (s : BPState) (u w tid : Nat) :
    (addEdgePair env s u w tid).border = s.border := by
  unfold addEdgePair
  simp only []
  cases hgle : GetLinkingEdge s u w <;> rw [AddAdjacentTriangle_border]

theorem addEdgePair_meshTris (env : Env) (s : BPState) (u w tid : Nat) :
    (addEdgePair env s u w tid).meshTris = s.meshTris := by
  unfold addEdgePair
  simp only []
  cases hgle : GetLinkingEdge s u w <;> rw [AddAdjacentTriangle_meshTris]

theorem addEdgePair_meshNormals (env : Env) (s : BPState) (u w tid : Nat) :
    (addEdgePair env s u w tid).meshNormals = s.meshNormals := by
  unfold addEdgePair
  simp only []
  cases hgle : GetLinkingEdge s u w <;> rw [AddAdjacentTriangle_meshNormals]

theorem addEdgePair_vedges_len (env : Env) (s : BPState) (u w tid : Nat) :
    (addEdgePair env s u w tid).vedges.length = s.vedges.length := by
  unfold addEdgePair
  simp only []
  cases hgle : GetLinkingEdge s u w <;> simp [AddAdjacentTriangle_vedges]

theorem AddAdjacentTriangle_edges_len (env : Env) (s : BPState) (eid tid : Nat) :
    (AddAdjacentTriangle env s eid tid).edges.length = s.edges.length := by
  obtain ⟨e2, h | h⟩ := AddAdjacentTriangle_edges env s eid tid <;> simp [h]

theorem addEdgePair_edges_len (env : Env) (s : BPState) (u w tid : Nat) :
    s.edges.length ≤ (addEdgePair env s u w tid).edges.length := by
  unfold addEdgePair
  simp only []
  cases hgle : GetLinkingEdge s u w
  · rw [AddAdjacentTriangle_edges_len]
    simp
  · rw [AddAdjacentTriangle_edges_len]

theorem UpdateType_vedges (s : BPState) (v : Nat) : (UpdateType s v).vedges = s.vedges := rfl

theorem UpdateType_edges (s : BPState) (v : Nat) : (UpdateType s v).edges = s.edges := rfl

theorem UpdateType_tris (s : BPState) (v : Nat) : (UpdateType s v).tris = s.tris := rfl

theorem UpdateType_front (s : BPState) (v : Nat) : (UpdateType s v).front = s.front := rfl

theorem UpdateType_border (s : BPState) (v : Nat) : (UpdateType s v).border = s.border := rfl

theorem UpdateType_meshTris (s : BPState) (v : Nat) :
    (UpdateType s v).meshTris = s.meshTris := rfl

theorem CreateTriangle_tris (env : Env) (s : BPState) (v0 v1 v2 : Nat) (c : Vec3) :
    (CreateTriangle env s v0 v1 v2 c).tris = s.tris ++ [⟨v0, v1, v2, c⟩] := by
  unfold CreateTriangle
  simp only []
  rw [UpdateType_tris, UpdateType_tris, UpdateType_tris, addEdgePair_tris, addEdgePair_tris,
    addEdgePair_tris]

theorem CreateTriangle_front (env : Env) (s : BPState) (v0 v1 v2 : Nat) (c : Vec3) :
    (CreateTriangle env s v0 v1 v2 c).front = s.front := by
  unfold CreateTriangle
  simp only []
  rw [UpdateType_front, UpdateType_front, UpdateType_front, addEdgePair_front,
    addEdgePair_front, addEdgePair_front]

theorem CreateTriangle_border (env : Env) (s : BPState) (v0 v1 v2 : Nat) (c : Vec3) :
    (CreateTriangle env s v0 v1 v2 c).border = s.border := by
  unfold CreateTriangle
  simp only []
  rw [UpdateType_border, UpdateType_border, UpdateType_border, addEdgePair_border,
    addEdgePair_border, addEdgePair_border]

theorem CreateTriangle_meshTris (env : Env) (s : BPState) (v0 v1 v2 : Nat) (c : Vec3) :
    (CreateTriangle env s v0 v1 v2 c).meshTris = s.meshTris ++
      [if -1e-16 < (ComputeFaceNormal (getV env.pts v0) (getV env.pts v1)
          (getV env.pts v2)).dot (getV env.nms v0) then (v0, v1, v2) else (v0, v2, v1)] := by
  unfold CreateTriangle
  simp only []
  rw [UpdateType_meshTris, UpdateType_meshTris, UpdateType_meshTris, addEdgePair_meshTris,
    addEdgePair_meshTris, addEdgePair_meshTris]

theorem getD_out {α : Type _} {l : List α} {i : Nat} (h : l.length ≤ i) (d : α) :
    l.getD i d = d := by
  rw [List.getD_eq_getElem?_getD, List.getElem?_eq_none h]
  rfl

theorem mem_set_insert_insert {ll : List (List Nat)} {u w E : Nat}
    (hu : u < ll.length) (hw : w < ll.length) (hne : u ≠ w) :
    E ∈ ((ll.set u (insertEdge (ll.getD u []) E)).set w
      (insertEdge ((ll.set u (insertEdge (ll.getD u []) E)).getD w []) E)).getD u [] ∧
    E ∈ ((ll.set u (insertEdge (ll.getD u []) E)).set w
      (insertEdge ((ll.set u (insertEdge (ll.getD u []) E)).getD w []) E)).getD w [] := by
  constructor
  · rw [getD_set_ne (Ne.symm hne), getD_set_self hu]
    exact mem_insertEdge_self _ _
  · rw [getD_set_self (by simpa using hw)]
    exact mem_insertEdge_self _ _

theorem mem_set_insert_mono {ll : List (List Nat)} {v x u w E : Nat}
    (h : x ∈ ll.getD v []) :
    x ∈ ((ll.set u (insertEdge (ll.getD u []) E)).set w
      (insertEdge ((ll.set u (insertEdge (ll.getD u []) E)).getD w []) E)).getD v [] := by
  by_cases hvw : w = v
  · subst hvw
    by_cases hlt : w < ll.length
    · rw [getD_set_self (by simpa using hlt)]
      apply mem_insertEdge_of_mem
      by_cases hvu : u = w
      · subst hvu
        rw [getD_set_self hlt]
        exact mem_insertEdge_of_mem h E
      · rw [getD_set_ne hvu]
        exact h
    · exact absurd h (by rw [getD_out (le_of_not_lt hlt)]; simp)
  · rw [getD_set_ne hvw]
    by_cases hvu : u = v
    · subst hvu
      by_cases hlt : u < ll.length
      · rw [getD_set_self hlt]
        exact mem_insertEdge_of_mem h E
      · rw [List.set_eq_of_length_le (le_of_not_lt hlt)]
        exact h
    · rw [getD_set_ne hvu]
      exact h

/-- After `addEdgePair` for the pair (u, w), some edge id (the linked or
freshly created one) is in both endpoints' incident sets. -/
theorem addEdgePair_mem (env : Env) {s : BPState} {u w : Nat} (tid : Nat)
    (hu : u < s.vedges.length) (hw : w < s.vedges.length) (hne : u ≠ w) :
    ∃ eid, eid ∈ getVE (addEdgePair env s u w tid) u ∧
      eid ∈ getVE (addEdgePair env s u w tid) w := by
  unfold addEdgePair
  simp only []
  cases hgle : GetLinkingEdge s u w <;>
  · simp only [getVE, AddAdjacentTriangle_vedges]
    exact ⟨_, (mem_set_insert_insert hu hw hne).1, (mem_set_insert_insert hu hw hne).2⟩

/-- `addEdgePair` only extends the incident sets. -/
theorem getVE_addEdgePair_mono (env : Env) {s : BPState} {x v : Nat} (u w tid : Nat)
    (h : x ∈ getVE s v) : x ∈ getVE (addEdgePair env s u w tid) v := by
  unfold addEdgePair
  simp only []
  cases hgle : GetLinkingEdge s u w <;>
  · simp only [getVE, AddAdjacentTriangle_vedges]
    exact mem_set_insert_mono h

/-- After `CreateTriangle(v0, v1, v2, c)`, each of the three sides has an
edge registered in both of its endpoints' incident sets. -/
theorem CreateTriangle_links (env : Env) {s : BPState} {v0 v1 v2 : Nat} (c : Vec3)
    (h0 : v0 < s.vedges.length) (h1 : v1 < s.vedges.length) (h2 : v2 < s.vedges.length)
    (h01 : v0 ≠ v1) (h12 : v1 ≠ v2) (h20 : v2 ≠ v0) :
    (∃ a, a ∈ getVE (CreateTriangle env s v0 v1 v2 c) v0 ∧
      a ∈ getVE (CreateTriangle env s v0 v1 v2 c) v1) ∧
    (∃ b, b ∈ getVE (CreateTriangle env s v0 v1 v2 c) v1 ∧
      b ∈ getVE (CreateTriangle env s v0 v1 v2 c) v2) ∧
    (∃ d, d ∈ getVE (CreateTriangle env s v0 v1 v2 c) v2 ∧
      d ∈ getVE (CreateTriangle env s v0 v1 v2 c) v0) := by
  unfold CreateTriangle
  simp only []
  have hWE : ∀ t : BPState, ∀ y vv,
      (y ∈ getVE t vv) →
      y ∈ getVE { UpdateType (UpdateType (UpdateType t v0) v1) v2 with
        meshTris := (UpdateType (UpdateType (UpdateType t v0) v1) v2).meshTris ++
          [if -1e-16 < (ComputeFaceNormal (getV env.pts v0) (getV env.pts v1)
              (getV env.pts v2)).dot (getV env.nms v0) then (v0, v1, v2) else (v0, v2, v1)],
        meshNormals := (UpdateType (UpdateType (UpdateType t v0) v1) v2).meshNormals ++
          [ComputeFaceNormal (getV env.pts v0) (getV env.pts v1) (getV env.pts v2)] } vv := by
    intro t y vv hy
    exact hy
  obtain ⟨a, ha1, ha2⟩ := addEdgePair_mem env s.tris.length
    (show v0 < (BPState.mk s.vedges s.vtype s.edges (s.tris ++ [⟨v0, v1, v2, c⟩]) s.front
      s.border s.meshTris s.meshNormals).vedges.length from h0) h1 h01
  obtain ⟨b, hb1, hb2⟩ := addEdgePair_mem env s.tris.length
    (show v1 < (addEdgePair env (BPState.mk s.vedges s.vtype s.edges
      (s.tris ++ [⟨v0, v1, v2, c⟩]) s.front s.border s.meshTris s.meshNormals) v0 v1
        s.tris.length).vedges.length by rw [addEdgePair_vedges_len]; exact h1)
    (by rw [addEdgePair_vedges_len]; exact h2) h12
  obtain ⟨d, hd1, hd2⟩ := addEdgePair_mem env s.tris.length
    (show v2 < (addEdgePair env (addEdgePair env (BPState.mk s.vedges s.vtype s.edges
      (s.tris ++ [⟨v0, v1, v2, c⟩]) s.front s.border s.meshTris s.meshNormals) v0 v1
        s.tris.length) v1 v2 s.tris.length).vedges.length by
      rw [addEdgePair_vedges_len, addEdgePair_vedges_len]; exact h2)
    (by rw [addEdgePair_vedges_len, addEdgePair_vedges_len]; exact h0) h20
  refine ⟨⟨a, ?_, ?_⟩, ⟨b, ?_, ?_⟩, ⟨d, ?_, ?_⟩⟩
  · exact hWE _ _ _ (getVE_addEdgePair_mono env _ _ _
      (getVE_addEdgePair_mono env _ _ _ ha1))
  · exact hWE _ _ _ (getVE_addEdgePair_mono env _ _ _
      (getVE_addEdgePair_mono env _ _ _ ha2))
  · exact hWE _ _ _ (getVE_addEdgePair_mono env _ _ _ hb1)
  · exact hWE _ _ _ (getVE_addEdgePair_mono env _ _ _ hb2)
  · exact hWE _ _ _ hd1
  · exact hWE _ _ _ hd2

/-! ### Claim C3: the branch structure of one `ExpandTriangulation` iteration -/

theorem FindCandidateVertex_front (env : Env) (s : BPState) (f : List Nat)
    (eid : Nat) (r : ℝ) :
    FindCandidateVertex env { s with front := f } eid r =
      FindCandidateVertex env s eid r := rfl

theorem getE_front (s : BPState) (f : List Nat) (eid : Nat) :
    getE { s with front := f } eid = getE s eid := rfl

theorem getVT_front (s : BPState) (f : List Nat) (v : Nat) :
    getVT { s with front := f } v = getVT s v := rfl

theorem GetLinkingEdge_front (s : BPState) (f : List Nat) (u w : Nat) :
    GetLinkingEdge { s with front := f } u w = GetLinkingEdge s u w := rfl

theorem linkNotFront_front (s : BPState) (f : List Nat) (o : Option Nat) :
    linkNotFront { s with front := f } o = linkNotFront s o := rfl

theorem expandStep_cons (env : Env) {s : BPState} {eid : Nat} {rest : List Nat}
    (radius : ℝ) (hfront : s.front = eid :: rest) :
    expandStep env s radius = expandBody env { s with front := rest } eid radius := by
  unfold expandStep
  conv_lhs => rw [hfront]

theorem expandBody_eq (env : Env) {s : BPState} {eid : Nat} {radius : ℝ}
    {candOpt : Option Nat} {center : Vec3}
    (hF : (getE s eid).etype = EType.Front)
    (hcand : FindCandidateVertex env s eid radius = Except.ok (candOpt, center)) :
    expandBody env s eid radius = expandDecide env s eid candOpt center := by
  unfold expandBody
  rw [if_neg (fun hcon => hcon hF)]
  rw [hcand]

theorem expandDecide_none (env : Env) (s : BPState) (eid : Nat) (center : Vec3) :
    expandDecide env s eid none center = Except.ok (markBorder s eid) := rfl

theorem expandDecide_some (env : Env) (s : BPState) (eid cand : Nat) (center : Vec3) :
    expandDecide env s eid (some cand) center =
      (if getVT s cand = VType.Inner ∨
          IsCompatible env.pts env.nms cand (getE s eid).source (getE s eid).target = false
       then Except.ok (markBorder s eid)
       else if linkNotFront s (GetLinkingEdge s cand (getE s eid).source) = true ∨
          linkNotFront s (GetLinkingEdge s cand (getE s eid).target) = true
       then Except.ok (markBorder s eid)
       else expandCommit env s (getE s eid).source (getE s eid).target cand center) := rfl

theorem expandCommit_eq (env : Env) (s : BPState) (src tgt cand : Nat)
    (center : Vec3) {x0 x1 : Nat}
    (h0 : GetLinkingEdge (CreateTriangle env s src tgt cand center) cand src = some x0)
    (h1 : GetLinkingEdge (CreateTriangle env s src tgt cand center) cand tgt = some x1) :
    expandCommit env s src tgt cand center =
      Except.ok
        (let s1 := CreateTriangle env s src tgt cand center
         let s2 := (if (getE s1 x0).etype = EType.Front
           then { s1 with front := x0 :: s1.front } else s1)
         (if (getE s2 x1).etype = EType.Front
           then { s2 with front := x1 :: s2.front } else s2)) := by
  unfold expandCommit
  simp only []
  rw [h0, h1]

/-- C3.  Whenever `ExpandTriangulation` pops an edge that is still Front,
then: if `FindCandidateVertex` returns no candidate, or the candidate
vertex is classified Inner, or `IsCompatible(candidate, source, target)`
fails, or an existing linking edge from the candidate to source or to
target is not Front, the popped edge is reclassified Border and appended
to the border list and no triangle is created for it; otherwise a triangle
(source, target, candidate) with the computed center is created. -/
theorem expandStep_characterization (env : Env) (s : BPState) (radius : ℝ)
    (eid : Nat) (rest : List Nat) (candOpt : Option Nat) (center : Vec3)
    (hfront : s.front = eid :: rest)
    (hF : (getE s eid).etype = EType.Front)
    (hcand : FindCandidateVertex env s eid radius = Except.ok (candOpt, center)) :
    ((candOpt = none ∨
      ∃ cand, candOpt = some cand ∧
        (getVT s cand = VType.Inner ∨
         IsCompatible env.pts env.nms cand (getE s eid).source (getE s eid).target = false ∨
         linkNotFront s (GetLinkingEdge s cand (getE s eid).source) = true ∨
         linkNotFront s (GetLinkingEdge s cand (getE s eid).target) = true)) →
      expandStep env s radius = Except.ok
        { s with front := rest,
                 edges := s.edges.set eid { getE s eid with etype := EType.Border },
                 border := s.border ++ [eid] }) ∧
    (∀ cand, candOpt = some cand →
      getVT s cand ≠ VType.Inner →
      IsCompatible env.pts env.nms cand (getE s eid).source (getE s eid).target = true →
      linkNotFront s (GetLinkingEdge s cand (getE s eid).source) = false →
      linkNotFront s (GetLinkingEdge s cand (getE s eid).target) = false →
      (getE s eid).source < s.vedges.length → (getE s eid).target < s.vedges.length →
      cand < s.vedges.length →
      cand ≠ (getE s eid).source → cand ≠ (getE s eid).target →
      (getE s eid).source ≠ (getE s eid).target →
      ∃ s3, expandStep env s radius = Except.ok s3 ∧
        s3.tris = s.tris ++ [⟨(getE s eid).source, (getE s eid).target, cand, center⟩] ∧
        s3.meshTris.length = s.meshTris.length + 1) := by
  rw [expandStep_cons env radius hfront]
  rw [@expandBody_eq env { s with front := rest } _ _ _ _ hF hcand]
  constructor
  · rintro (rfl | ⟨cand, rfl, hdisj⟩)
    · rw [expandDecide_none]
      rfl
    · rw [expandDecide_some]
      simp only [getVT_front, getE_front, GetLinkingEdge_front, linkNotFront_front]
      rcases hdisj with hI | hC | hL0 | hL1
      · rw [if_pos (Or.inl hI)]
        rfl
      · rw [if_pos (Or.inr hC)]
        rfl
      · by_cases hc1 : getVT s cand = VType.Inner ∨
            IsCompatible env.pts env.nms cand (getE s eid).source (getE s eid).target = false
        · rw [if_pos hc1]
          rfl
        · rw [if_neg hc1, if_pos (Or.inl hL0)]
          rfl
      · by_cases hc1 : getVT s cand = VType.Inner ∨
            IsCompatible env.pts env.nms cand (getE s eid).source (getE s eid).target = false
        · rw [if_pos hc1]
          rfl
        · rw [if_neg hc1, if_pos (Or.inr hL1)]
          rfl
  · rintro cand rfl hI hC hL0 hL1 hsl htl hcl hcs hct hst
    rw [expandDecide_some]
    simp only [getVT_front, getE_front, GetLinkingEdge_front, linkNotFront_front]
    rw [if_neg (fun hcon => hcon.elim hI (fun hf => by rw [hC] at hf; cases hf))]
    rw [if_neg (fun hcon => hcon.elim
      (fun h0 => by rw [hL0] at h0; cases h0)
      (fun h1 => by rw [hL1] at h1; cases h1))]
    have hlinks := @CreateTriangle_links env { s with front := rest } _ _ _ center
      hsl htl hcl hst (Ne.symm hct) hcs
    obtain ⟨⟨a, ha0, ha1⟩, ⟨b, hb1, hb2⟩, ⟨d, hd2, hd0⟩⟩ := hlinks
    obtain ⟨y0, hy0⟩ := GetLinkingEdge_isSome hd2 hd0
    obtain ⟨y1, hy1⟩ := GetLinkingEdge_isSome hb2 hb1
    rw [expandCommit_eq env _ _ _ _ _ hy0 hy1]
    refine ⟨_, rfl, ?_, ?_⟩
    · simp only []
      split_ifs <;> rw [CreateTriangle_tris]
    · simp only []
      split_ifs <;> simp [CreateTriangle_meshTris]

/-! ### Claim C4: the border revisit on a radius change -/

theorem getD_set_mod {α : Type _} {l : List α} {p e : Nat} (d : α) (x : α) :
    (l.set p x).getD e d = l.getD e d ∨ ((l.set p x).getD e d = x ∧ e = p) := by
  by_cases hpe : p = e
  · subst hpe
    by_cases hl : p < l.length
    · exact Or.inr ⟨getD_set_self hl x d, rfl⟩
    · rw [List.set_eq_of_length_le (le_of_not_lt hl)]
      exact Or.inl rfl
  · exact Or.inl (getD_set_ne hpe x d)

/-- The state produced by reviving one border edge. -/
def reviveState (s : BPState) (eid : Nat) : BPState :=
  { s with edges := s.edges.set eid { getE s eid with etype := EType.Front },
           front := s.front ++ [eid] }

theorem revisitGo_cons (env : Env) (radius : ℝ) (eid : Nat) (rest : List Nat)
    (s : BPState) :
    revisitGo env radius (eid :: rest) s =
      (if reviveDecision env s eid radius = true then
        revisitGo env radius rest (reviveState s eid)
      else
        ((eid :: (revisitGo env radius rest s).1), (revisitGo env radius rest s).2)) := by
  rw [revisitGo]
  rfl

theorem reviveState_getE_tri0 (s : BPState) (p e : Nat) :
    (getE (reviveState s p) e).tri0 = (getE s e).tri0 := by
  unfold reviveState getE
  by_cases hpe : p = e
  · subst hpe
    by_cases hl : p < s.edges.length
    · rw [getD_set_self hl]
    · rw [List.set_eq_of_length_le (le_of_not_lt hl)]
  · rw [getD_set_ne hpe _ _]

theorem revisitGo_tris (env : Env) (radius : ℝ) :
    ∀ pending : List Nat, ∀ s : BPState,
      (revisitGo env radius pending s).2.tris = s.tris := by
  intro pending
  induction pending with
  | nil => intro s; rfl
  | cons p rest ih =>
    intro s
    rw [revisitGo_cons]
    split_ifs with h
    · rw [ih]
      rfl
    · exact ih s

theorem revisitGo_border (env : Env) (radius : ℝ) :
    ∀ pending : List Nat, ∀ s : BPState,
      (revisitGo env radius pending s).2.border = s.border := by
  intro pending
  induction pending with
  | nil => intro s; rfl
  | cons p rest ih =>
    intro s
    rw [revisitGo_cons]
    split_ifs with h
    · rw [ih]
      rfl
    · exact ih s

theorem revisitGo_getE_tri0 (env : Env) (radius : ℝ) :
    ∀ pending : List Nat, ∀ s : BPState, ∀ e : Nat,
      (getE (revisitGo env radius pending s).2 e).tri0 = (getE s e).tri0 := by
  intro pending
  induction pending with
  | nil => intro s e; rfl
  | cons p rest ih =>
    intro s e
    rw [revisitGo_cons]
    split_ifs with h
    · rw [ih]
      exact reviveState_getE_tri0 s p e
    · exact ih s e

/-- The front queue is only appended to by the revisit loop. -/
theorem revisitGo_front (env : Env) (radius : ℝ) :
    ∀ pending : List Nat, ∀ s : BPState,
      ∃ l, (revisitGo env radius pending s).2.front = s.front ++ l := by
  intro pending
  induction pending with
  | nil =>
    intro s
    exact ⟨[], by show s.front = s.front ++ []; simp⟩
  | cons p rest ih =>
    intro s
    rw [revisitGo_cons]
    split_ifs with h
    · obtain ⟨l, hl⟩ := ih (reviveState s p)
      exact ⟨[p] ++ l, by rw [hl]; simp [reviveState]⟩
    · exact ih s

theorem revisitGo_kept_sub (env : Env) (radius : ℝ) :
    ∀ pending : List Nat, ∀ s : BPState, ∀ x ∈ (revisitGo env radius pending s).1,
      x ∈ pending := by
  intro pending
  induction pending with
  | nil => intro s x hx; exact absurd hx (by simp [revisitGo])
  | cons p rest ih =>
    intro s x hx
    rw [revisitGo_cons] at hx
    split_ifs at hx with h
    · exact List.mem_cons_of_mem p (ih _ x hx)
    · rcases List.mem_cons.mp hx with rfl | hx1
      · exact List.mem_cons_self x rest
      · exact List.mem_cons_of_mem p (ih s x hx1)

/-- Edges not in the pending list are untouched by the revisit loop. -/
theorem revisitGo_untouched (env : Env) (radius : ℝ) :
    ∀ pending : List Nat, ∀ s : BPState, ∀ e : Nat, e ∉ pending →
      getE (revisitGo env radius pending s).2 e = getE s e := by
  intro pending
  induction pending with
  | nil => intro s e _; rfl
  | cons p rest ih =>
    intro s e he
    rw [revisitGo_cons]
    split_ifs with h
    · rw [ih _ _ (fun hc => he (List.mem_cons_of_mem p hc))]
      unfold reviveState getE
      rw [getD_set_ne (fun hc => he (by rw [hc]; exact List.mem_cons_self e rest)) _ _]
    · exact ih s e (fun hc => he (List.mem_cons_of_mem p hc))

/-- The revive decision only depends on the pending edge's `triangle0` and
the triangle arena, so it is stable under the loop's state updates. -/
theorem reviveDecision_stable (env : Env) (radius : ℝ) {s1 s2 : BPState} (eid : Nat)
    (h1 : (getE s1 eid).tri0 = (getE s2 eid).tri0) (h2 : s1.tris = s2.tris) :
    reviveDecision env s1 eid radius = reviveDecision env s2 eid radius := by
  unfold reviveDecision
  rw [h1]
  cases h : (getE s2 eid).tri0 with
  | none => rfl
  | some t =>
    unfold getT
    rw [h2]

theorem mem_front_mono {s : BPState} {x : Nat} (l : List Nat)
    (h : x ∈ s.front) : ∀ f, s.front ++ l = f → x ∈ f := by
  intro f hf
  rw [← hf]
  exact List.mem_append_left l h

/-- The per-edge behavior of the revisit loop: an edge of the pending list
(processed once, by `Nodup`) is revived (type Front, appended to the front
queue, dropped from the kept list) precisely when its decision on the
state at entry is positive; otherwise its edge record is unchanged and it
is kept. -/
theorem revisitGo_spec (env : Env) (radius : ℝ) :
    ∀ pending : List Nat, ∀ s : BPState, pending.Nodup →
      ∀ eid ∈ pending, eid < s.edges.length →
      (reviveDecision env s eid radius = true →
        (getE (revisitGo env radius pending s).2 eid).etype = EType.Front ∧
        eid ∈ (revisitGo env radius pending s).2.front ∧
        eid ∉ (revisitGo env radius pending s).1) ∧
      (reviveDecision env s eid radius = false →
        getE (revisitGo env radius pending s).2 eid = getE s eid ∧
        eid ∈ (revisitGo env radius pending s).1) := by
  intro pending
  induction pending with
  | nil => intro s _ eid he; exact absurd he (by simp)
  | cons p rest ih =>
    intro s hnd eid he hlt
    have hndr : rest.Nodup := (List.nodup_cons.mp hnd).2
    have hpnr : p ∉ rest := (List.nodup_cons.mp hnd).1
    rcases List.mem_cons.mp he with rfl | her
    · constructor
      · intro hdec
        rw [revisitGo_cons, if_pos hdec]
        have huntouch := revisitGo_untouched env radius rest (reviveState s eid) eid hpnr
        refine ⟨?_, ?_, ?_⟩
        · rw [huntouch]
          unfold reviveState getE
          rw [getD_set_self hlt]
        · obtain ⟨l, hl⟩ := revisitGo_front env radius rest (reviveState s eid)
          rw [hl]
          apply List.mem_append_left
          simp [reviveState]
        · intro hc
          exact hpnr (revisitGo_kept_sub env radius rest _ eid hc)
      · intro hdec
        rw [revisitGo_cons, if_neg (by rw [hdec]; simp)]
        refine ⟨?_, ?_⟩
        · exact revisitGo_untouched env radius rest s eid hpnr
        · exact List.mem_cons_self eid _
    · have hne : eid ≠ p := fun hc => hpnr (hc ▸ her)
      constructor
      · intro hdec
        rw [revisitGo_cons]
        split_ifs with h
        · have hstab : reviveDecision env (reviveState s p) eid radius =
              reviveDecision env s eid radius :=
            reviveDecision_stable env radius eid (reviveState_getE_tri0 s p eid) rfl
          have hlt1 : eid < (reviveState s p).edges.length := by
            simpa [reviveState] using hlt
          exact (ih (reviveState s p) hndr eid her hlt1).1 (by rw [hstab]; exact hdec)
        · obtain ⟨h1, h2, h3⟩ := (ih s hndr eid her hlt).1 hdec
          exact ⟨h1, h2, fun hc => (List.mem_cons.mp hc).elim (fun hq => hne hq) h3⟩
      · intro hdec
        rw [revisitGo_cons]
        split_ifs with h
        · have hstab : reviveDecision env (reviveState s p) eid radius =
              reviveDecision env s eid radius :=
            reviveDecision_stable env radius eid (reviveState_getE_tri0 s p eid) rfl
          have hlt1 : eid < (reviveState s p).edges.length := by
            simpa [reviveState] using hlt
          obtain ⟨h1, h2⟩ := (ih (reviveState s p) hndr eid her hlt1).2
            (by rw [hstab]; exact hdec)
          refine ⟨?_, h2⟩
          rw [h1]
          unfold reviveState getE
          rw [getD_set_ne (Ne.symm hne) _ _]
        · obtain ⟨h1, h2⟩ := (ih s hndr eid her hlt).2 hdec
          exact ⟨h1, List.mem_cons_of_mem p h2⟩

/-- The revive decision holds iff the ball center of `triangle0`'s corners
is computable at the new radius and the radius search around it returns
only that triangle's own vertices. -/
theorem reviveDecision_iff (env : Env) (s : BPState) (radius : ℝ) (eid t : Nat)
    (ht0 : (getE s eid).tri0 = some t) :
    reviveDecision env s eid radius = true ↔
      ∃ c, ComputeBallCenter env.pts env.nms (getT s t).v0 (getT s t).v1 (getT s t).v2
          radius = some c ∧
        ∀ i ∈ env.sr c radius,
          i = (getT s t).v0 ∨ i = (getT s t).v1 ∨ i = (getT s t).v2 := by
  unfold reviveDecision
  rw [ht0]
  simp only []
  cases hc : ComputeBallCenter env.pts env.nms (getT s t).v0 (getT s t).v1 (getT s t).v2
      radius with
  | none => simp
  | some c => simp [List.all_eq_true, Bool.or_eq_true, or_assoc]

/-- C4.  On every radius change, for each edge in the border list whose
triangle0 has vertices (v0,v1,v2): if `ComputeBallCenter(v0,v1,v2,r)`
succeeds and the radius-r search around the resulting center returns no
vertex other than v0, v1, v2, then the edge is reclassified Front,
appended to the front queue and removed from the border list; in all other
cases the edge stays Border and stays in the border list. -/
theorem borderRevisit_characterization (env : Env) (s : BPState) (radius : ℝ)
    (eid t : Nat)
    (hmem : eid ∈ s.border) (hnd : s.border.Nodup) (hlt : eid < s.edges.length)
    (ht0 : (getE s eid).tri0 = some t)
    (hB : (getE s eid).etype = EType.Border) :
    ((∃ c, ComputeBallCenter env.pts env.nms (getT s t).v0 (getT s t).v1 (getT s t).v2
          radius = some c ∧
        ∀ i ∈ env.sr c radius,
          i = (getT s t).v0 ∨ i = (getT s t).v1 ∨ i = (getT s t).v2) →
      (getE (borderRevisit env s radius) eid).etype = EType.Front ∧
      eid ∈ (borderRevisit env s radius).front ∧
      eid ∉ (borderRevisit env s radius).border) ∧
    (¬ (∃ c, ComputeBallCenter env.pts env.nms (getT s t).v0 (getT s t).v1 (getT s t).v2
          radius = some c ∧
        ∀ i ∈ env.sr c radius,
          i = (getT s t).v0 ∨ i = (getT s t).v1 ∨ i = (getT s t).v2) →
      (getE (borderRevisit env s radius) eid).etype = EType.Border ∧
      eid ∈ (borderRevisit env s radius).border) := by
  have hspec := revisitGo_spec env radius s.border s hnd eid hmem hlt
  constructor
  · intro hex
    have hdec : reviveDecision env s eid radius = true :=
      (reviveDecision_iff env s radius eid t ht0).mpr hex
    obtain ⟨h1, h2, h3⟩ := hspec.1 hdec
    exact ⟨h1, h2, h3⟩
  · intro hnex
    have hdec : reviveDecision env s eid radius = false := by
      by_contra hcon
      have htrue : reviveDecision env s eid radius = true := by
        cases hdb : reviveDecision env s eid radius
        · exact absurd hdb hcon
        · rfl
      exact hnex ((reviveDecision_iff env s radius eid t ht0).mp htrue)
    obtain ⟨h1, h2⟩ := hspec.2 hdec
    refine ⟨?_, h2⟩
    show (getE (revisitGo env radius s.border s).2 eid).etype = EType.Border
    rw [h1]
    exact hB

/-- The point cloud and collaborators of the C4 witness: a single point
whose degenerate "triangle" admits no ball center. -/
noncomputable def envC4 : Env :=
  { pts := [⟨0, 0, 0⟩], nms := [⟨0, 0, 1⟩], hasNormals := true,
    sr := fun _ _ => [], coplanar := fun _ _ _ _ => false, segDist := fun _ _ _ _ => 0 }

/-- The C4 witness state: one Border edge on the border list whose
triangle0 is the degenerate triangle (0,0,0). -/
noncomputable def stateC4 : BPState :=
  { vedges := [[0]], vtype := [VType.Front],
    edges := [⟨0, 0, some 0, none, EType.Border⟩],
    tris := [⟨0, 0, 0, ⟨0, 0, 0⟩⟩], front := [], border := [0],
    meshTris := [(0, 0, 0)], meshNormals := [⟨0, 0, 1⟩] }

theorem cbc_C4_eval : ComputeBallCenter envC4.pts envC4.nms 0 0 0 1 = none := by
  have hb : barySumSpec envC4.pts 0 0 0 < 1e-16 := by
    unfold barySumSpec
    norm_num [getV, envC4, Vec3.sub_def, Vec3.squaredNorm]
  rw [ComputeBallCenter_eq, if_pos hb]

theorem borderRevisit_characterization_witness :
    (getE (borderRevisit envC4 stateC4 1) 0).etype = EType.Border ∧
    0 ∈ (borderRevisit envC4 stateC4 1).border := by
  refine (borderRevisit_characterization envC4 stateC4 1 0 0 (by simp [stateC4])
    (by simp [stateC4]) (by simp [stateC4]) rfl rfl).2 ?_
  rintro ⟨c, hc, -⟩
  rw [show (getT stateC4 0).v0 = 0 from rfl, show (getT stateC4 0).v1 = 0 from rfl,
    show (getT stateC4 0).v2 = 0 from rfl, cbc_C4_eval] at hc
  cases hc

/-- The collaborators of the C3 witness: a 3-4-5 triangle cloud whose
radius search returns no candidates. -/
noncomputable def envW : Env :=
  { pts := [⟨0, 0, 0⟩, ⟨3, 0, 0⟩, ⟨0, 4, 0⟩],
    nms := [⟨0, 0, 1⟩, ⟨0, 0, 1⟩, ⟨0, 0, 1⟩], hasNormals := true,
    sr := fun _ _ => [], coplanar := fun _ _ _ _ => false, segDist := fun _ _ _ _ => 0 }

/-- The C3 witness state: the triangle (0,1,2) with its three Front edges,
edge 0 at the head of the front queue. -/
noncomputable def stateW : BPState :=
  { vedges := [[0, 2], [0, 1], [1, 2]],
    vtype := [VType.Front, VType.Front, VType.Front],
    edges := [⟨0, 1, some 0, none, EType.Front⟩, ⟨1, 2, some 0, none, EType.Front⟩,
      ⟨2, 0, some 0, none, EType.Front⟩],
    tris := [⟨0, 1, 2, ⟨0, 0, 0⟩⟩], front := [0], border := [],
    meshTris := [(0, 1, 2)], meshNormals := [⟨0, 0, 1⟩] }

theorem findCand_W : FindCandidateVertex envW stateW 0 1 = Except.ok (none, 0) := rfl

theorem expandStep_characterization_witness :
    expandStep envW stateW 1 = Except.ok
      { stateW with
        front := []
        edges := stateW.edges.set 0 { getE stateW 0 with etype := EType.Border }
        border := stateW.border ++ [0] } :=
  (expandStep_characterization envW stateW 1 0 [] none 0 rfl rfl findCand_W).1 (Or.inl rfl)

/-! ### The topology-store invariant (spec §3) -/

/-- The triangle side (u, w) is covered by an edge holding triangle `t` in
one of its slots. -/
def coveredSide (s : BPState) (t u w : Nat) : Prop :=
  ∃ eid, eid < s.edges.length ∧ pairEq (getE s eid) u w ∧
    ((getE s eid).tri0 = some t ∨ (getE s eid).tri1 = some t)

/-- The invariants of the topology store, parameterized by the vertex
count `n` and a list `bord` tracking the Border-typed edges (`bord` is the
engine's border list between operations, and the pending list inside the
border-revisit loop). -/
structure WFb (n : Nat) (s : BPState) (bord : List Nat) : Prop where
  vel : s.vedges.length = n
  vtl : s.vtype.length = n
  src_lt : ∀ e, e < s.edges.length → (getE s e).source < n
  tgt_lt : ∀ e, e < s.edges.length → (getE s e).target < n
  no_loop : ∀ e, e < s.edges.length → (getE s e).source ≠ (getE s e).target
  tri0_some : ∀ e, e < s.edges.length → (getE s e).tri0 ≠ none
  tri0_lt : ∀ e, e < s.edges.length → ∀ t, (getE s e).tri0 = some t → t < s.tris.length
  tri1_lt : ∀ e, e < s.edges.length → ∀ t, (getE s e).tri1 = some t → t < s.tris.length
  inner_iff : ∀ e, e < s.edges.length →
    ((getE s e).etype = EType.Inner ↔ (getE s e).tri1 ≠ none)
  border_iff : ∀ e, e < s.edges.length → ((getE s e).etype = EType.Border ↔ e ∈ bord)
  border_nodup : bord.Nodup
  border_lt : ∀ e ∈ bord, e < s.edges.length
  front_lt : ∀ e ∈ s.front, e < s.edges.length
  ve_lt : ∀ v, v < n → ∀ e ∈ getVE s v, e < s.edges.length
  ve_inc : ∀ v, v < n → ∀ e ∈ getVE s v, (getE s e).source = v ∨ (getE s e).target = v
  ve_reg : ∀ e, e < s.edges.length →
    e ∈ getVE s (getE s e).source ∧ e ∈ getVE s (getE s e).target
  pair_uni : ∀ e1, e1 < s.edges.length → ∀ e2, e2 < s.edges.length →
    samePair (getE s e1) (getE s e2) → e1 = e2
  tcorner_lt : ∀ t, t < s.tris.length →
    (getT s t).v0 < n ∧ (getT s t).v1 < n ∧ (getT s t).v2 < n
  tcorner_dist : ∀ t, t < s.tris.length →
    (getT s t).v0 ≠ (getT s t).v1 ∧ (getT s t).v1 ≠ (getT s t).v2 ∧
      (getT s t).v0 ≠ (getT s t).v2
  slot_corner : ∀ e, e < s.edges.length → ∀ t,
    ((getE s e).tri0 = some t ∨ (getE s e).tri1 = some t) →
    ((getE s e).source = (getT s t).v0 ∨ (getE s e).source = (getT s t).v1 ∨
      (getE s e).source = (getT s t).v2) ∧
    ((getE s e).target = (getT s t).v0 ∨ (getE s e).target = (getT s t).v1 ∨
      (getE s e).target = (getT s t).v2)
  tri_cover : ∀ t, t < s.tris.length →
    coveredSide s t (getT s t).v0 (getT s t).v1 ∧
    coveredSide s t (getT s t).v1 (getT s t).v2 ∧
    coveredSide s t (getT s t).v2 (getT s t).v0
  orphan_e : ∀ v, v < n → getVT s v = VType.Orphan → getVE s v = []
  tri_nodup : ∀ t1, t1 < s.tris.length → ∀ t2, t2 < s.tris.length → t1 ≠ t2 →
    cornerF (getT s t1) ≠ cornerF (getT s t2)
  mesh_len : s.meshTris.length = s.tris.length
  mesh_match : ∀ i, i < s.tris.length →
    tripleF (s.meshTris.getD i (0, 0, 0)).1 (s.meshTris.getD i (0, 0, 0)).2.1
      (s.meshTris.getD i (0, 0, 0)).2.2 = cornerF (getT s i)

/-- The store invariant between operations: `WFb` with the engine's own
border list. -/
def WF (n : Nat) (s : BPState) : Prop := WFb n s s.border

theorem getD_replicate {α : Type _} (n i : Nat) (d x : α) :
    (List.replicate n x).getD i d = x ∨ (List.replicate n x).getD i d = d := by
  by_cases h : i < n
  · left
    rw [List.getD_eq_getElem?_getD, List.getElem?_eq_getElem (by simpa using h)]
    simp [List.getElem_replicate]
  · right
    exact getD_out (by simpa using le_of_not_lt h) _

theorem getVE_init (env : Env) (v : Nat) : getVE (initState env) v = [] := by
  unfold initState getVE
  rcases getD_replicate env.pts.length v [] [] with h | h <;> exact h

theorem set_append_len {α : Type _} (l : List α) (x y : α) :
    (l ++ [x]).set l.length y = l ++ [y] := by
  induction l with
  | nil => rfl
  | cons a t ih =>
    show a :: ((t ++ [x]).set t.length y) = a :: (t ++ [y])
    rw [ih]

theorem UpdateTypeFn_orphan {ts : List EType} (h : UpdateTypeFn ts = VType.Orphan) :
    ts = [] := by
  unfold UpdateTypeFn at h
  split_ifs at h with h1 h2
  exact List.isEmpty_iff.mp h1

/-- Replacing the front queue preserves all invariant fields except the
front bound, which is re-supplied. -/
theorem WFb_front {n : Nat} {s : BPState} {bord : List Nat} (h : WFb n s bord)
    (f : List Nat) (hf : ∀ e ∈ f, e < s.edges.length) :
    WFb n { s with front := f } bord :=
  ⟨h.vel, h.vtl, h.src_lt, h.tgt_lt, h.no_loop, h.tri0_some, h.tri0_lt, h.tri1_lt,
   h.inner_iff, h.border_iff, h.border_nodup, h.border_lt, hf, h.ve_lt, h.ve_inc,
   h.ve_reg, h.pair_uni, h.tcorner_lt, h.tcorner_dist, h.slot_corner, h.tri_cover,
   h.orphan_e, h.tri_nodup, h.mesh_len, h.mesh_match⟩

/-- The invariant fields never read the state's own border list, so it can
be replaced freely (the tracking list `bord` is a parameter). -/
theorem WFb_border {n : Nat} {s : BPState} {bord : List Nat} (h : WFb n s bord)
    (b : List Nat) : WFb n { s with border := b } bord :=
  ⟨h.vel, h.vtl, h.src_lt, h.tgt_lt, h.no_loop, h.tri0_some, h.tri0_lt, h.tri1_lt,
   h.inner_iff, h.border_iff, h.border_nodup, h.border_lt, h.front_lt, h.ve_lt, h.ve_inc,
   h.ve_reg, h.pair_uni, h.tcorner_lt, h.tcorner_dist, h.slot_corner, h.tri_cover,
   h.orphan_e, h.tri_nodup, h.mesh_len, h.mesh_match⟩

/-- `addEdgePair` when the linking edge exists and satisfies the slot-1
branch conditions of `AddAdjacentTriangle`. -/
theorem addEdgePair_existing (env : Env) {s : BPState} {x u w tid : Nat}
    (hgle : GetLinkingEdge s u w = some x)
    (hdup0 : some tid ≠ (getE s x).tri0)
    (ht0 : (getE s x).tri0 ≠ none)
    (ht1 : (getE s x).tri1 = none) :
    addEdgePair env s u w tid =
      { s with
        edges := s.edges.set x { getE s x with tri1 := some tid, etype := EType.Inner }
        vedges := (s.vedges.set u (insertEdge (s.vedges.getD u []) x)).set w
          (insertEdge ((s.vedges.set u (insertEdge (s.vedges.getD u []) x)).getD w [])
            x) } := by
  unfold addEdgePair
  simp only []
  rw [hgle]
  simp only []
  rw [AddAdjacentTriangle_slot1 hdup0 ht0 ht1]
  rfl

/-- `addEdgePair` when no linking edge exists: a fresh edge is appended
and `AddAdjacentTriangle` takes its slot-0 branch. -/
theorem addEdgePair_fresh (env : Env) {s : BPState} {u w tid : Nat}
    (hgle : GetLinkingEdge s u w = none) :
    ∃ e2 : EdgeData, e2.tri0 = some tid ∧ e2.tri1 = none ∧ e2.etype = EType.Front ∧
      pairEq e2 u w ∧
      addEdgePair env s u w tid =
        { s with
          edges := s.edges ++ [e2]
          vedges := (s.vedges.set u (insertEdge (s.vedges.getD u []) s.edges.length)).set
            w (insertEdge ((s.vedges.set u (insertEdge (s.vedges.getD u [])
              s.edges.length)).getD w []) s.edges.length) } := by
  unfold addEdgePair
  simp only []
  rw [hgle]
  simp only []
  have hget : getE { s with edges := s.edges ++ [⟨u, w, none, none, EType.Front⟩] }
      s.edges.length = ⟨u, w, none, none, EType.Front⟩ := by
    unfold getE
    exact getD_append_len _ _
  obtain ⟨e2, heq, h0, h1, hty, hpair⟩ := @AddAdjacentTriangle_slot0
    env { s with edges := s.edges ++ [⟨u, w, none, none, EType.Front⟩] }
    s.edges.length tid
    (by rw [hget]) (by rw [hget]; exact fun hx => by cases hx)
  rw [hget] at h1 hpair
  refine ⟨e2, h0, h1, hty, hpair, ?_⟩
  rw [heq]
  have hset : (s.edges ++ [(⟨u, w, none, none, EType.Front⟩ : EdgeData)]).set
      s.edges.length e2 = s.edges ++ [e2] := set_append_len _ _ _
  simp only [hset]
  rfl

theorem getE_set_self {s : BPState} {x : Nat} (hx : x < s.edges.length) (e : EdgeData) :
    getE { s with edges := s.edges.set x e } x = e := getD_set_self hx e default

theorem getE_set_ne {s : BPState} {x y : Nat} (h : x ≠ y) (e : EdgeData) :
    getE { s with edges := s.edges.set x e } y = getE s y := getD_set_ne h e default

theorem getE_append_ne {s : BPState} {y : Nat} (e : EdgeData) (h : y ≠ s.edges.length) :
    getE { s with edges := s.edges ++ [e] } y = getE s y := by
  by_cases hlt : y < s.edges.length
  · exact getD_append_left hlt default
  · have h1 : s.edges.length ≤ y := le_of_not_lt hlt
    show (s.edges ++ [e]).getD y default = s.edges.getD y default
    rw [@getD_out _ (s.edges ++ [e]) y (by
        rw [List.length_append, List.length_singleton]
        omega) default, getD_out h1]

theorem getE_append_len {s : BPState} (e : EdgeData) :
    getE { s with edges := s.edges ++ [e] } s.edges.length = e := getD_append_len e default

/-- Two coincident corner positions make the barycentric weight sum
vanish, so `ComputeBallCenter` fails (used to rule out an index repeated
in the second and third corner slots). -/
theorem ComputeBallCenter_degenerate23 (pts nms : List Vec3) (i j k : Nat) (r : ℝ)
    (h : getV pts j = getV pts k) :
    ComputeBallCenter pts nms i j k r = none := by
  rw [ComputeBallCenter_eq, if_pos]
  have hS : barySumSpec pts i j k = 0 := by
    unfold barySumSpec
    simp only []
    rw [h]
    have h0 : (getV pts k - getV pts k).squaredNorm = 0 := by
      have : getV pts k - getV pts k = 0 := by
        simp [Vec3.sub_def, Vec3.zero_def]
      rw [this]
      show (0:ℝ) * 0 + 0 * 0 + 0 * 0 = 0
      ring
    rw [h0, Vec3.squaredNorm_sub_comm (getV pts i) (getV pts k)]
    ring
  rw [hS]
  norm_num

/-- Membership in the double insert-into-endpoint-sets update of the
vertex incidence table. -/
theorem mem_set_insert_iff {ll : List (List Nat)} {u w E : Nat}
    (hu : u < ll.length) (hw : w < ll.length) (v y : Nat) :
    (y ∈ ((ll.set u (insertEdge (ll.getD u []) E)).set w
      (insertEdge ((ll.set u (insertEdge (ll.getD u []) E)).getD w []) E)).getD v []) ↔
    (y ∈ ll.getD v [] ∨ ((v = u ∨ v = w) ∧ y = E)) := by
  by_cases hvw : w = v
  · subst hvw
    rw [getD_set_self (by simpa using hw), mem_insertEdge_iff]
    by_cases hvu : u = w
    · subst hvu
      rw [getD_set_self hu, mem_insertEdge_iff]
      tauto
    · rw [getD_set_ne hvu]
      tauto
  · rw [getD_set_ne hvw]
    by_cases hvu : u = v
    · subst hvu
      rw [getD_set_self hu, mem_insertEdge_iff]
      tauto
    · rw [getD_set_ne hvu]
      constructor
      · exact fun hy => Or.inl hy
      · rintro (hy | ⟨(rfl | rfl), rfl⟩)
        · exact hy
        · exact absurd rfl hvu
        · exact absurd rfl hvw

/-- The invariants holding in the middle of `CreateTriangle`: the new
triangle `tid` with corners (a, b, c) is already in the arena, its mesh
entry is not yet pushed, its sides are only partially covered, and the
corner vertices' classifications are stale. -/
structure MidWF (n : Nat) (s : BPState) (bord : List Nat) (tid a b c : Nat) : Prop where
  vel : s.vedges.length = n
  vtl : s.vtype.length = n
  src_lt : ∀ e, e < s.edges.length → (getE s e).source < n
  tgt_lt : ∀ e, e < s.edges.length → (getE s e).target < n
  no_loop : ∀ e, e < s.edges.length → (getE s e).source ≠ (getE s e).target
  tri0_some : ∀ e, e < s.edges.length → (getE s e).tri0 ≠ none
  tri0_lt : ∀ e, e < s.edges.length → ∀ t, (getE s e).tri0 = some t → t < s.tris.length
  tri1_lt : ∀ e, e < s.edges.length → ∀ t, (getE s e).tri1 = some t → t < s.tris.length
  inner_iff : ∀ e, e < s.edges.length →
    ((getE s e).etype = EType.Inner ↔ (getE s e).tri1 ≠ none)
  border_iff : ∀ e, e < s.edges.length → ((getE s e).etype = EType.Border ↔ e ∈ bord)
  border_nodup : bord.Nodup
  border_lt : ∀ e ∈ bord, e < s.edges.length
  front_lt : ∀ e ∈ s.front, e < s.edges.length
  ve_lt : ∀ v, v < n → ∀ e ∈ getVE s v, e < s.edges.length
  ve_inc : ∀ v, v < n → ∀ e ∈ getVE s v, (getE s e).source = v ∨ (getE s e).target = v
  ve_reg : ∀ e, e < s.edges.length →
    e ∈ getVE s (getE s e).source ∧ e ∈ getVE s (getE s e).target
  pair_uni : ∀ e1, e1 < s.edges.length → ∀ e2, e2 < s.edges.length →
    samePair (getE s e1) (getE s e2) → e1 = e2
  tcorner_lt : ∀ t, t < s.tris.length →
    (getT s t).v0 < n ∧ (getT s t).v1 < n ∧ (getT s t).v2 < n
  tcorner_dist : ∀ t, t < s.tris.length →
    (getT s t).v0 ≠ (getT s t).v1 ∧ (getT s t).v1 ≠ (getT s t).v2 ∧
      (getT s t).v0 ≠ (getT s t).v2
  slot_corner : ∀ e, e < s.edges.length → ∀ t,
    ((getE s e).tri0 = some t ∨ (getE s e).tri1 = some t) →
    ((getE s e).source = (getT s t).v0 ∨ (getE s e).source = (getT s t).v1 ∨
      (getE s e).source = (getT s t).v2) ∧
    ((getE s e).target = (getT s t).v0 ∨ (getE s e).target = (getT s t).v1 ∨
      (getE s e).target = (getT s t).v2)
  tri_cover : ∀ t, t < s.tris.length → t ≠ tid →
    coveredSide s t (getT s t).v0 (getT s t).v1 ∧
    coveredSide s t (getT s t).v1 (getT s t).v2 ∧
    coveredSide s t (getT s t).v2 (getT s t).v0
  orphan_e : ∀ v, v < n → v ≠ a → v ≠ b → v ≠ c →
    getVT s v = VType.Orphan → getVE s v = []
  tri_nodup : ∀ t1, t1 < s.tris.length → ∀ t2, t2 < s.tris.length → t1 ≠ t2 →
    cornerF (getT s t1) ≠ cornerF (getT s t2)
  mesh_len : s.meshTris.length + 1 = s.tris.length
  mesh_match : ∀ i, i < s.meshTris.length →
    tripleF (s.meshTris.getD i (0, 0, 0)).1 (s.meshTris.getD i (0, 0, 0)).2.1
      (s.meshTris.getD i (0, 0, 0)).2.2 = cornerF (getT s i)
  tidx : tid + 1 = s.tris.length
  tc0 : (getT s tid).v0 = a
  tc1 : (getT s tid).v1 = b
  tc2 : (getT s tid).v2 = c

theorem getD_append_out {α : Type _} {l : List α} {y : Nat} (h : y ≠ l.length)
    (x d : α) : (l ++ [x]).getD y d = l.getD y d := by
  by_cases hlt : y < l.length
  · exact getD_append_left hlt d
  · rw [@getD_out _ (l ++ [x]) y
        (by rw [List.length_append, List.length_singleton]; omega) d,
      getD_out (le_of_not_lt hlt)]

/-- The uniform description of one `addEdgePair` step under the
mid-creation invariant: some edge id E (linked or fresh) ends up holding
the new triangle, connected to the pair (u, w), registered at both
endpoints, with all other edges untouched. -/
theorem addEdgePair_desc (env : Env) {n : Nat} {s : BPState} {bord : List Nat}
    {tid a b c u w : Nat}
    (hM : MidWF n s bord tid a b c)
    (hu : u < n) (hw : w < n) (hne : u ≠ w)
    (hguard : ∀ x, x < s.edges.length → pairEq (getE s x) u w →
      (getE s x).etype = EType.Front)
    (hnotid : ∀ x, x < s.edges.length → pairEq (getE s x) u w →
      (getE s x).tri0 ≠ some tid ∧ (getE s x).tri1 ≠ some tid) :
    ∃ E eN,
      (∀ y, y ≠ E → getE (addEdgePair env s u w tid) y = getE s y) ∧
      getE (addEdgePair env s u w tid) E = eN ∧
      pairEq eN u w ∧
      E < (addEdgePair env s u w tid).edges.length ∧
      (addEdgePair env s u w tid).vedges.length = s.vedges.length ∧
      (∀ v y, y ∈ getVE (addEdgePair env s u w tid) v ↔
        (y ∈ getVE s v ∨ ((v = u ∨ v = w) ∧ y = E))) ∧
      ((E < s.edges.length ∧
         (addEdgePair env s u w tid).edges.length = s.edges.length ∧
         eN.source = (getE s E).source ∧ eN.target = (getE s E).target ∧
         eN.tri0 = (getE s E).tri0 ∧ eN.tri1 = some tid ∧ eN.etype = EType.Inner ∧
         (getE s E).etype = EType.Front ∧ (getE s E).tri1 = none) ∨
       (E = s.edges.length ∧
         (addEdgePair env s u w tid).edges.length = s.edges.length + 1 ∧
         eN.tri0 = some tid ∧ eN.tri1 = none ∧ eN.etype = EType.Front ∧
         (∀ x, x < s.edges.length → ¬ pairEq (getE s x) u w))) := by
  have hvel : s.vedges.length = n := hM.vel
  cases hgle : GetLinkingEdge s u w with
  | some x =>
    obtain ⟨hxlt, hxpair⟩ := GetLinkingEdge_sound hu hw hne hM.ve_lt hM.ve_inc
      hM.pair_uni hgle
    have hF := hguard x hxlt hxpair
    have ht1 : (getE s x).tri1 = none := by
      by_contra hcon
      have hI := (hM.inner_iff x hxlt).mpr hcon
      rw [hF] at hI
      cases hI
    have ht0 : (getE s x).tri0 ≠ none := hM.tri0_some x hxlt
    have hdup0 : some tid ≠ (getE s x).tri0 := fun hcon =>
      (hnotid x hxlt hxpair).1 hcon.symm
    have heq := addEdgePair_existing env hgle hdup0 ht0 ht1
    refine ⟨x, { getE s x with tri1 := some tid, etype := EType.Inner },
      ?_, ?_, hxpair, ?_, ?_, ?_,
      Or.inl ⟨hxlt, ?_, rfl, rfl, rfl, rfl, rfl, hF, ht1⟩⟩
    · intro y hy
      rw [heq]
      exact getD_set_ne (fun hc => hy hc.symm) _ _
    · rw [heq]
      exact getD_set_self hxlt _ _
    · rw [heq]
      show x < (s.edges.set x _).length
      rw [List.length_set]
      exact hxlt
    · rw [heq]
      show ((s.vedges.set u _).set w _).length = s.vedges.length
      rw [List.length_set, List.length_set]
    · intro v y
      rw [heq]
      exact mem_set_insert_iff (by omega) (by omega) v y
    · rw [heq]
      show (s.edges.set x _).length = s.edges.length
      rw [List.length_set]
  | none =>
    obtain ⟨e2, h0, h1, hty, hpair, heq⟩ := addEdgePair_fresh env hgle
    have hno := GetLinkingEdge_none_no_edge hu hw hne hM.ve_lt hM.ve_inc hM.pair_uni
      hM.ve_reg hgle
    refine ⟨s.edges.length, e2, ?_, ?_, hpair, ?_, ?_, ?_,
      Or.inr ⟨rfl, ?_, h0, h1, hty, hno⟩⟩
    · intro y hy
      rw [heq]
      exact getD_append_out hy _ _
    · rw [heq]
      exact getD_append_len _ _
    · rw [heq]
      show s.edges.length < (s.edges ++ [e2]).length
      rw [List.length_append, List.length_singleton]
      omega
    · rw [heq]
      show ((s.vedges.set u _).set w _).length = s.vedges.length
      rw [List.length_set, List.length_set]
    · intro v y
      rw [heq]
      exact mem_set_insert_iff (by omega) (by omega) v y
    · rw [heq]
      show (s.edges ++ [e2]).length = s.edges.length + 1
      rw [List.length_append, List.length_singleton]

theorem pairEq_of_samePair {e1 e2 : EdgeData} {u w : Nat}
    (hs : samePair e1 e2) (hp : pairEq e1 u w) : pairEq e2 u w := by
  rcases hs with ⟨h1, h2⟩ | ⟨h1, h2⟩ <;> rcases hp with ⟨g1, g2⟩ | ⟨g1, g2⟩
  · exact Or.inl ⟨h1 ▸ g1, h2 ▸ g2⟩
  · exact Or.inr ⟨h1 ▸ g1, h2 ▸ g2⟩
  · exact Or.inr ⟨h2 ▸ g2, h1 ▸ g1⟩
  · exact Or.inl ⟨h2 ▸ g2, h1 ▸ g1⟩

/-- One `addEdgePair` block preserves the mid-creation invariant, covers
its side of the new triangle, keeps previously covered sides covered,
leaves every edge not on the pair (u, w) untouched, and references the new
triangle only from edges on already processed pair-sides. -/
theorem Mid_addPair (env : Env) {n : Nat} {s : BPState} {bord : List Nat}
    {tid a b c u w : Nat}
    (hM : MidWF n s bord tid a b c)
    (hu_mem : u = a ∨ u = b ∨ u = c) (hw_mem : w = a ∨ w = b ∨ w = c)
    (hne : u ≠ w)
    (hguard : ∀ x, x < s.edges.length → pairEq (getE s x) u w →
      (getE s x).etype = EType.Front)
    (hnotid : ∀ x, x < s.edges.length → pairEq (getE s x) u w →
      (getE s x).tri0 ≠ some tid ∧ (getE s x).tri1 ≠ some tid) :
    MidWF n (addEdgePair env s u w tid) bord tid a b c ∧
    coveredSide (addEdgePair env s u w tid) tid u w ∧
    (∀ t u' w', coveredSide s t u' w' →
      coveredSide (addEdgePair env s u w tid) t u' w') ∧
    (∀ x, x < (addEdgePair env s u w tid).edges.length →
      ¬ pairEq (getE (addEdgePair env s u w tid) x) u w →
      x < s.edges.length ∧ getE (addEdgePair env s u w tid) x = getE s x) ∧
    (∀ x, x < (addEdgePair env s u w tid).edges.length →
      ((getE (addEdgePair env s u w tid) x).tri0 = some tid ∨
        (getE (addEdgePair env s u w tid) x).tri1 = some tid) →
      pairEq (getE (addEdgePair env s u w tid) x) u w ∨
        (x < s.edges.length ∧
          ((getE s x).tri0 = some tid ∨ (getE s x).tri1 = some tid))) ∧
    (∀ x, x < s.edges.length → pairEq (getE s x) u w →
      (getE (addEdgePair env s u w tid) x).etype = EType.Inner ∧
      (getE (addEdgePair env s u w tid) x).tri1 = some tid ∧
      pairEq (getE (addEdgePair env s u w tid) x) u w) ∧
    (∀ x, x < s.edges.length → ¬ pairEq (getE s x) u w →
      getE (addEdgePair env s u w tid) x = getE s x) := by
  have htid_lt : tid < s.tris.length := by
    have := hM.tidx
    omega
  have hcor := hM.tcorner_lt tid htid_lt
  rw [hM.tc0, hM.tc1, hM.tc2] at hcor
  have hu : u < n := by
    rcases hu_mem with rfl | rfl | rfl
    exacts [hcor.1, hcor.2.1, hcor.2.2]
  have hw : w < n := by
    rcases hw_mem with rfl | rfl | rfl
    exacts [hcor.1, hcor.2.1, hcor.2.2]
  obtain ⟨E, eN, A1, A2, A3, A4, A5, A6, A7⟩ :=
    addEdgePair_desc env hM hu hw hne hguard hnotid
  set s' := addEdgePair env s u w tid with hs'
  have htris : s'.tris = s.tris := addEdgePair_tris env s u w tid
  have hgT : ∀ t, getT s' t = getT s t := fun t => by unfold getT; rw [htris]
  have hvty : s'.vtype = s.vtype := addEdgePair_vtype env s u w tid
  have hfr : s'.front = s.front := addEdgePair_front env s u w tid
  have hmt : s'.meshTris = s.meshTris := addEdgePair_meshTris env s u w tid
  have hlt_ne : ∀ y, y ≠ E → y < s'.edges.length → y < s.edges.length := by
    rcases A7 with ⟨hElt, hlen, -⟩ | ⟨hEeq, hlen, -⟩ <;> intro y hy hylt <;> omega
  have hlt_old : ∀ y, y < s.edges.length → y < s'.edges.length := by
    rcases A7 with ⟨hElt, hlen, -⟩ | ⟨hEeq, hlen, -⟩ <;> intro y hylt <;> omega
  have heNs : eN.source = u ∨ eN.source = w := by
    rcases A3 with ⟨h1, -⟩ | ⟨h1, -⟩
    exacts [Or.inl h1, Or.inr h1]
  have heNt : eN.target = u ∨ eN.target = w := by
    rcases A3 with ⟨-, h1⟩ | ⟨-, h1⟩
    exacts [Or.inr h1, Or.inl h1]
  have hmemabc : ∀ v : Nat, v = u ∨ v = w → v = a ∨ v = b ∨ v = c := by
    rintro v (rfl | rfl)
    exacts [hu_mem, hw_mem]
  have hEpairold : E < s.edges.length → pairEq (getE s E) u w := by
    intro hElt
    rcases A7 with ⟨-, -, hsrc, htgt, -⟩ | ⟨hEeq, -⟩
    · rcases A3 with ⟨h1, h2⟩ | ⟨h1, h2⟩
      · exact Or.inl ⟨hsrc ▸ h1, htgt ▸ h2⟩
      · exact Or.inr ⟨hsrc ▸ h1, htgt ▸ h2⟩
    · omega
  have cover_mono : ∀ t u' w', coveredSide s t u' w' → coveredSide s' t u' w' := by
    rintro t u' w' ⟨eid, helt, hep, hslot⟩
    by_cases hE : eid = E
    · rw [hE] at hep hslot helt
      rcases A7 with ⟨hElt, -, hsrc, htgt, ht0, -, -, -, ht1old⟩ | ⟨hEeq, -⟩
      · refine ⟨E, A4, ?_, ?_⟩
        · rw [A2]
          rcases hep with ⟨g1, g2⟩ | ⟨g1, g2⟩
          · exact Or.inl ⟨hsrc ▸ g1, htgt ▸ g2⟩
          · exact Or.inr ⟨hsrc ▸ g1, htgt ▸ g2⟩
        · rcases hslot with hsl | hsl
          · rw [A2]
            exact Or.inl (ht0 ▸ hsl)
          · rw [ht1old] at hsl
            cases hsl
      · omega
    · exact ⟨eid, hlt_old eid helt, by rw [A1 eid hE]; exact hep,
        by rw [A1 eid hE]; exact hslot⟩
  refine ⟨?_, ?_, cover_mono, ?_, ?_, ?_, ?_⟩
  case refine_2 =>
    refine ⟨E, A4, by rw [A2]; exact A3, ?_⟩
    rw [A2]
    rcases A7 with ⟨-, -, -, -, -, ht1, -⟩ | ⟨-, -, ht0, -⟩
    · exact Or.inr ht1
    · exact Or.inl ht0
  case refine_3 =>
    intro x hx hnp
    have hxE : x ≠ E := by
      intro hc
      subst hc
      rw [A2] at hnp
      exact hnp A3
    exact ⟨hlt_ne x hxE hx, A1 x hxE⟩
  case refine_4 =>
    intro x hx hslot
    by_cases hxE : x = E
    · subst hxE
      rw [A2]
      exact Or.inl A3
    · rw [A1 x hxE] at hslot
      exact Or.inr ⟨hlt_ne x hxE hx, hslot⟩
  case refine_5 =>
    intro x hx hp
    rcases A7 with ⟨hElt, -, -, -, -, ht1, hty, -⟩ | ⟨hEeq, -, -, -, -, hnone⟩
    · have hxE : x = E := hM.pair_uni x hx E hElt
        (samePair_of_pairEq hp (hEpairold hElt))
      rw [hxE, A2]
      exact ⟨hty, ht1, A3⟩
    · exact absurd hp (hnone x hx)
  case refine_6 =>
    intro x hx hnp
    rcases A7 with ⟨hElt, -⟩ | ⟨hEeq, -⟩
    · have hxE : x ≠ E := fun hc => hnp (by rw [hc]; exact hEpairold hElt)
      exact A1 x hxE
    · have hxE : x ≠ E := by omega
      exact A1 x hxE
  -- the MidWF fields
  refine ⟨A5.trans hM.vel, by rw [hvty]; exact hM.vtl, ?_, ?_, ?_, ?_, ?_, ?_, ?_, ?_,
    hM.border_nodup, ?_, ?_, ?_, ?_, ?_, ?_, ?_, ?_, ?_, ?_, ?_, ?_, ?_, ?_, ?_,
    ?_, ?_, ?_⟩
  · -- src_lt
    intro e he
    by_cases hE : e = E
    · subst hE
      rw [A2]
      rcases heNs with h1 | h1 <;> rw [h1]
      exacts [hu, hw]
    · rw [A1 e hE]
      exact hM.src_lt e (hlt_ne e hE he)
  · -- tgt_lt
    intro e he
    by_cases hE : e = E
    · subst hE
      rw [A2]
      rcases heNt with h1 | h1 <;> rw [h1]
      exacts [hu, hw]
    · rw [A1 e hE]
      exact hM.tgt_lt e (hlt_ne e hE he)
  · -- no_loop
    intro e he
    by_cases hE : e = E
    · subst hE
      rw [A2]
      rcases A3 with ⟨h1, h2⟩ | ⟨h1, h2⟩ <;> rw [h1, h2]
      exacts [hne, Ne.symm hne]
    · rw [A1 e hE]
      exact hM.no_loop e (hlt_ne e hE he)
  · -- tri0_some
    intro e he
    by_cases hE : e = E
    · subst hE
      rw [A2]
      rcases A7 with ⟨hElt, -, -, -, ht0, -⟩ | ⟨-, -, ht0, -⟩
      · rw [ht0]
        exact hM.tri0_some e hElt
      · rw [ht0]
        exact fun hc => by cases hc
    · rw [A1 e hE]
      exact hM.tri0_some e (hlt_ne e hE he)
  · -- tri0_lt
    intro e he t ht
    rw [htris]
    by_cases hE : e = E
    · subst hE
      rw [A2] at ht
      rcases A7 with ⟨hElt, -, -, -, ht0, -⟩ | ⟨-, -, ht0, -⟩
      · rw [ht0] at ht
        exact hM.tri0_lt e hElt t ht
      · rw [ht0] at ht
        cases ht
        exact htid_lt
    · rw [A1 e hE] at ht
      exact hM.tri0_lt e (hlt_ne e hE he) t ht
  · -- tri1_lt
    intro e he t ht
    rw [htris]
    by_cases hE : e = E
    · subst hE
      rw [A2] at ht
      rcases A7 with ⟨-, -, -, -, -, ht1, -⟩ | ⟨-, -, -, ht1, -⟩
      · rw [ht1] at ht
        cases ht
        exact htid_lt
      · rw [ht1] at ht
        cases ht
    · rw [A1 e hE] at ht
      exact hM.tri1_lt e (hlt_ne e hE he) t ht
  · -- inner_iff
    intro e he
    by_cases hE : e = E
    · subst hE
      rw [A2]
      rcases A7 with ⟨-, -, -, -, -, ht1, hty, -⟩ | ⟨-, -, -, ht1, hty, -⟩
      · rw [ht1, hty]
        exact ⟨fun _ hc => Option.noConfusion hc, fun _ => rfl⟩
      · rw [ht1, hty]
        exact ⟨fun hc => EType.noConfusion hc, fun hc => absurd rfl hc⟩
    · rw [A1 e hE]
      exact hM.inner_iff e (hlt_ne e hE he)
  · -- border_iff
    intro e he
    by_cases hE : e = E
    · subst hE
      rw [A2]
      rcases A7 with ⟨hElt, -, -, -, -, -, hty, hF, -⟩ | ⟨hEeq, -, -, -, hty, -⟩
      · rw [hty]
        constructor
        · intro hc
          cases hc
        · intro hmem
          have := (hM.border_iff e hElt).mpr hmem
          rw [hF] at this
          cases this
      · rw [hty]
        constructor
        · intro hc
          cases hc
        · intro hmem
          have := hM.border_lt e hmem
          omega
    · rw [A1 e hE]
      exact hM.border_iff e (hlt_ne e hE he)
  · -- border_lt
    intro e he
    exact hlt_old e (hM.border_lt e he)
  · -- front_lt
    intro e he
    rw [hfr] at he
    exact hlt_old e (hM.front_lt e he)
  · -- ve_lt
    intro v hv e he
    rcases (A6 v e).mp he with hold | ⟨-, rfl⟩
    · exact hlt_old e (hM.ve_lt v hv e hold)
    · exact A4
  · -- ve_inc
    intro v hv e he
    by_cases hE : e = E
    · subst hE
      rw [A2]
      rcases (A6 v e).mp he with hold | ⟨hvw, -⟩
      · rcases A7 with ⟨hElt, -, hsrc, htgt, -⟩ | ⟨hEeq, -⟩
        · rcases hM.ve_inc v hv e hold with h1 | h1
          · exact Or.inl (by rw [hsrc, h1])
          · exact Or.inr (by rw [htgt, h1])
        · have := hM.ve_lt v hv e hold
          omega
      · rcases hvw with rfl | rfl
        · rcases A3 with ⟨h1, h2⟩ | ⟨h1, h2⟩
          · exact Or.inl h1
          · exact Or.inr h2
        · rcases A3 with ⟨h1, h2⟩ | ⟨h1, h2⟩
          · exact Or.inr h2
          · exact Or.inl h1
    · rw [A1 e hE]
      rcases (A6 v e).mp he with hold | ⟨-, hc⟩
      · exact hM.ve_inc v hv e hold
      · exact absurd hc hE
  · -- ve_reg
    intro e he
    by_cases hE : e = E
    · subst hE
      rw [A2]
      constructor
      · rcases heNs with h1 | h1 <;> rw [h1] <;> refine (A6 _ e).mpr (Or.inr ⟨?_, rfl⟩)
        exacts [Or.inl rfl, Or.inr rfl]
      · rcases heNt with h1 | h1 <;> rw [h1] <;> refine (A6 _ e).mpr (Or.inr ⟨?_, rfl⟩)
        exacts [Or.inl rfl, Or.inr rfl]
    · rw [A1 e hE]
      have hreg := hM.ve_reg e (hlt_ne e hE he)
      exact ⟨(A6 _ e).mpr (Or.inl hreg.1), (A6 _ e).mpr (Or.inl hreg.2)⟩
  · -- pair_uni
    intro e1 h1 e2 h2 hsp
    by_cases hE1 : e1 = E <;> by_cases hE2 : e2 = E
    · rw [hE1, hE2]
    · subst hE1
      rw [A2, A1 e2 hE2] at hsp
      have hp2 : pairEq (getE s e2) u w := pairEq_of_samePair hsp A3
      have h2' := hlt_ne e2 hE2 h2
      rcases A7 with ⟨hElt, -⟩ | ⟨hEeq, -, -, -, -, hnone⟩
      · have := hM.pair_uni e1 hElt e2 h2'
          (samePair_of_pairEq (hEpairold hElt) hp2)
        omega
      · exact absurd hp2 (hnone e2 h2')
    · subst hE2
      rw [A2, A1 e1 hE1] at hsp
      have hp1 : pairEq (getE s e1) u w := by
        rcases hsp with ⟨g1, g2⟩ | ⟨g1, g2⟩
        · rcases A3 with ⟨k1, k2⟩ | ⟨k1, k2⟩
          · exact Or.inl ⟨g1.trans k1, g2.trans k2⟩
          · exact Or.inr ⟨g1.trans k1, g2.trans k2⟩
        · rcases A3 with ⟨k1, k2⟩ | ⟨k1, k2⟩
          · exact Or.inr ⟨g1.trans k2, g2.trans k1⟩
          · exact Or.inl ⟨g1.trans k2, g2.trans k1⟩
      have h1' := hlt_ne e1 hE1 h1
      rcases A7 with ⟨hElt, -⟩ | ⟨hEeq, -, -, -, -, hnone⟩
      · have := hM.pair_uni e1 h1' e2 hElt
          (samePair_of_pairEq hp1 (hEpairold hElt))
        omega
      · exact absurd hp1 (hnone e1 h1')
    · rw [A1 e1 hE1, A1 e2 hE2] at hsp
      exact hM.pair_uni e1 (hlt_ne e1 hE1 h1) e2 (hlt_ne e2 hE2 h2) hsp
  · -- tcorner_lt
    intro t ht
    rw [hgT]
    rw [htris] at ht
    exact hM.tcorner_lt t ht
  · -- tcorner_dist
    intro t ht
    rw [hgT]
    rw [htris] at ht
    exact hM.tcorner_dist t ht
  · -- slot_corner
    intro e he t hslot
    rw [hgT]
    by_cases hE : e = E
    · subst hE
      rw [A2] at hslot ⊢
      rcases A7 with ⟨hElt, -, hsrc, htgt, ht0, ht1, -⟩ | ⟨hEeq, -, ht0, ht1, -⟩
      · rcases hslot with hsl | hsl
        · rw [ht0] at hsl
          have := hM.slot_corner e hElt t (Or.inl hsl)
          rw [hsrc, htgt]
          exact this
        · rw [ht1] at hsl
          cases hsl
          rw [hM.tc0, hM.tc1, hM.tc2, hsrc, htgt]
          constructor
          · rcases hEpairold hElt with ⟨g1, -⟩ | ⟨g1, -⟩ <;> rw [g1]
            · exact hu_mem
            · exact hw_mem
          · rcases hEpairold hElt with ⟨-, g2⟩ | ⟨-, g2⟩ <;> rw [g2]
            · exact hw_mem
            · exact hu_mem
      · have hteq : t = tid := by
          rcases hslot with hsl | hsl
          · rw [ht0] at hsl
            cases hsl
            rfl
          · rw [ht1] at hsl
            cases hsl
        subst hteq
        rw [hM.tc0, hM.tc1, hM.tc2]
        constructor
        · rcases heNs with h1 | h1 <;> rw [h1]
          exacts [hu_mem, hw_mem]
        · rcases heNt with h1 | h1 <;> rw [h1]
          exacts [hu_mem, hw_mem]
    · rw [A1 e hE] at hslot ⊢
      exact hM.slot_corner e (hlt_ne e hE he) t hslot
  · -- tri_cover
    intro t ht htne
    rw [htris] at ht
    obtain ⟨c1, c2, c3⟩ := hM.tri_cover t ht htne
    rw [hgT]
    exact ⟨cover_mono _ _ _ c1, cover_mono _ _ _ c2, cover_mono _ _ _ c3⟩
  · -- orphan_e
    intro v hv hva hvb hvc horph
    have horph' : getVT s v = VType.Orphan := by
      unfold getVT at horph ⊢
      rw [hvty] at horph
      exact horph
    have hnil := hM.orphan_e v hv hva hvb hvc horph'
    rw [List.eq_nil_iff_forall_not_mem]
    intro y hy
    rcases (A6 v y).mp hy with hold | ⟨hvw, -⟩
    · rw [hnil] at hold
      cases hold
    · rcases hmemabc v hvw with rfl | rfl | rfl
      · exact hva rfl
      · exact hvb rfl
      · exact hvc rfl
  · -- tri_nodup
    intro t1 ht1 t2 ht2 htne
    rw [htris] at ht1 ht2
    rw [hgT, hgT]
    exact hM.tri_nodup t1 ht1 t2 ht2 htne
  · -- mesh_len
    rw [hmt, htris]
    exact hM.mesh_len
  · -- mesh_match
    intro i hi
    rw [hmt] at hi ⊢
    rw [hgT]
    exact hM.mesh_match i hi
  · -- tidx
    rw [htris]
    exact hM.tidx
  · rw [hgT]
    exact hM.tc0
  · rw [hgT]
    exact hM.tc1
  · rw [hgT]
    exact hM.tc2

/-- Appending the new triangle to the arena enters the mid-creation
invariant; no edge references the new triangle yet. -/
theorem Mid_start {n : Nat} {s : BPState} {bord : List Nat} {a b c : Nat}
    (hW : WFb n s bord) (center : Vec3)
    (ha : a < n) (hb : b < n) (hc : c < n)
    (hab : a ≠ b) (hbc : b ≠ c) (hac : a ≠ c)
    (hfresh : ∀ t, t < s.tris.length → cornerF (getT s t) ≠ tripleF a b c) :
    MidWF n { s with tris := s.tris ++ [⟨a, b, c, center⟩] } bord s.tris.length a b c ∧
    (∀ x, x < s.edges.length →
      (getE s x).tri0 ≠ some s.tris.length ∧ (getE s x).tri1 ≠ some s.tris.length) := by
  have hlen : ({ s with tris := s.tris ++ [(⟨a, b, c, center⟩ : TriData)] }).tris.length =
      s.tris.length + 1 := by
    show (s.tris ++ [(⟨a, b, c, center⟩ : TriData)]).length = s.tris.length + 1
    rw [List.length_append, List.length_singleton]
  have hgT : ∀ t, t < s.tris.length →
      getT { s with tris := s.tris ++ [(⟨a, b, c, center⟩ : TriData)] } t = getT s t := by
    intro t ht
    exact getD_append_left ht _
  have hgTn : getT { s with tris := s.tris ++ [(⟨a, b, c, center⟩ : TriData)] }
      s.tris.length = ⟨a, b, c, center⟩ := getD_append_len _ _
  have hnotid : ∀ x, x < s.edges.length →
      (getE s x).tri0 ≠ some s.tris.length ∧ (getE s x).tri1 ≠ some s.tris.length := by
    intro x hx
    constructor
    · intro hc0
      have := hW.tri0_lt x hx _ hc0
      omega
    · intro hc1
      have := hW.tri1_lt x hx _ hc1
      omega
  refine ⟨⟨hW.vel, hW.vtl, hW.src_lt, hW.tgt_lt, hW.no_loop, hW.tri0_some, ?_, ?_,
    hW.inner_iff, hW.border_iff, hW.border_nodup, hW.border_lt, hW.front_lt, hW.ve_lt,
    hW.ve_inc, hW.ve_reg, hW.pair_uni, ?_, ?_, ?_, ?_, ?_, ?_, ?_, ?_, ?_, ?_, ?_, ?_⟩,
    hnotid⟩
  · -- tri0_lt
    intro e he t ht
    have := hW.tri0_lt e he t ht
    rw [hlen]
    omega
  · -- tri1_lt
    intro e he t ht
    have := hW.tri1_lt e he t ht
    rw [hlen]
    omega
  · -- tcorner_lt
    intro t ht
    rw [hlen] at ht
    by_cases h : t < s.tris.length
    · rw [hgT t h]
      exact hW.tcorner_lt t h
    · have : t = s.tris.length := by omega
      rw [this, hgTn]
      exact ⟨ha, hb, hc⟩
  · -- tcorner_dist
    intro t ht
    rw [hlen] at ht
    by_cases h : t < s.tris.length
    · rw [hgT t h]
      exact hW.tcorner_dist t h
    · have : t = s.tris.length := by omega
      rw [this, hgTn]
      exact ⟨hab, hbc, hac⟩
  · -- slot_corner
    intro e he t hslot
    have ht : t < s.tris.length := by
      rcases hslot with hsl | hsl
      · exact hW.tri0_lt e he t hsl
      · exact hW.tri1_lt e he t hsl
    rw [hgT t ht]
    exact hW.slot_corner e he t hslot
  · -- tri_cover
    intro t ht htne
    rw [hlen] at ht
    have h : t < s.tris.length := by omega
    rw [hgT t h]
    obtain ⟨c1, c2, c3⟩ := hW.tri_cover t h
    exact ⟨c1, c2, c3⟩
  · -- orphan_e
    intro v hv _ _ _ horph
    exact hW.orphan_e v hv horph
  · -- tri_nodup
    intro t1 ht1 t2 ht2 htne
    rw [hlen] at ht1 ht2
    by_cases h1 : t1 < s.tris.length <;> by_cases h2 : t2 < s.tris.length
    · rw [hgT t1 h1, hgT t2 h2]
      exact hW.tri_nodup t1 h1 t2 h2 htne
    · have : t2 = s.tris.length := by omega
      rw [hgT t1 h1, this, hgTn]
      exact hfresh t1 h1
    · have : t1 = s.tris.length := by omega
      rw [hgT t2 h2, this, hgTn]
      exact fun hc => hfresh t2 h2 hc.symm
    · omega
  · -- mesh_len
    rw [hlen]
    have := hW.mesh_len
    show s.meshTris.length + 1 = s.tris.length + 1
    omega
  · -- mesh_match
    intro i hi
    have hmT : ({ s with tris := s.tris ++ [(⟨a, b, c, center⟩ : TriData)] }).meshTris
        = s.meshTris := rfl
    rw [hmT] at hi
    show tripleF (s.meshTris.getD i (0, 0, 0)).1 _ _ = _
    have hi' : i < s.tris.length := by
      have := hW.mesh_len
      omega
    rw [hgT i hi']
    exact hW.mesh_match i hi'
  · -- tidx
    rw [hlen]
  · rw [hgTn]
  · rw [hgTn]
  · rw [hgTn]

/-- After the three sides are covered, the three `UpdateType` calls and
the mesh push of `CreateTriangle` restore the full store invariant. -/
theorem Mid_finish {n : Nat} {s3 : BPState} {bord : List Nat} {tid a b c : Nat}
    (hM : MidWF n s3 bord tid a b c)
    (cab : coveredSide s3 tid a b) (cbc : coveredSide s3 tid b c)
    (cca : coveredSide s3 tid c a)
    (tri : Nat × Nat × Nat) (fn : Vec3)
    (htri : tri = (a, b, c) ∨ tri = (a, c, b)) :
    WFb n { UpdateType (UpdateType (UpdateType s3 a) b) c with
      meshTris := (UpdateType (UpdateType (UpdateType s3 a) b) c).meshTris ++ [tri],
      meshNormals :=
        (UpdateType (UpdateType (UpdateType s3 a) b) c).meshNormals ++ [fn] } bord := by
  have htid_lt : tid < s3.tris.length := by
    have := hM.tidx
    omega
  have hdist := hM.tcorner_dist tid htid_lt
  rw [hM.tc0, hM.tc1, hM.tc2] at hdist
  obtain ⟨hab, hbc, hac⟩ := hdist
  have hcors := hM.tcorner_lt tid htid_lt
  rw [hM.tc0, hM.tc1, hM.tc2] at hcors
  have hmem_ab : ∃ e, e ∈ getVE s3 a ∧ e ∈ getVE s3 b := by
    obtain ⟨e, helt, hep, -⟩ := cab
    have hreg := hM.ve_reg e helt
    rcases hep with ⟨h1, h2⟩ | ⟨h1, h2⟩
    · exact ⟨e, h1 ▸ hreg.1, h2 ▸ hreg.2⟩
    · exact ⟨e, h2 ▸ hreg.2, h1 ▸ hreg.1⟩
  have hmem_c : ∃ e, e ∈ getVE s3 c := by
    obtain ⟨e, helt, hep, -⟩ := cca
    have hreg := hM.ve_reg e helt
    rcases hep with ⟨h1, -⟩ | ⟨-, h2⟩
    · exact ⟨e, h1 ▸ hreg.1⟩
    · exact ⟨e, h2 ▸ hreg.2⟩
  refine ⟨hM.vel, ?_, hM.src_lt, hM.tgt_lt, hM.no_loop, hM.tri0_some, hM.tri0_lt,
    hM.tri1_lt, hM.inner_iff, hM.border_iff, hM.border_nodup, hM.border_lt,
    hM.front_lt, hM.ve_lt, hM.ve_inc, hM.ve_reg, hM.pair_uni, hM.tcorner_lt,
    hM.tcorner_dist, hM.slot_corner, ?_, ?_, hM.tri_nodup, ?_, ?_⟩
  · -- vtl
    show (((s3.vtype.set a _).set b _).set c _).length = n
    rw [List.length_set, List.length_set, List.length_set]
    exact hM.vtl
  · -- tri_cover
    intro t ht
    by_cases hT : t = tid
    · subst hT
      show coveredSide s3 t (getT s3 t).v0 (getT s3 t).v1 ∧
        coveredSide s3 t (getT s3 t).v1 (getT s3 t).v2 ∧
        coveredSide s3 t (getT s3 t).v2 (getT s3 t).v0
      rw [hM.tc0, hM.tc1, hM.tc2]
      exact ⟨cab, cbc, cca⟩
    · exact hM.tri_cover t ht hT
  · -- orphan_e
    intro v hv horph
    by_cases hva : v = a
    · subst hva
      exfalso
      have horph2 : (((s3.vtype.set v
          (UpdateTypeFn ((getVE s3 v).map (fun e => (getE s3 e).etype)))).set b
          (UpdateTypeFn ((getVE s3 b).map (fun e => (getE s3 e).etype)))).set c
          (UpdateTypeFn ((getVE s3 c).map (fun e => (getE s3 e).etype)))).getD v
          VType.Orphan = VType.Orphan := horph
      rw [getD_set_ne (fun hc => hac hc.symm), getD_set_ne (fun hc => hab hc.symm),
        getD_set_self (by rw [hM.vtl]; exact hv)] at horph2
      have hnil := UpdateTypeFn_orphan horph2
      rw [List.map_eq_nil_iff] at hnil
      obtain ⟨e, he, -⟩ := hmem_ab
      rw [hnil] at he
      cases he
    by_cases hvb : v = b
    · subst hvb
      exfalso
      have horph2 : (((s3.vtype.set a
          (UpdateTypeFn ((getVE s3 a).map (fun e => (getE s3 e).etype)))).set v
          (UpdateTypeFn ((getVE s3 v).map (fun e => (getE s3 e).etype)))).set c
          (UpdateTypeFn ((getVE s3 c).map (fun e => (getE s3 e).etype)))).getD v
          VType.Orphan = VType.Orphan := horph
      rw [getD_set_ne (fun hc => hbc hc.symm), getD_set_self (by
        rw [List.length_set, hM.vtl]; exact hv)] at horph2
      have hnil := UpdateTypeFn_orphan horph2
      rw [List.map_eq_nil_iff] at hnil
      obtain ⟨e, -, he⟩ := hmem_ab
      rw [hnil] at he
      cases he
    by_cases hvc : v = c
    · subst hvc
      exfalso
      have horph2 : (((s3.vtype.set a
          (UpdateTypeFn ((getVE s3 a).map (fun e => (getE s3 e).etype)))).set b
          (UpdateTypeFn ((getVE s3 b).map (fun e => (getE s3 e).etype)))).set v
          (UpdateTypeFn ((getVE s3 v).map (fun e => (getE s3 e).etype)))).getD v
          VType.Orphan = VType.Orphan := horph
      rw [getD_set_self (by
        rw [List.length_set, List.length_set, hM.vtl]; exact hv)] at horph2
      have hnil := UpdateTypeFn_orphan horph2
      rw [List.map_eq_nil_iff] at hnil
      obtain ⟨e, he⟩ := hmem_c
      rw [hnil] at he
      cases he
    · have horph2 : (((s3.vtype.set a
          (UpdateTypeFn ((getVE s3 a).map (fun e => (getE s3 e).etype)))).set b
          (UpdateTypeFn ((getVE s3 b).map (fun e => (getE s3 e).etype)))).set c
          (UpdateTypeFn ((getVE s3 c).map (fun e => (getE s3 e).etype)))).getD v
          VType.Orphan = VType.Orphan := horph
      rw [getD_set_ne (fun hc => hvc hc.symm), getD_set_ne (fun hc => hvb hc.symm),
        getD_set_ne (fun hc => hva hc.symm)] at horph2
      exact hM.orphan_e v hv hva hvb hvc horph2
  · -- mesh_len
    show (s3.meshTris ++ [tri]).length = s3.tris.length
    rw [List.length_append, List.length_singleton]
    have := hM.mesh_len
    omega
  · -- mesh_match
    intro i hi
    show tripleF ((s3.meshTris ++ [tri]).getD i (0, 0, 0)).1
      ((s3.meshTris ++ [tri]).getD i (0, 0, 0)).2.1
      ((s3.meshTris ++ [tri]).getD i (0, 0, 0)).2.2 = cornerF (getT s3 i)
    have hi' : i < s3.tris.length := hi
    by_cases hio : i < s3.meshTris.length
    · rw [getD_append_left hio]
      exact hM.mesh_match i hio
    · have hml := hM.mesh_len
      have hieq : i = s3.meshTris.length := by omega
      have hit : i = tid := by
        have := hM.mesh_len
        have := hM.tidx
        omega
      rw [hieq, getD_append_len]
      rw [← hieq, hit]
      show tripleF tri.1 tri.2.1 tri.2.2 = tripleF (getT s3 tid).v0 (getT s3 tid).v1
        (getT s3 tid).v2
      rw [hM.tc0, hM.tc1, hM.tc2]
      rcases htri with rfl | rfl
      · rfl
      · exact ((tripleF_comm a b c).2).symm

theorem mesh_push_edges (s : BPState) (tri : Nat × Nat × Nat) (fn : Vec3) :
    ({ s with
        meshTris := s.meshTris ++ [tri]
        meshNormals := s.meshNormals ++ [fn] }).edges = s.edges := rfl

theorem mesh_push_tris (s : BPState) (tri : Nat × Nat × Nat) (fn : Vec3) :
    ({ s with
        meshTris := s.meshTris ++ [tri]
        meshNormals := s.meshNormals ++ [fn] }).tris = s.tris := rfl

set_option maxHeartbeats 2000000 in
/-- `CreateTriangle` preserves the store invariant when called on three
distinct in-range corners forming a fresh triangle whose already-present
side edges are all Front; afterwards any pre-existing edge on the pair
(v0, v1) is Inner with the new triangle in its second slot. -/
theorem CreateTriangle_WF (env : Env) {n : Nat} {s : BPState} {bord : List Nat}
    {a b c : Nat} (center : Vec3)
    (hW : WFb n s bord)
    (ha : a < n) (hb : b < n) (hc : c < n)
    (hab : a ≠ b) (hbc : b ≠ c) (hac : a ≠ c)
    (hfresh : ∀ t, t < s.tris.length → cornerF (getT s t) ≠ tripleF a b c)
    (hg1 : ∀ x, x < s.edges.length → pairEq (getE s x) a b →
      (getE s x).etype = EType.Front)
    (hg2 : ∀ x, x < s.edges.length → pairEq (getE s x) b c →
      (getE s x).etype = EType.Front)
    (hg3 : ∀ x, x < s.edges.length → pairEq (getE s x) c a →
      (getE s x).etype = EType.Front) :
    WFb n (CreateTriangle env s a b c center) bord ∧
    s.edges.length ≤ (CreateTriangle env s a b c center).edges.length ∧
    (CreateTriangle env s a b c center).tris.length = s.tris.length + 1 ∧
    (∀ x, x < s.edges.length → pairEq (getE s x) a b →
      (getE (CreateTriangle env s a b c center) x).etype = EType.Inner ∧
      (getE (CreateTriangle env s a b c center) x).tri1 = some s.tris.length) := by
  have hdis_ab_bc : ∀ e : EdgeData, pairEq e a b → pairEq e b c → False := by
    rintro e (⟨r1, r2⟩ | ⟨r1, r2⟩) (⟨q1, q2⟩ | ⟨q1, q2⟩) <;> omega
  have hdis_ab_ca : ∀ e : EdgeData, pairEq e a b → pairEq e c a → False := by
    rintro e (⟨r1, r2⟩ | ⟨r1, r2⟩) (⟨q1, q2⟩ | ⟨q1, q2⟩) <;> omega
  have hdis_bc_ca : ∀ e : EdgeData, pairEq e b c → pairEq e c a → False := by
    rintro e (⟨r1, r2⟩ | ⟨r1, r2⟩) (⟨q1, q2⟩ | ⟨q1, q2⟩) <;> omega
  obtain ⟨hM0x, hnotid0⟩ := Mid_start hW center ha hb hc hab hbc hac hfresh
  set tid := s.tris.length with htiddef
  set s0 : BPState := { s with tris := s.tris ++ [(⟨a, b, c, center⟩ : TriData)] }
    with hs0def
  have hM0 : MidWF n s0 bord tid a b c := hM0x
  obtain ⟨hM1x, cov1x, mono1x, notpair1x, -, inner1x, frame1x⟩ :=
    Mid_addPair env hM0 (Or.inl rfl) (Or.inr (Or.inl rfl)) hab
      (fun x hx hp => hg1 x hx hp) (fun x hx _ => hnotid0 x hx)
  set s1 : BPState := addEdgePair env s0 a b tid with hs1def
  have hM1 : MidWF n s1 bord tid a b c := hM1x
  have cov1 : coveredSide s1 tid a b := cov1x
  have mono1 : ∀ t u' w', coveredSide s0 t u' w' → coveredSide s1 t u' w' := mono1x
  have notpair1 : ∀ x, x < s1.edges.length → ¬ pairEq (getE s1 x) a b →
      x < s.edges.length ∧ getE s1 x = getE s x := notpair1x
  have inner1 : ∀ x, x < s.edges.length → pairEq (getE s x) a b →
      (getE s1 x).etype = EType.Inner ∧ (getE s1 x).tri1 = some tid ∧
      pairEq (getE s1 x) a b := inner1x
  have hlen01 : s.edges.length ≤ s1.edges.length := addEdgePair_edges_len env s0 a b tid
  have hg2' : ∀ x, x < s1.edges.length → pairEq (getE s1 x) b c →
      (getE s1 x).etype = EType.Front := by
    intro x hx hp
    obtain ⟨hxold, hxeq⟩ := notpair1 x hx (fun hpab => hdis_ab_bc _ hpab hp)
    rw [hxeq] at hp ⊢
    exact hg2 x hxold hp
  have hnotid2 : ∀ x, x < s1.edges.length → pairEq (getE s1 x) b c →
      (getE s1 x).tri0 ≠ some tid ∧ (getE s1 x).tri1 ≠ some tid := by
    intro x hx hp
    obtain ⟨hxold, hxeq⟩ := notpair1 x hx (fun hpab => hdis_ab_bc _ hpab hp)
    rw [hxeq]
    exact hnotid0 x hxold
  obtain ⟨hM2x, cov2x, mono2x, notpair2x, -, -, frame2x⟩ :=
    Mid_addPair env hM1 (Or.inr (Or.inl rfl)) (Or.inr (Or.inr rfl)) hbc hg2' hnotid2
  set s2 : BPState := addEdgePair env s1 b c tid with hs2def
  have hM2 : MidWF n s2 bord tid a b c := hM2x
  have cov2 : coveredSide s2 tid b c := cov2x
  have mono2 : ∀ t u' w', coveredSide s1 t u' w' → coveredSide s2 t u' w' := mono2x
  have notpair2 : ∀ x, x < s2.edges.length → ¬ pairEq (getE s2 x) b c →
      x < s1.edges.length ∧ getE s2 x = getE s1 x := notpair2x
  have frame2 : ∀ x, x < s1.edges.length → ¬ pairEq (getE s1 x) b c →
      getE s2 x = getE s1 x := frame2x
  have hlen12 : s1.edges.length ≤ s2.edges.length := addEdgePair_edges_len env s1 b c tid
  have hg3' : ∀ x, x < s2.edges.length → pairEq (getE s2 x) c a →
      (getE s2 x).etype = EType.Front := by
    intro x hx hp
    obtain ⟨hx1, heq2⟩ := notpair2 x hx (fun hpbc => hdis_bc_ca _ hpbc hp)
    rw [heq2] at hp ⊢
    obtain ⟨hx0, heq1⟩ := notpair1 x hx1 (fun hpab => hdis_ab_ca _ hpab hp)
    rw [heq1] at hp ⊢
    exact hg3 x hx0 hp
  have hnotid3 : ∀ x, x < s2.edges.length → pairEq (getE s2 x) c a →
      (getE s2 x).tri0 ≠ some tid ∧ (getE s2 x).tri1 ≠ some tid := by
    intro x hx hp
    obtain ⟨hx1, heq2⟩ := notpair2 x hx (fun hpbc => hdis_bc_ca _ hpbc hp)
    rw [heq2] at hp ⊢
    obtain ⟨hx0, heq1⟩ := notpair1 x hx1 (fun hpab => hdis_ab_ca _ hpab hp)
    rw [heq1] at hp ⊢
    exact hnotid0 x hx0
  obtain ⟨hM3x, cov3x, mono3x, -, -, -, frame3x⟩ :=
    Mid_addPair env hM2 (Or.inr (Or.inr rfl)) (Or.inl rfl)
      (fun h => hac h.symm) hg3' hnotid3
  set s3 : BPState := addEdgePair env s2 c a tid with hs3def
  have hM3 : MidWF n s3 bord tid a b c := hM3x
  have cov3 : coveredSide s3 tid c a := cov3x
  have mono3 : ∀ t u' w', coveredSide s2 t u' w' → coveredSide s3 t u' w' := mono3x
  have frame3 : ∀ x, x < s2.edges.length → ¬ pairEq (getE s2 x) c a →
      getE s3 x = getE s2 x := frame3x
  have hlen23 : s2.edges.length ≤ s3.edges.length := addEdgePair_edges_len env s2 c a tid
  have hfin := Mid_finish hM3 (mono3 _ _ _ (mono2 _ _ _ cov1)) (mono3 _ _ _ cov2) cov3
    (if -1e-16 < (ComputeFaceNormal (getV env.pts a) (getV env.pts b)
        (getV env.pts c)).dot (getV env.nms a) then (a, b, c) else (a, c, b))
    (ComputeFaceNormal (getV env.pts a) (getV env.pts b) (getV env.pts c))
    (by split_ifs with h
        · exact Or.inl rfl
        · exact Or.inr rfl)
  have hCT : CreateTriangle env s a b c center =
      { UpdateType (UpdateType (UpdateType s3 a) b) c with
        meshTris := (UpdateType (UpdateType (UpdateType s3 a) b) c).meshTris ++
          [if -1e-16 < (ComputeFaceNormal (getV env.pts a) (getV env.pts b)
              (getV env.pts c)).dot (getV env.nms a) then (a, b, c) else (a, c, b)],
        meshNormals := (UpdateType (UpdateType (UpdateType s3 a) b) c).meshNormals ++
          [ComputeFaceNormal (getV env.pts a) (getV env.pts b) (getV env.pts c)] } := by
    rw [hs3def, hs2def, hs1def, hs0def, htiddef]
    rfl
  have htris3 : s3.tris = s0.tris := by
    rw [hs3def, hs2def, hs1def]
    rw [addEdgePair_tris, addEdgePair_tris, addEdgePair_tris]
  have hs0tris : s0.tris = s.tris ++ [(⟨a, b, c, center⟩ : TriData)] := by
    rw [hs0def]
  have hedgesCT : (CreateTriangle env s a b c center).edges = s3.edges := by
    rw [hCT]
    simp only [mesh_push_edges, UpdateType_edges]
  have htrisCT : (CreateTriangle env s a b c center).tris = s3.tris := by
    rw [hCT]
    simp only [mesh_push_tris, UpdateType_tris]
  have hgetECT : ∀ y, getE (CreateTriangle env s a b c center) y = getE s3 y := by
    intro y
    unfold getE
    rw [hedgesCT]
  refine ⟨?_, ?_, ?_, ?_⟩
  · rw [hCT]
    exact hfin
  · rw [hedgesCT]
    omega
  · rw [htrisCT, htris3, hs0tris]
    rw [List.length_append, List.length_singleton]
  · intro x hx hp
    obtain ⟨hty1, ht11, hp1⟩ := inner1 x hx hp
    have hx1 : x < s1.edges.length := by omega
    have heq2 : getE s2 x = getE s1 x :=
      frame2 x hx1 (fun hpbc => hdis_ab_bc _ hp1 hpbc)
    have hp2 : pairEq (getE s2 x) a b := by rw [heq2]; exact hp1
    have hx2 : x < s2.edges.length := by omega
    have heq3 : getE s3 x = getE s2 x :=
      frame3 x hx2 (fun hpca => hdis_ab_ca _ hp2 hpca)
    rw [hgetECT x, heq3, heq2]
    exact ⟨hty1, ht11⟩

/-- Retyping a single edge (with arbitrary new work lists) preserves the
store invariant, provided the new classification is consistent with the
edge's second slot and the new border tracking list. -/
theorem WFb_set_etype {n : Nat} {s : BPState} {bord : List Nat} (hW : WFb n s bord)
    {eid : Nat} (helt : eid < s.edges.length) (ty : EType)
    {bord' F' B' : List Nat}
    (hbord_iff : ∀ e, e < s.edges.length →
      (((if e = eid then ty else (getE s e).etype) = EType.Border) ↔ e ∈ bord'))
    (hbord_nodup : bord'.Nodup)
    (hbord_lt : ∀ e ∈ bord', e < s.edges.length)
    (hF_lt : ∀ e ∈ F', e < s.edges.length)
    (hinner : ty = EType.Inner ↔ (getE s eid).tri1 ≠ none) :
    WFb n { s with
        edges := s.edges.set eid { getE s eid with etype := ty }
        front := F'
        border := B' } bord' := by
  set s' : BPState := { s with
    edges := s.edges.set eid { getE s eid with etype := ty }
    front := F'
    border := B' } with hs'def
  have hlen : s'.edges.length = s.edges.length := by
    show (s.edges.set eid _).length = s.edges.length
    rw [List.length_set]
  have hgEid : getE s' eid = { getE s eid with etype := ty } := getD_set_self helt _ _
  have hgE : ∀ y, y ≠ eid → getE s' y = getE s y := fun y hy =>
    getD_set_ne (fun hc => hy hc.symm) _ _
  have hends : ∀ y, (getE s' y).source = (getE s y).source ∧
      (getE s' y).target = (getE s y).target ∧
      (getE s' y).tri0 = (getE s y).tri0 ∧ (getE s' y).tri1 = (getE s y).tri1 := by
    intro y
    by_cases hy : y = eid
    · subst hy
      rw [hgEid]
      exact ⟨rfl, rfl, rfl, rfl⟩
    · rw [hgE y hy]
      exact ⟨rfl, rfl, rfl, rfl⟩
  have hty : ∀ y, y ≠ eid → (getE s' y).etype = (getE s y).etype := by
    intro y hy
    rw [hgE y hy]
  have htyEid : (getE s' eid).etype = ty := by rw [hgEid]
  have hVE : ∀ v, getVE s' v = getVE s v := fun _ => rfl
  have hVT : ∀ v, getVT s' v = getVT s v := fun _ => rfl
  have hT : ∀ t, getT s' t = getT s t := fun _ => rfl
  have hcov : ∀ t u w, coveredSide s t u w → coveredSide s' t u w := by
    rintro t u w ⟨e, he, hp, hsl⟩
    refine ⟨e, by omega, ?_, ?_⟩
    · obtain ⟨h1, h2, -, -⟩ := hends e
      rcases hp with ⟨g1, g2⟩ | ⟨g1, g2⟩
      · exact Or.inl ⟨h1.trans g1, h2.trans g2⟩
      · exact Or.inr ⟨h1.trans g1, h2.trans g2⟩
    · obtain ⟨-, -, h3, h4⟩ := hends e
      rcases hsl with hsl | hsl
      · exact Or.inl (h3.trans hsl)
      · exact Or.inr (h4.trans hsl)
  refine ⟨hW.vel, hW.vtl, ?_, ?_, ?_, ?_, ?_, ?_, ?_, ?_, hbord_nodup, ?_, ?_, ?_,
    ?_, ?_, ?_, ?_, ?_, ?_, ?_, ?_, ?_, hW.mesh_len, ?_⟩
  · intro e he
    rw [(hends e).1]
    exact hW.src_lt e (by omega)
  · intro e he
    rw [(hends e).2.1]
    exact hW.tgt_lt e (by omega)
  · intro e he
    rw [(hends e).1, (hends e).2.1]
    exact hW.no_loop e (by omega)
  · intro e he
    rw [(hends e).2.2.1]
    exact hW.tri0_some e (by omega)
  · intro e he t ht
    rw [(hends e).2.2.1] at ht
    exact hW.tri0_lt e (by omega) t ht
  · intro e he t ht
    rw [(hends e).2.2.2] at ht
    exact hW.tri1_lt e (by omega) t ht
  · intro e he
    rw [(hends e).2.2.2]
    by_cases hy : e = eid
    · subst hy
      rw [htyEid]
      exact hinner
    · rw [hty e hy]
      exact hW.inner_iff e (by omega)
  · intro e he
    have he' : e < s.edges.length := by omega
    have hbi := hbord_iff e he'
    by_cases hy : e = eid
    · subst hy
      rw [htyEid]
      rw [if_pos rfl] at hbi
      exact hbi
    · rw [hty e hy]
      rw [if_neg hy] at hbi
      exact hbi
  · intro e he
    have := hbord_lt e he
    omega
  · intro e he
    have := hF_lt e he
    omega
  · intro v hv e he
    rw [hVE] at he
    have := hW.ve_lt v hv e he
    omega
  · intro v hv e he
    rw [hVE] at he
    rw [(hends e).1, (hends e).2.1]
    exact hW.ve_inc v hv e he
  · intro e he
    rw [(hends e).1, (hends e).2.1, hVE, hVE]
    exact hW.ve_reg e (by omega)
  · intro e1 h1 e2 h2 hsp
    refine hW.pair_uni e1 (by omega) e2 (by omega) ?_
    obtain ⟨a1, b1, -, -⟩ := hends e1
    obtain ⟨a2, b2, -, -⟩ := hends e2
    rcases hsp with ⟨g1, g2⟩ | ⟨g1, g2⟩
    · exact Or.inl ⟨a1 ▸ a2 ▸ g1, b1 ▸ b2 ▸ g2⟩
    · exact Or.inr ⟨a1 ▸ b2 ▸ g1, b1 ▸ a2 ▸ g2⟩
  · intro t ht
    rw [hT]
    exact hW.tcorner_lt t ht
  · intro t ht
    rw [hT]
    exact hW.tcorner_dist t ht
  · intro e he t hslot
    rw [(hends e).2.2.1, (hends e).2.2.2] at hslot
    rw [(hends e).1, (hends e).2.1, hT]
    exact hW.slot_corner e (by omega) t hslot
  · intro t ht
    rw [hT]
    obtain ⟨c1, c2, c3⟩ := hW.tri_cover t ht
    exact ⟨hcov _ _ _ c1, hcov _ _ _ c2, hcov _ _ _ c3⟩
  · intro v hv horph
    rw [hVT] at horph
    rw [hVE]
    exact hW.orphan_e v hv horph
  · intro t1 ht1 t2 ht2 htne
    rw [hT, hT]
    exact hW.tri_nodup t1 ht1 t2 ht2 htne
  · intro i hi
    rw [hT]
    exact hW.mesh_match i hi

/-- Marking a Front edge Border and appending it to the border list
preserves the store invariant. -/
theorem markBorder_WF {n : Nat} {s : BPState} {bord : List Nat} {eid : Nat}
    (hW : WFb n s bord) (helt : eid < s.edges.length)
    (hF : (getE s eid).etype = EType.Front) :
    WFb n (markBorder s eid) (bord ++ [eid]) := by
  have hnotin : eid ∉ bord := by
    intro hmem
    have hc := (hW.border_iff eid helt).mpr hmem
    rw [hF] at hc
    cases hc
  have ht1 : (getE s eid).tri1 = none := by
    by_contra hcon
    have hc := (hW.inner_iff eid helt).mpr hcon
    rw [hF] at hc
    cases hc
  have hbord_iff : ∀ e, e < s.edges.length →
      (((if e = eid then EType.Border else (getE s e).etype) = EType.Border) ↔
        e ∈ bord ++ [eid]) := by
    intro e he
    by_cases hy : e = eid
    · subst hy
      rw [if_pos rfl]
      simp
    · rw [if_neg hy]
      rw [List.mem_append, List.mem_singleton]
      constructor
      · intro hb
        exact Or.inl ((hW.border_iff e he).mp hb)
      · rintro (hb | rfl)
        · exact (hW.border_iff e he).mpr hb
        · exact absurd rfl hy
  have hbord_nodup : (bord ++ [eid]).Nodup := by
    rw [List.nodup_append]
    exact ⟨hW.border_nodup, List.nodup_singleton eid,
      fun a ha hb => hnotin (by rwa [List.mem_singleton.mp hb] at ha)⟩
  have hbord_lt : ∀ e ∈ bord ++ [eid], e < s.edges.length := by
    intro e he
    rcases List.mem_append.mp he with hb | hb
    · exact hW.border_lt e hb
    · rw [List.mem_singleton.mp hb]
      exact helt
  have hinner : EType.Border = EType.Inner ↔ (getE s eid).tri1 ≠ none :=
    ⟨fun hc => EType.noConfusion hc, fun hcon => absurd ht1 hcon⟩
  exact WFb_set_etype hW helt EType.Border hbord_iff hbord_nodup hbord_lt
    hW.front_lt hinner

/-- Reviving a Border edge (type back to Front, `push_back` on the front
queue) preserves the invariant with the edge removed from the border
tracking list. -/
theorem revive_WF {n : Nat} {s : BPState} {extra rest : List Nat} {eid : Nat}
    (hW : WFb n s (extra ++ eid :: rest)) (helt : eid < s.edges.length)
    (hB : (getE s eid).etype = EType.Border) :
    WFb n { s with
        edges := s.edges.set eid { getE s eid with etype := EType.Front }
        front := s.front ++ [eid]
        border := s.border } (extra ++ rest) := by
  have hnd := hW.border_nodup
  have hnotin : eid ∉ extra ++ rest := by
    intro hmem
    rw [List.nodup_append] at hnd
    rcases List.mem_append.mp hmem with hm | hm
    · exact hnd.2.2 hm (by simp)
    · have : eid ∉ rest := by
        have h2 := hnd.2.1
        rw [List.nodup_cons] at h2
        exact h2.1
      exact this hm
  have ht1 : (getE s eid).tri1 = none := by
    by_contra hcon
    have hc := (hW.inner_iff eid helt).mpr hcon
    rw [hB] at hc
    cases hc
  have hbord_iff : ∀ e, e < s.edges.length →
      (((if e = eid then EType.Front else (getE s e).etype) = EType.Border) ↔
        e ∈ extra ++ rest) := by
    intro e he
    by_cases hy : e = eid
    · subst hy
      rw [if_pos rfl]
      constructor
      · intro hc
        cases hc
      · intro hmem
        exact absurd hmem hnotin
    · rw [if_neg hy]
      rw [List.mem_append]
      constructor
      · intro hb
        have := (hW.border_iff e he).mp hb
        rcases List.mem_append.mp this with hm | hm
        · exact Or.inl hm
        · rcases List.mem_cons.mp hm with rfl | hm
          · exact absurd rfl hy
          · exact Or.inr hm
      · rintro (hm | hm)
        · exact (hW.border_iff e he).mpr (List.mem_append.mpr (Or.inl hm))
        · exact (hW.border_iff e he).mpr
            (List.mem_append.mpr (Or.inr (List.mem_cons_of_mem _ hm)))
  have hbord_nodup : (extra ++ rest).Nodup :=
    List.Nodup.sublist (List.Sublist.append_left (List.sublist_cons_self eid rest) extra) hnd
  have hbord_lt : ∀ e ∈ extra ++ rest, e < s.edges.length := by
    intro e he
    refine hW.border_lt e ?_
    rcases List.mem_append.mp he with hm | hm
    · exact List.mem_append.mpr (Or.inl hm)
    · exact List.mem_append.mpr (Or.inr (List.mem_cons_of_mem _ hm))
  have hF_lt : ∀ e ∈ s.front ++ [eid], e < s.edges.length := by
    intro e he
    rcases List.mem_append.mp he with hm | hm
    · exact hW.front_lt e hm
    · rw [List.mem_singleton.mp hm]
      exact helt
  have hinner : EType.Front = EType.Inner ↔ (getE s eid).tri1 ≠ none :=
    ⟨fun hc => EType.noConfusion hc, fun hcon => absurd ht1 hcon⟩
  exact WFb_set_etype hW helt EType.Front hbord_iff hbord_nodup hbord_lt hF_lt hinner

/-- The border-revisit loop body preserves the invariant, with the border
tracking list passing from the pending edges to the kept edges. -/
theorem revisitGo_WF (env : Env) (radius : ℝ) {n : Nat} :
    ∀ (pending extra : List Nat) (s : BPState),
      WFb n s (extra ++ pending) →
      WFb n (revisitGo env radius pending s).2
        (extra ++ (revisitGo env radius pending s).1) := by
  intro pending
  induction pending with
  | nil =>
    intro extra s hW
    rw [List.append_nil] at hW
    show WFb n s (extra ++ [])
    rw [List.append_nil]
    exact hW
  | cons eid rest ih =>
    intro extra s hW
    have hmem : eid ∈ extra ++ eid :: rest := by simp
    have helt : eid < s.edges.length := hW.border_lt eid hmem
    have hB : (getE s eid).etype = EType.Border := (hW.border_iff eid helt).mpr hmem
    rw [revisitGo_cons]
    by_cases hdec : reviveDecision env s eid radius = true
    · rw [if_pos hdec]
      have hWr : WFb n (reviveState s eid) (extra ++ rest) :=
        revive_WF hW helt hB
      exact ih extra (reviveState s eid) hWr
    · rw [if_neg hdec]
      have hW2 : WFb n s ((extra ++ [eid]) ++ rest) := by
        rw [List.append_assoc]
        exact hW
      have := ih (extra ++ [eid]) s hW2
      rw [List.append_assoc] at this
      exact this

/-- The whole border-revisit pass preserves the store invariant. -/
theorem borderRevisit_WF (env : Env) (radius : ℝ) {n : Nat} {s : BPState}
    (hW : WF n s) : WF n (borderRevisit env s radius) := by
  have h0 : WFb n s ([] ++ s.border) := hW
  have h1 := revisitGo_WF env radius s.border [] s h0
  unfold WF borderRevisit
  exact WFb_border h1 _

/-- One candidate-loop step either keeps the accumulator or elects the
scanned vertex (which then differs from source, target and opposite). -/
theorem candidateStep_cases (env : Env) (src tgt opp : Nat) (mp v a : Vec3)
    (radius : ℝ) (indices : List Nat) (acc : Option Nat × ℝ × Vec3) (x : Nat) :
    candidateStep env src tgt opp mp v a radius indices acc x = acc ∨
    ((¬ (x = src ∨ x = tgt ∨ x = opp)) ∧ ∃ A nc,
      candidateStep env src tgt opp mp v a radius indices acc x = (some x, A, nc)) := by
  unfold candidateStep
  by_cases h1 : x = src ∨ x = tgt ∨ x = opp
  · rw [if_pos h1]
    exact Or.inl rfl
  · rw [if_neg h1]
    split_ifs with h2
    · exact Or.inl rfl
    · cases hcbc : ComputeBallCenter env.pts env.nms src tgt x radius with
      | none => exact Or.inl rfl
      | some nc =>
        simp only []
        split_ifs <;>
          first
          | exact Or.inl rfl
          | exact Or.inr ⟨h1, _, _, rfl⟩

/-- Any candidate accumulated by the candidate fold comes from the search
result and differs from source, target and opposite vertex. -/
theorem candidateStep_fold (env : Env) (src tgt opp : Nat) (mp v a : Vec3)
    (radius : ℝ) (indices : List Nat) :
    ∀ (l : List Nat) (acc : Option Nat × ℝ × Vec3),
      (∀ x ∈ l, x ∈ indices) →
      (∀ cand, acc.1 = some cand →
        cand ∈ indices ∧ cand ≠ src ∧ cand ≠ tgt ∧ cand ≠ opp) →
      ∀ cand,
        (l.foldl (candidateStep env src tgt opp mp v a radius indices) acc).1 =
          some cand →
        cand ∈ indices ∧ cand ≠ src ∧ cand ≠ tgt ∧ cand ≠ opp := by
  intro l
  induction l with
  | nil =>
    intro acc _ hacc cand h
    exact hacc cand h
  | cons x xs ih =>
    intro acc hsub hacc cand h
    rw [List.foldl_cons] at h
    refine ih _ (fun y hy => hsub y (List.mem_cons_of_mem _ hy)) ?_ cand h
    intro cand2 hc2
    rcases candidateStep_cases env src tgt opp mp v a radius indices acc x with
      heq | ⟨h1, A, nc, heq⟩
    · rw [heq] at hc2
      exact hacc cand2 hc2
    · rw [heq] at hc2
      push_neg at h1
      have hx : x = cand2 := Option.some_inj.mp hc2
      subst hx
      exact ⟨hsub x (List.mem_cons_self x xs), h1.1, h1.2.1, h1.2.2⟩

/-- `FindCandidateVertex` success facts: the candidate comes from the
radius search around the edge midpoint and differs from the edge's
endpoints and from the opposite vertex of its first triangle. -/
theorem FindCandidateVertex_spec (env : Env) (s : BPState) (eid : Nat) (radius : ℝ)
    {cand : Nat} {cc : Vec3}
    (h : FindCandidateVertex env s eid radius = Except.ok (some cand, cc)) :
    ∃ t, (getE s eid).tri0 = some t ∧
      cand ∈ env.sr ((0.5 : ℝ) • (getV env.pts (getE s eid).source +
        getV env.pts (getE s eid).target)) (2 * radius) ∧
      cand ≠ (getE s eid).source ∧ cand ≠ (getE s eid).target ∧
      cand ≠ oppositeOfTri (getT s t) (getE s eid).source (getE s eid).target := by
  unfold FindCandidateVertex at h
  simp only [] at h
  rcases ht0 : (getE s eid).tri0 with _ | t
  · rw [ht0] at h
    exact Except.noConfusion h
  · rw [ht0] at h
    simp only [] at h
    have hpair := Except.ok.inj h
    have h1 := congrArg Prod.fst hpair
    simp only [] at h1
    have := candidateStep_fold env (getE s eid).source (getE s eid).target
      (oppositeOfTri (getT s t) (getE s eid).source (getE s eid).target)
      ((0.5 : ℝ) • (getV env.pts (getE s eid).source + getV env.pts (getE s eid).target))
      ((getV env.pts (getE s eid).target - getV env.pts (getE s eid).source).sdiv
        (getV env.pts (getE s eid).target - getV env.pts (getE s eid).source).norm)
      (((getT s t).center - (0.5 : ℝ) • (getV env.pts (getE s eid).source +
          getV env.pts (getE s eid).target)).sdiv
        ((getT s t).center - (0.5 : ℝ) • (getV env.pts (getE s eid).source +
          getV env.pts (getE s eid).target)).norm)
      radius
      (env.sr ((0.5 : ℝ) • (getV env.pts (getE s eid).source +
        getV env.pts (getE s eid).target)) (2 * radius))
      (env.sr ((0.5 : ℝ) • (getV env.pts (getE s eid).source +
        getV env.pts (getE s eid).target)) (2 * radius))
      (none, 2 * Real.pi, 0)
      (fun y hy => hy)
      (fun cand0 hc0 => Option.noConfusion hc0)
      cand h1
    exact ⟨t, rfl, this.1, this.2.1, this.2.2.1, this.2.2.2⟩

theorem front_override (s : BPState) (f : List Nat) :
    ({ s with front := f }).front = f := rfl

theorem front_set_border (s : BPState) (f : List Nat) :
    ({ s with front := f }).border = s.border := rfl

/-- The conditional `push_front` pair at the end of `expandCommit`
(re-fetch the two linking edges and push each Front one). -/
def commitPushes (t : BPState) (x0 x1 : Nat) : BPState :=
  let s2 := (if (getE t x0).etype = EType.Front
    then { t with front := x0 :: t.front } else t)
  (if (getE s2 x1).etype = EType.Front
    then { s2 with front := x1 :: s2.front } else s2)

theorem expandCommit_push_eq (env : Env) (s0 : BPState) (src tgt cand : Nat)
    (center : Vec3) {x0 x1 : Nat}
    (h0 : GetLinkingEdge (CreateTriangle env s0 src tgt cand center) cand src = some x0)
    (h1 : GetLinkingEdge (CreateTriangle env s0 src tgt cand center) cand tgt = some x1) :
    expandCommit env s0 src tgt cand center =
      Except.ok (commitPushes (CreateTriangle env s0 src tgt cand center) x0 x1) := by
  rw [expandCommit_eq env s0 src tgt cand center h0 h1]
  rfl

theorem commitPushes_spec (t : BPState) (x0 x1 : Nat) :
    ∃ l, (commitPushes t x0 x1).front = l ++ t.front ∧
      (commitPushes t x0 x1).tris = t.tris ∧
      (commitPushes t x0 x1).border = t.border ∧
      (∀ y, getE (commitPushes t x0 x1) y = getE t y) := by
  unfold commitPushes
  simp only []
  split_ifs
  · exact ⟨[x1, x0], rfl, rfl, rfl, fun y => rfl⟩
  · exact ⟨[x0], rfl, rfl, rfl, fun y => rfl⟩
  · exact ⟨[x1], rfl, rfl, rfl, fun y => rfl⟩
  · exact ⟨[], rfl, rfl, rfl, fun y => rfl⟩

theorem commitPushes_WF {n : Nat} {t : BPState} {bord : List Nat} (hW : WFb n t bord)
    {x0 x1 : Nat} (h0 : x0 < t.edges.length) (h1 : x1 < t.edges.length) :
    WFb n (commitPushes t x0 x1) bord := by
  unfold commitPushes
  simp only []
  split_ifs
  · refine WFb_front hW (x1 :: x0 :: t.front) ?_
    intro e he
    rcases List.mem_cons.mp he with rfl | he
    · exact h1
    · rcases List.mem_cons.mp he with rfl | he
      · exact h0
      · exact hW.front_lt e he
  · refine WFb_front hW (x0 :: t.front) ?_
    intro e he
    rcases List.mem_cons.mp he with rfl | he
    · exact h0
    · exact hW.front_lt e he
  · refine WFb_front hW (x1 :: t.front) ?_
    intro e he
    rcases List.mem_cons.mp he with rfl | he
    · exact h1
    · exact hW.front_lt e he
  · exact hW

/-- `expandCommit` never hits its null-linking-edge error under the
invariant, preserves it, adds one triangle, only prepends to the front
queue, keeps the border list, and fills the second slot of any existing
edge on the pair (source, target). -/
theorem expandCommit_WF (env : Env) {n : Nat} {s : BPState} {bord : List Nat}
    {src tgt cand : Nat} (center : Vec3)
    (hW : WFb n s bord) (hvel : s.vedges.length = n)
    (hsrc : src < n) (htgt : tgt < n) (hcand : cand < n)
    (hst : src ≠ tgt) (hcs : cand ≠ src) (hct : cand ≠ tgt)
    (hfresh : ∀ t, t < s.tris.length → cornerF (getT s t) ≠ tripleF src tgt cand)
    (hg1 : ∀ x, x < s.edges.length → pairEq (getE s x) src tgt →
      (getE s x).etype = EType.Front)
    (hg2 : ∀ x, x < s.edges.length → pairEq (getE s x) tgt cand →
      (getE s x).etype = EType.Front)
    (hg3 : ∀ x, x < s.edges.length → pairEq (getE s x) cand src →
      (getE s x).etype = EType.Front) :
    ∃ s', expandCommit env s src tgt cand center = Except.ok s' ∧ WFb n s' bord ∧
      s'.tris.length = s.tris.length + 1 ∧
      (∃ l, s'.front = l ++ s.front) ∧
      s'.border = s.border ∧
      (∀ x, x < s.edges.length → pairEq (getE s x) src tgt →
        (getE s' x).etype = EType.Inner ∧ (getE s' x).tri1 = some s.tris.length) := by
  obtain ⟨hWF1, hlen1, htris1, hinner1⟩ := CreateTriangle_WF env center hW hsrc htgt
    hcand hst (fun h => hct h.symm) (fun h => hcs h.symm) hfresh hg1 hg2 hg3
  set s1 := CreateTriangle env s src tgt cand center with hs1def
  have hfr1 : s1.front = s.front := CreateTriangle_front env s src tgt cand center
  have hbo1 : s1.border = s.border := CreateTriangle_border env s src tgt cand center
  obtain ⟨-, ⟨b, hb1, hb2⟩, ⟨d, hd1, hd2⟩⟩ := CreateTriangle_links env center
    (by rw [hvel]; exact hsrc) (by rw [hvel]; exact htgt) (by rw [hvel]; exact hcand)
    hst (fun h => hct h.symm) hcs
  obtain ⟨x0, hx0⟩ := GetLinkingEdge_isSome hd1 hd2
  obtain ⟨x1, hx1⟩ := GetLinkingEdge_isSome hb2 hb1
  have hx0lt : x0 < s1.edges.length :=
    (GetLinkingEdge_sound hcand hsrc hcs hWF1.ve_lt hWF1.ve_inc hWF1.pair_uni hx0).1
  have hx1lt : x1 < s1.edges.length :=
    (GetLinkingEdge_sound hcand htgt hct hWF1.ve_lt hWF1.ve_inc hWF1.pair_uni hx1).1
  obtain ⟨l, hfr_eq, htris_eq, hbord_eq, hgetE_eq⟩ := commitPushes_spec s1 x0 x1
  have hWFp : WFb n (commitPushes s1 x0 x1) bord := commitPushes_WF hWF1 hx0lt hx1lt
  refine ⟨commitPushes s1 x0 x1, ?_, hWFp, ?_, ⟨l, ?_⟩, ?_, ?_⟩
  · rw [expandCommit_push_eq env s src tgt cand center hx0 hx1, ← hs1def]
  · rw [htris_eq]
    exact htris1
  · rw [hfr_eq, hfr1]
  · rw [hbord_eq]
    exact hbo1
  · intro x hx hp
    rw [hgetE_eq]
    exact hinner1 x hx hp

theorem side_cover_of_corners {s : BPState} {t u w : Nat}
    (hcov : coveredSide s t (getT s t).v0 (getT s t).v1 ∧
            coveredSide s t (getT s t).v1 (getT s t).v2 ∧
            coveredSide s t (getT s t).v2 (getT s t).v0)
    (hu : u = (getT s t).v0 ∨ u = (getT s t).v1 ∨ u = (getT s t).v2)
    (hw : w = (getT s t).v0 ∨ w = (getT s t).v1 ∨ w = (getT s t).v2)
    (hne : u ≠ w) :
    coveredSide s t u w ∨ coveredSide s t w u := by
  obtain ⟨c1, c2, c3⟩ := hcov
  rcases hu with rfl | rfl | rfl <;> rcases hw with rfl | rfl | rfl <;>
    first
    | exact absurd rfl hne
    | exact Or.inl c1
    | exact Or.inr c1
    | exact Or.inl c2
    | exact Or.inr c2
    | exact Or.inl c3
    | exact Or.inr c3

/-- No existing triangle has the corner set {source, target, candidate}:
the only edge on the pair (source, target) is the popped edge itself, its
only triangle is `triangle0`, whose third corner is the opposite vertex,
and the candidate differs from it. -/
theorem expand_fresh {n : Nat} {s : BPState} {bord : List Nat} (hW : WFb n s bord)
    {eid t0 cand : Nat}
    (helt : eid < s.edges.length)
    (hF : (getE s eid).etype = EType.Front)
    (ht0 : (getE s eid).tri0 = some t0)
    (hcs : cand ≠ (getE s eid).source) (hct : cand ≠ (getE s eid).target)
    (hco : cand ≠ oppositeOfTri (getT s t0) (getE s eid).source (getE s eid).target) :
    ∀ t, t < s.tris.length →
      cornerF (getT s t) ≠ tripleF (getE s eid).source (getE s eid).target cand := by
  intro t ht hceq
  have hst : (getE s eid).source ≠ (getE s eid).target := hW.no_loop eid helt
  have hsrc_mem : (getE s eid).source = (getT s t).v0 ∨
      (getE s eid).source = (getT s t).v1 ∨ (getE s eid).source = (getT s t).v2 := by
    refine mem_tripleF.mp ?_
    show (getE s eid).source ∈ cornerF (getT s t)
    rw [hceq]
    exact mem_tripleF.mpr (Or.inl rfl)
  have htgt_mem : (getE s eid).target = (getT s t).v0 ∨
      (getE s eid).target = (getT s t).v1 ∨ (getE s eid).target = (getT s t).v2 := by
    refine mem_tripleF.mp ?_
    show (getE s eid).target ∈ cornerF (getT s t)
    rw [hceq]
    exact mem_tripleF.mpr (Or.inr (Or.inl rfl))
  have hside := side_cover_of_corners (hW.tri_cover t ht) hsrc_mem htgt_mem hst
  have hedge : ∃ y, y < s.edges.length ∧
      pairEq (getE s y) (getE s eid).source (getE s eid).target ∧
      ((getE s y).tri0 = some t ∨ (getE s y).tri1 = some t) := by
    rcases hside with ⟨y, hy, hp, hsl⟩ | ⟨y, hy, hp, hsl⟩
    · exact ⟨y, hy, hp, hsl⟩
    · exact ⟨y, hy, pairEq_swap hp, hsl⟩
  obtain ⟨y, hy, hp, hsl⟩ := hedge
  have hyeid : y = eid := hW.pair_uni y hy eid helt
    (samePair_of_pairEq hp (Or.inl ⟨rfl, rfl⟩))
  subst hyeid
  have ht1 : (getE s y).tri1 = none := by
    by_contra hcon
    have hc := (hW.inner_iff y hy).mpr hcon
    rw [hF] at hc
    cases hc
  rcases hsl with hsl | hsl
  · rw [ht0] at hsl
    cases hsl
    have hslots := hW.slot_corner y hy t0 (Or.inl ht0)
    have hdist := hW.tcorner_dist t0 (hW.tri0_lt y hy t0 ht0)
    obtain ⟨-, -, hcorn⟩ := oppositeOfTri_spec (getT s t0) (getE s y).source
      (getE s y).target hslots.1 hslots.2 hst hdist.1 hdist.2.1
      (fun hc => hdist.2.2 hc)
    have htrip : tripleF (getE s y).source (getE s y).target cand =
        tripleF (getE s y).source (getE s y).target
          (oppositeOfTri (getT s t0) (getE s y).source (getE s y).target) :=
      hceq.symm.trans hcorn
    have hmemc : cand ∈ tripleF (getE s y).source (getE s y).target
        (oppositeOfTri (getT s t0) (getE s y).source (getE s y).target) := by
      rw [← htrip]
      exact mem_tripleF.mpr (Or.inr (Or.inr rfl))
    rcases mem_tripleF.mp hmemc with hc | hc | hc
    · exact hcs hc
    · exact hct hc
    · exact hco hc
  · rw [ht1] at hsl
    cases hsl

/-- A passed not-Front check on the linking edge of a pair forces every
arena edge on that pair to be Front. -/
theorem linkNotFront_false_guard {n : Nat} {s : BPState} {bord : List Nat}
    (hW : WFb n s bord) {cand v : Nat} (hcand : cand < n) (hv : v < n)
    (hne : cand ≠ v)
    (hnl : linkNotFront s (GetLinkingEdge s cand v) = false) :
    ∀ x, x < s.edges.length → pairEq (getE s x) cand v →
      (getE s x).etype = EType.Front := by
  intro x hx hp
  have hgle := GetLinkingEdge_eq hcand hv hne hW.ve_lt hW.ve_inc hW.pair_uni hx hp
    (hW.ve_reg x hx).1 (hW.ve_reg x hx).2
  rw [hgle] at hnl
  unfold linkNotFront at hnl
  simp only [] at hnl
  simpa using hnl

theorem FindCandidateVertex_ok (env : Env) (s : BPState) (eid : Nat) (radius : ℝ)
    (ht0 : (getE s eid).tri0 ≠ none) :
    ∃ candOpt center,
      FindCandidateVertex env s eid radius = Except.ok (candOpt, center) := by
  unfold FindCandidateVertex
  simp only []
  rcases h : (getE s eid).tri0 with _ | t
  · exact absurd h ht0
  · exact ⟨_, _, rfl⟩

/-- One `ExpandTriangulation` iteration never raises an error from a state
satisfying the invariant, and preserves the invariant. -/
theorem expandStep_WF (env : Env) (hsr : SROk env) {s : BPState} (radius : ℝ)
    (hW : WF env.pts.length s) :
    ∃ s', expandStep env s radius = Except.ok s' ∧ WF env.pts.length s' := by
  cases hfr : s.front with
  | nil =>
    refine ⟨s, ?_, hW⟩
    unfold expandStep
    rw [hfr]
  | cons eid rest =>
    have helt : eid < s.edges.length := hW.front_lt eid (by rw [hfr]; simp)
    have hW_pop : WF env.pts.length { s with front := rest } := by
      refine WFb_front hW rest ?_
      intro e he
      exact hW.front_lt e (by rw [hfr]; exact List.mem_cons_of_mem _ he)
    rw [expandStep_cons env radius hfr]
    set sp := { s with front := rest } with hspdef
    have heltp : eid < sp.edges.length := helt
    by_cases hF : (getE sp eid).etype = EType.Front
    ·
      have ht0 : (getE sp eid).tri0 ≠ none := hW_pop.tri0_some eid heltp
      obtain ⟨candOpt, center, hfcv⟩ := FindCandidateVertex_ok env sp eid radius ht0
      rw [expandBody_eq env hF hfcv]
      cases candOpt with
      | none =>
        rw [expandDecide_none]
        refine ⟨_, rfl, ?_⟩
        exact markBorder_WF hW_pop heltp hF
      | some cand =>
        rw [expandDecide_some]
        split_ifs with hc1 hc2
        · refine ⟨_, rfl, ?_⟩
          exact markBorder_WF hW_pop heltp hF
        · refine ⟨_, rfl, ?_⟩
          exact markBorder_WF hW_pop heltp hF
        · -- commit branch
          push_neg at hc2
          obtain ⟨hnl1x, hnl2x⟩ := hc2
          have hnl1 : linkNotFront sp
              (GetLinkingEdge sp cand (getE sp eid).source) = false :=
            Bool.eq_false_iff.mpr hnl1x
          have hnl2 : linkNotFront sp
              (GetLinkingEdge sp cand (getE sp eid).target) = false :=
            Bool.eq_false_iff.mpr hnl2x
          obtain ⟨t0, ht0eq, hmem, hcs, hct, hco⟩ :=
            FindCandidateVertex_spec env sp eid radius hfcv
          have hcand_lt : cand < env.pts.length := hsr _ _ cand hmem
          have hsrc_lt := hW_pop.src_lt eid heltp
          have htgt_lt := hW_pop.tgt_lt eid heltp
          have hst := hW_pop.no_loop eid heltp
          have hfresh := expand_fresh hW_pop heltp hF ht0eq hcs hct hco
          have hg1 : ∀ x, x < sp.edges.length →
              pairEq (getE sp x) (getE sp eid).source (getE sp eid).target →
              (getE sp x).etype = EType.Front := by
            intro x hx hp
            have hxeid : x = eid := hW_pop.pair_uni x hx eid heltp
              (samePair_of_pairEq hp (Or.inl ⟨rfl, rfl⟩))
            rw [hxeid]
            exact hF
          have hg2 : ∀ x, x < sp.edges.length →
              pairEq (getE sp x) (getE sp eid).target cand →
              (getE sp x).etype = EType.Front := by
            intro x hx hp
            exact linkNotFront_false_guard hW_pop hcand_lt htgt_lt hct hnl2 x hx
              (pairEq_swap hp)
          have hg3 : ∀ x, x < sp.edges.length →
              pairEq (getE sp x) cand (getE sp eid).source →
              (getE sp x).etype = EType.Front := by
            intro x hx hp
            exact linkNotFront_false_guard hW_pop hcand_lt hsrc_lt hcs hnl1 x hx hp
          obtain ⟨s', hok, hWF', -, -, hbord', -⟩ := expandCommit_WF env center hW_pop
            hW_pop.vel hsrc_lt htgt_lt hcand_lt hst hcs hct hfresh hg1 hg2 hg3
          refine ⟨s', hok, ?_⟩
          unfold WF
          rw [hbord']
          exact hWF'
    ·
      refine ⟨sp, ?_, hW_pop⟩
      unfold expandBody
      rw [if_pos hF]

/-- The conditional `push_front` triple at the end of a successful
`TrySeed` commit. -/
def seedPushes (t : BPState) (x0 x1 x2 : Nat) : BPState :=
  let s2 := (if (getE t x0).etype = EType.Front
    then { t with front := x0 :: t.front } else t)
  let s3 := (if (getE s2 x1).etype = EType.Front
    then { s2 with front := x1 :: s2.front } else s2)
  (if (getE s3 x2).etype = EType.Front
    then { s3 with front := x2 :: s3.front } else s3)

theorem seedCommit_eq (env : Env) (s : BPState) (v nb0 nb1 : Nat) (center : Vec3)
    {x0 x1 x2 : Nat}
    (hn1 : linkNotFront s (GetLinkingEdge s v nb1) = false)
    (hn2 : linkNotFront s (GetLinkingEdge s nb0 nb1) = false)
    (hn3 : linkNotFront s (GetLinkingEdge s v nb0) = false)
    (h0 : GetLinkingEdge (CreateTriangle env s v nb0 nb1 center) v nb1 = some x0)
    (h1 : GetLinkingEdge (CreateTriangle env s v nb0 nb1 center) nb0 nb1 = some x1)
    (h2 : GetLinkingEdge (CreateTriangle env s v nb0 nb1 center) v nb0 = some x2) :
    seedCommit env s v nb0 nb1 center =
      (if 0 < (seedPushes (CreateTriangle env s v nb0 nb1 center) x0 x1 x2).front.length
       then Except.ok (seedPushes (CreateTriangle env s v nb0 nb1 center) x0 x1 x2, true)
       else Except.ok
         (seedPushes (CreateTriangle env s v nb0 nb1 center) x0 x1 x2, false)) := by
  unfold seedCommit
  rw [if_neg (by rw [hn1]; exact Bool.false_ne_true),
    if_neg (by rw [hn2]; exact Bool.false_ne_true),
    if_neg (by rw [hn3]; exact Bool.false_ne_true)]
  simp only []
  rw [h0, h1, h2]
  rfl

theorem seedPushes_spec (t : BPState) (x0 x1 x2 : Nat) :
    ∃ l, (seedPushes t x0 x1 x2).front = l ++ t.front ∧
      (seedPushes t x0 x1 x2).tris = t.tris ∧
      (seedPushes t x0 x1 x2).border = t.border ∧
      (∀ y, getE (seedPushes t x0 x1 x2) y = getE t y) := by
  unfold seedPushes
  simp only []
  split_ifs <;>
    first
    | exact ⟨[x2, x1, x0], rfl, rfl, rfl, fun y => rfl⟩
    | exact ⟨[x2, x1], rfl, rfl, rfl, fun y => rfl⟩
    | exact ⟨[x2, x0], rfl, rfl, rfl, fun y => rfl⟩
    | exact ⟨[x2], rfl, rfl, rfl, fun y => rfl⟩
    | exact ⟨[x1, x0], rfl, rfl, rfl, fun y => rfl⟩
    | exact ⟨[x1], rfl, rfl, rfl, fun y => rfl⟩
    | exact ⟨[x0], rfl, rfl, rfl, fun y => rfl⟩
    | exact ⟨[], rfl, rfl, rfl, fun y => rfl⟩

theorem seedPushes_WF {n : Nat} {t : BPState} {bord : List Nat} (hW : WFb n t bord)
    {x0 x1 x2 : Nat} (h0 : x0 < t.edges.length) (h1 : x1 < t.edges.length)
    (h2 : x2 < t.edges.length) :
    WFb n (seedPushes t x0 x1 x2) bord := by
  unfold seedPushes
  simp only []
  have hstep : ∀ (u : BPState) (x : Nat), WFb n u bord → x < u.edges.length →
      WFb n (if (getE u x).etype = EType.Front
        then { u with front := x :: u.front } else u) bord := by
    intro u x hWu hx
    split_ifs
    · refine WFb_front hWu (x :: u.front) ?_
      intro e he
      rcases List.mem_cons.mp he with rfl | he
      · exact hx
      · exact hWu.front_lt e he
    · exact hWu
  have h1' := hstep t x0 hW h0
  have hlen1 : (if (getE t x0).etype = EType.Front
      then { t with front := x0 :: t.front } else t).edges.length = t.edges.length := by
    split_ifs <;> rfl
  have h2' := hstep _ x1 h1' (by rw [hlen1]; exact h1)
  have hlen2 : (if (getE (if (getE t x0).etype = EType.Front
        then { t with front := x0 :: t.front } else t) x1).etype = EType.Front
      then { (if (getE t x0).etype = EType.Front
          then { t with front := x0 :: t.front } else t) with
          front := x1 :: (if (getE t x0).etype = EType.Front
            then { t with front := x0 :: t.front } else t).front }
      else (if (getE t x0).etype = EType.Front
        then { t with front := x0 :: t.front } else t)).edges.length =
      t.edges.length := by
    split_ifs <;> rfl
  exact hstep _ x2 h2' (by rw [hlen2]; exact h2)

/-- An orphan vertex is a corner of no triangle. -/
theorem orphan_no_triangle {n : Nat} {s : BPState} {bord : List Nat}
    (hW : WFb n s bord) {p : Nat} (hp : p < n)
    (horph : getVT s p = VType.Orphan) :
    ∀ t, t < s.tris.length → p ∉ cornerF (getT s t) := by
  intro t ht hmem
  have hnil := hW.orphan_e p hp horph
  obtain ⟨c1, c2, c3⟩ := hW.tri_cover t ht
  have hused : ∃ y, y < s.edges.length ∧
      ((getE s y).source = p ∨ (getE s y).target = p) := by
    rcases mem_tripleF.mp hmem with hc | hc | hc
    · obtain ⟨y, hy, hpair, -⟩ := c1
      rcases hpair with ⟨hh1, -⟩ | ⟨-, hh2⟩
      · exact ⟨y, hy, Or.inl (by rw [hh1, hc])⟩
      · exact ⟨y, hy, Or.inr (by rw [hh2, hc])⟩
    · obtain ⟨y, hy, hpair, -⟩ := c2
      rcases hpair with ⟨hh1, -⟩ | ⟨-, hh2⟩
      · exact ⟨y, hy, Or.inl (by rw [hh1, hc])⟩
      · exact ⟨y, hy, Or.inr (by rw [hh2, hc])⟩
    · obtain ⟨y, hy, hpair, -⟩ := c3
      rcases hpair with ⟨hh1, -⟩ | ⟨-, hh2⟩
      · exact ⟨y, hy, Or.inl (by rw [hh1, hc])⟩
      · exact ⟨y, hy, Or.inr (by rw [hh2, hc])⟩
  obtain ⟨y, hy, hend⟩ := hused
  have hreg := hW.ve_reg y hy
  rcases hend with hend | hend
  · have := hreg.1
    rw [hend, hnil] at this
    cases this
  · have := hreg.2
    rw [hend, hnil] at this
    cases this

/-- The fresh engine state satisfies the store invariant. -/
theorem WF_init (env : Env) : WF env.pts.length (initState env) := by
  have hE : (initState env).edges = [] := rfl
  have hT : (initState env).tris = [] := rfl
  refine ⟨?_, ?_, ?_, ?_, ?_, ?_, ?_, ?_, ?_, ?_, ?_, ?_, ?_, ?_, ?_, ?_, ?_,
    ?_, ?_, ?_, ?_, ?_, ?_, ?_, ?_⟩
  · simp [initState]
  · simp [initState]
  · intro e he; rw [hE] at he; cases he
  · intro e he; rw [hE] at he; cases he
  · intro e he; rw [hE] at he; cases he
  · intro e he; rw [hE] at he; cases he
  · intro e he; rw [hE] at he; cases he
  · intro e he; rw [hE] at he; cases he
  · intro e he; rw [hE] at he; cases he
  · intro e he; rw [hE] at he; cases he
  · exact List.nodup_nil
  · intro e he; cases he
  · intro e he; cases he
  · intro v _ e he; rw [getVE_init] at he; cases he
  · intro v _ e he; rw [getVE_init] at he; cases he
  · intro e he; rw [hE] at he; cases he
  · intro e1 he1; rw [hE] at he1; cases he1
  · intro t ht; rw [hT] at ht; cases ht
  · intro t ht; rw [hT] at ht; cases ht
  · intro e he; rw [hE] at he; cases he
  · intro t ht; rw [hT] at ht; cases ht
  · intro v _ _; exact getVE_init env v
  · intro t1 ht1; rw [hT] at ht1; cases ht1
  · simp [initState]
  · intro i hi; rw [hT] at hi; cases hi

/-- A successful `TryTriangleSeed` implies a successful ball-center
computation on the same corners, returning the same center. -/
theorem TryTriangleSeed_CBC {env : Env} {s : BPState} {v0 v1 v2 : Nat}
    {nbIndices : List Nat} {radius : ℝ} {center : Vec3}
    (h : TryTriangleSeed env s v0 v1 v2 nbIndices radius = some center) :
    ComputeBallCenter env.pts env.nms v0 v1 v2 radius = some center := by
  unfold TryTriangleSeed at h
  split_ifs at h
  rcases hcbc : ComputeBallCenter env.pts env.nms v0 v1 v2 radius with _ | c
  · rw [hcbc] at h
    simp only [] at h
    exact h
  · rw [hcbc] at h
    simp only [] at h
    split_ifs at h
    exact h

/-- What a successful inner seed scan guarantees about the elected
partner. -/
theorem trySeedInner_spec (env : Env) (v nb0 : Nat) (nbIndices : List Nat)
    (radius : ℝ) :
    ∀ rest : List Nat, ∀ s : BPState, ∀ i1 : Nat, ∀ center : Vec3,
      trySeedInner env s v nb0 rest nbIndices radius = some (i1, center) →
      getVT s i1 = VType.Orphan ∧ i1 ≠ v ∧ i1 ∈ rest ∧
      TryTriangleSeed env s v nb0 i1 nbIndices radius = some center := by
  intro rest
  induction rest with
  | nil =>
    intro s i1 center h
    exact Option.noConfusion h
  | cons x rest1 ih =>
    intro s i1 center h
    unfold trySeedInner at h
    split_ifs at h with h1 h2
    · obtain ⟨ho, hnv, hmem, htts⟩ := ih s i1 center h
      exact ⟨ho, hnv, List.mem_cons_of_mem _ hmem, htts⟩
    · obtain ⟨ho, hnv, hmem, htts⟩ := ih s i1 center h
      exact ⟨ho, hnv, List.mem_cons_of_mem _ hmem, htts⟩
    · rcases htts : TryTriangleSeed env s v nb0 x nbIndices radius with _ | c
      · rw [htts] at h
        obtain ⟨ho, hnv, hmem, htts'⟩ := ih s i1 center h
        exact ⟨ho, hnv, List.mem_cons_of_mem _ hmem, htts'⟩
      · rw [htts] at h
        injection h with h'
        obtain ⟨rfl, rfl⟩ := Prod.mk.injEq .. ▸ Prod.ext_iff.mp h'
        push_neg at h1
        exact ⟨h1, h2, List.mem_cons_self x rest1, htts⟩

/-- A seed commit on two orphan partners never errors and preserves the
invariant; it touches neither the border list nor the tracking list. -/
theorem seedCommit_WF (env : Env) {n : Nat} {s : BPState} {bord : List Nat}
    {v nb0 nb1 : Nat} (center : Vec3)
    (hW : WFb n s bord)
    (hv : v < n) (h0 : nb0 < n) (h1 : nb1 < n)
    (hvn0 : v ≠ nb0) (hvn1 : v ≠ nb1) (hn01 : nb0 ≠ nb1)
    (horph0 : getVT s nb0 = VType.Orphan) :
    ∃ s' b, seedCommit env s v nb0 nb1 center = Except.ok (s', b) ∧
      WFb n s' bord ∧ s'.border = s.border := by
  by_cases g1 : linkNotFront s (GetLinkingEdge s v nb1) = true
  · exact ⟨s, false, by unfold seedCommit; rw [if_pos g1], hW, rfl⟩
  by_cases g2 : linkNotFront s (GetLinkingEdge s nb0 nb1) = true
  · exact ⟨s, false, by unfold seedCommit; rw [if_neg g1, if_pos g2], hW, rfl⟩
  by_cases g3 : linkNotFront s (GetLinkingEdge s v nb0) = true
  · exact ⟨s, false, by unfold seedCommit; rw [if_neg g1, if_neg g2, if_pos g3], hW, rfl⟩
  have hn1 : linkNotFront s (GetLinkingEdge s v nb1) = false := Bool.eq_false_iff.mpr g1
  have hn2 : linkNotFront s (GetLinkingEdge s nb0 nb1) = false := Bool.eq_false_iff.mpr g2
  have hn3 : linkNotFront s (GetLinkingEdge s v nb0) = false := Bool.eq_false_iff.mpr g3
  have hg1 : ∀ x, x < s.edges.length → pairEq (getE s x) v nb0 →
      (getE s x).etype = EType.Front :=
    linkNotFront_false_guard hW hv h0 hvn0 hn3
  have hg2 : ∀ x, x < s.edges.length → pairEq (getE s x) nb0 nb1 →
      (getE s x).etype = EType.Front :=
    linkNotFront_false_guard hW h0 h1 hn01 hn2
  have hg3 : ∀ x, x < s.edges.length → pairEq (getE s x) nb1 v →
      (getE s x).etype = EType.Front :=
    fun x hx hp => linkNotFront_false_guard hW hv h1 hvn1 hn1 x hx (pairEq_swap hp)
  have hfresh : ∀ t, t < s.tris.length → cornerF (getT s t) ≠ tripleF v nb0 nb1 := by
    intro t ht hcontra
    have hmem : nb0 ∈ cornerF (getT s t) := by
      rw [hcontra]
      exact mem_tripleF.mpr (Or.inr (Or.inl rfl))
    exact orphan_no_triangle hW h0 horph0 t ht hmem
  obtain ⟨hW1, hlen1, htris1, -⟩ :=
    CreateTriangle_WF env center hW hv h0 h1 hvn0 hn01 hvn1 hfresh hg1 hg2 hg3
  have hv' : v < s.vedges.length := by rw [hW.vel]; exact hv
  have h0' : nb0 < s.vedges.length := by rw [hW.vel]; exact h0
  have h1' : nb1 < s.vedges.length := by rw [hW.vel]; exact h1
  obtain ⟨⟨a01, ha01v, ha01n0⟩, ⟨b12, hb12n0, hb12n1⟩, ⟨d20, hd20n1, hd20v⟩⟩ :=
    CreateTriangle_links env center hv' h0' h1' hvn0 hn01 (Ne.symm hvn1)
  obtain ⟨x0, hx0⟩ := GetLinkingEdge_isSome hd20v hd20n1
  obtain ⟨x1, hx1⟩ := GetLinkingEdge_isSome hb12n0 hb12n1
  obtain ⟨x2, hx2⟩ := GetLinkingEdge_isSome ha01v ha01n0
  have hx0lt : x0 < (CreateTriangle env s v nb0 nb1 center).edges.length :=
    hW1.ve_lt v hv x0 (GetLinkingEdge_mem hx0).1
  have hx1lt : x1 < (CreateTriangle env s v nb0 nb1 center).edges.length :=
    hW1.ve_lt nb0 h0 x1 (GetLinkingEdge_mem hx1).1
  have hx2lt : x2 < (CreateTriangle env s v nb0 nb1 center).edges.length :=
    hW1.ve_lt v hv x2 (GetLinkingEdge_mem hx2).1
  have hWp := seedPushes_WF hW1 hx0lt hx1lt hx2lt
  obtain ⟨l, -, -, hpb, -⟩ :=
    seedPushes_spec (CreateTriangle env s v nb0 nb1 center) x0 x1 x2
  have hCTb : (CreateTriangle env s v nb0 nb1 center).border = s.border :=
    CreateTriangle_border env s v nb0 nb1 center
  rw [seedCommit_eq env s v nb0 nb1 center hn1 hn2 hn3 hx0 hx1 hx2]
  split_ifs
  · exact ⟨_, true, rfl, hWp, by rw [hpb, hCTb]⟩
  · exact ⟨_, false, rfl, hWp, by rw [hpb, hCTb]⟩

/-- The outer seed loop never errors and preserves the invariant. -/
theorem trySeedOuter_WF (env : Env) (v : Nat) (nbIndices : List Nat) (radius : ℝ)
    (hv : v < env.pts.length) :
    ∀ outer : List Nat, (∀ x ∈ outer, x < env.pts.length) →
      ∀ s : BPState, WF env.pts.length s →
      ∃ s' b, trySeedOuter env s v outer nbIndices radius = Except.ok (s', b) ∧
        WF env.pts.length s' := by
  intro outer
  induction outer with
  | nil =>
    intro _ s hW
    exact ⟨s, false, rfl, hW⟩
  | cons i0 rest ih =>
    intro hsub s hW
    have hi0 : i0 < env.pts.length := hsub i0 (List.mem_cons_self i0 rest)
    have hsub' : ∀ x ∈ rest, x < env.pts.length :=
      fun x hx => hsub x (List.mem_cons_of_mem _ hx)
    by_cases h1 : getVT s i0 ≠ VType.Orphan
    · obtain ⟨s', b, heq, hW'⟩ := ih hsub' s hW
      exact ⟨s', b, by unfold trySeedOuter; rw [if_pos h1]; exact heq, hW'⟩
    · by_cases h2 : i0 = v
      · obtain ⟨s', b, heq, hW'⟩ := ih hsub' s hW
        exact ⟨s', b, by unfold trySeedOuter; rw [if_neg h1, if_pos h2]; exact heq, hW'⟩
      · push_neg at h1
        rcases hinner : trySeedInner env s v i0 rest nbIndices radius with _ | p
        · obtain ⟨s', b, heq, hW'⟩ := ih hsub' s hW
          refine ⟨s', b, ?_, hW'⟩
          unfold trySeedOuter
          rw [if_neg (not_ne_iff.mpr h1), if_neg h2]
          rw [hinner]
          simp only []
          exact heq
        · obtain ⟨i1, center⟩ := p
          obtain ⟨ho1, hne1v, hmem1, htts⟩ :=
            trySeedInner_spec env v i0 nbIndices radius rest s i1 center hinner
          have hi1 : i1 < env.pts.length := hsub' i1 hmem1
          have hcbc := TryTriangleSeed_CBC htts
          have hne01 : i0 ≠ i1 := by
            intro hc
            subst hc
            rw [ComputeBallCenter_degenerate23 env.pts env.nms v i0 i0 radius rfl]
              at hcbc
            exact Option.noConfusion hcbc
          have hvne0 : v ≠ i0 := fun hc => h2 hc.symm
          have hvne1 : v ≠ i1 := fun hc => hne1v hc.symm
          obtain ⟨s1, b1, hcommit, hW1, hbord⟩ :=
            seedCommit_WF env center hW hv hi0 hi1 hvne0 hvne1 hne01 h1
          have hW1' : WF env.pts.length s1 := by
            unfold WF
            rw [hbord]
            exact hW1
          cases b1 with
          | true =>
            refine ⟨s1, true, ?_, hW1'⟩
            unfold trySeedOuter
            rw [if_neg (not_ne_iff.mpr h1), if_neg h2]
            rw [hinner]
            simp only []
            rw [hcommit]
          | false =>
            obtain ⟨s', b, heq, hW'⟩ := ih hsub' s1 hW1'
            refine ⟨s', b, ?_, hW'⟩
            unfold trySeedOuter
            rw [if_neg (not_ne_iff.mpr h1), if_neg h2]
            rw [hinner]
            simp only []
            rw [hcommit]
            simp only []
            exact heq

/-- `TrySeed` never errors and preserves the invariant. -/
theorem TrySeed_WF (env : Env) (hsr : SROk env) (v : Nat) (radius : ℝ)
    (hv : v < env.pts.length) {s : BPState} (hW : WF env.pts.length s) :
    ∃ s' b, TrySeed env s v radius = Except.ok (s', b) ∧
      WF env.pts.length s' := by
  unfold TrySeed
  simp only []
  split_ifs
  · exact ⟨s, false, rfl, hW⟩
  · exact trySeedOuter_WF env v _ radius hv _
      (fun x hx => hsr (getV env.pts v) (2 * radius) x hx) s hW

theorem expandLoop_succ (env : Env) (fuel : Nat) (s : BPState) (radius : ℝ) :
    expandLoop env (fuel + 1) s radius =
      (match s.front with
       | [] => Except.ok (some s)
       | _ :: _ =>
         match expandStep env s radius with
         | Except.error er => Except.error er
         | Except.ok s1 => expandLoop env fuel s1 radius) := by
  rw [expandLoop]

/-- The expansion loop never errors (possibly running out of fuel) and
preserves the invariant. -/
theorem expandLoop_WF (env : Env) (hsr : SROk env) (radius : ℝ) :
    ∀ fuel : Nat, ∀ s : BPState, WF env.pts.length s →
      expandLoop env fuel s radius = Except.ok none ∨
      ∃ s', expandLoop env fuel s radius = Except.ok (some s') ∧
        WF env.pts.length s' := by
  intro fuel
  induction fuel with
  | zero =>
    intro s hW
    exact Or.inl rfl
  | succ f ih =>
    intro s hW
    rw [expandLoop_succ]
    cases hfr : s.front with
    | nil =>
      exact Or.inr ⟨s, rfl, hW⟩
    | cons a l =>
      obtain ⟨s1, hstep, hW1⟩ := expandStep_WF env hsr radius hW
      simp only []
      rw [hstep]
      exact ih s1 hW1

/-- The seed-search loop never errors and preserves the invariant. -/
theorem findSeedLoop_WF (env : Env) (hsr : SROk env) (fuel : Nat) (radius : ℝ) :
    ∀ vl : List Nat, (∀ x ∈ vl, x < env.pts.length) →
      ∀ s : BPState, WF env.pts.length s →
      findSeedLoop env fuel radius vl s = Except.ok none ∨
      ∃ s', findSeedLoop env fuel radius vl s = Except.ok (some s') ∧
        WF env.pts.length s' := by
  intro vl
  induction vl with
  | nil =>
    intro _ s hW
    exact Or.inr ⟨s, rfl, hW⟩
  | cons vidx rest ih =>
    intro hsub s hW
    have hvidx : vidx < env.pts.length := hsub vidx (List.mem_cons_self vidx rest)
    have hsub' : ∀ x ∈ rest, x < env.pts.length :=
      fun x hx => hsub x (List.mem_cons_of_mem _ hx)
    by_cases horph : getVT s vidx = VType.Orphan
    · obtain ⟨s1, b, hts, hW1⟩ := TrySeed_WF env hsr vidx radius hvidx hW
      cases b with
      | false =>
        have heq : findSeedLoop env fuel radius (vidx :: rest) s =
            findSeedLoop env fuel radius rest s1 := by
          conv_lhs => unfold findSeedLoop
          rw [if_pos horph]
          rw [hts]
          simp only []
          rw [if_neg Bool.false_ne_true]
        rw [heq]
        exact ih hsub' s1 hW1
      | true =>
        rcases expandLoop_WF env hsr radius fuel s1 hW1 with hnone | ⟨s2, hsome, hW2⟩
        · left
          conv_lhs => unfold findSeedLoop
          rw [if_pos horph]
          rw [hts]
          simp only []
          rw [if_pos trivial]
          rw [hnone]
        · have heq : findSeedLoop env fuel radius (vidx :: rest) s =
              findSeedLoop env fuel radius rest s2 := by
            conv_lhs => unfold findSeedLoop
            rw [if_pos horph]
            rw [hts]
            simp only []
            rw [if_pos trivial]
            rw [hsome]
          rw [heq]
          exact ih hsub' s2 hW2
    · have heq : findSeedLoop env fuel radius (vidx :: rest) s =
          findSeedLoop env fuel radius rest s := by
        conv_lhs => unfold findSeedLoop
        rw [if_neg horph]
      rw [heq]
      exact ih hsub' s hW

/-- `FindSeedTriangle` never errors and preserves the invariant. -/
theorem FindSeedTriangle_WF (env : Env) (hsr : SROk env) (fuel : Nat)
    {s : BPState} (radius : ℝ) (hW : WF env.pts.length s) :
    FindSeedTriangle env fuel s radius = Except.ok none ∨
    ∃ s', FindSeedTriangle env fuel s radius = Except.ok (some s') ∧
      WF env.pts.length s' := by
  unfold FindSeedTriangle
  refine findSeedLoop_WF env hsr fuel radius _ ?_ s hW
  intro x hx
  rw [List.mem_range] at hx
  rw [hW.vtl] at hx
  exact hx

/-- The per-radius body of `Run` never errors and preserves the
invariant. -/
theorem runRadius_WF (env : Env) (hsr : SROk env) (fuel : Nat) {s : BPState}
    (radius : ℝ) (hW : WF env.pts.length s) :
    runRadius env fuel s radius = Except.ok none ∨
    ∃ s', runRadius env fuel s radius = Except.ok (some s') ∧
      WF env.pts.length s' := by
  have hW1 := borderRevisit_WF env radius hW
  unfold runRadius
  simp only []
  split_ifs
  · exact FindSeedTriangle_WF env hsr fuel radius hW1
  · exact expandLoop_WF env hsr radius fuel _ hW1

/-- The radius loop of `Run` never errors on positive radii and preserves
the invariant. -/
theorem runRadii_WF (env : Env) (hsr : SROk env) (fuel : Nat) :
    ∀ radii : List ℝ, (∀ r ∈ radii, 0 < r) →
      ∀ s : BPState, WF env.pts.length s →
      runRadii env fuel radii s = Except.ok none ∨
      ∃ s', runRadii env fuel radii s = Except.ok (some s') ∧
        WF env.pts.length s' := by
  intro radii
  induction radii with
  | nil =>
    intro _ s hW
    exact Or.inr ⟨s, rfl, hW⟩
  | cons r rs ih =>
    intro hpos s hW
    have hr : 0 < r := hpos r (List.mem_cons_self r rs)
    have hpos' : ∀ x ∈ rs, 0 < x := fun x hx => hpos x (List.mem_cons_of_mem _ hx)
    rcases runRadius_WF env hsr fuel r hW with hnone | ⟨s1, hsome, hW1⟩
    · left
      conv_lhs => unfold runRadii
      rw [if_neg (not_le.mpr hr)]
      rw [hnone]
    · have heq : runRadii env fuel (r :: rs) s = runRadii env fuel rs s1 := by
        conv_lhs => unfold runRadii
        rw [if_neg (not_le.mpr hr)]
        rw [hsome]
      rw [heq]
      exact ih hpos' s1 hW1

/-! ### Reachability of engine states -/

/-- One engine operation between which the store invariant holds: an
expansion step, a seed attempt at an in-range vertex, or a border
revisit. -/
inductive EngineStep (env : Env) : BPState → BPState → Prop where
  | expand (radius : ℝ) {s s' : BPState} :
      expandStep env s radius = Except.ok s' → EngineStep env s s'
  | seed (v : Nat) (radius : ℝ) (b : Bool) {s s' : BPState} :
      v < env.pts.length → TrySeed env s v radius = Except.ok (s', b) →
      EngineStep env s s'
  | revisit (radius : ℝ) {s : BPState} : EngineStep env s (borderRevisit env s radius)

/-- The engine states reachable from the constructor state. -/
def Reachable (env : Env) (s : BPState) : Prop :=
  Relation.ReflTransGen (EngineStep env) (initState env) s

/-- Every reachable state satisfies the store invariant. -/
theorem Reachable_WF (env : Env) (hsr : SROk env) {s : BPState}
    (h : Reachable env s) : WF env.pts.length s := by
  induction h with
  | refl => exact WF_init env
  | tail hab hstep ih =>
    cases hstep with
    | expand radius hok =>
      obtain ⟨s2, hok2, hW2⟩ := expandStep_WF env hsr radius ih
      rw [hok2] at hok
      injection hok with h2
      rw [← h2]
      exact hW2
    | seed v radius b hv hok =>
      obtain ⟨s2, b2, hok2, hW2⟩ := TrySeed_WF env hsr v radius hv ih
      rw [hok2] at hok
      injection hok with h2
      simp only [Prod.mk.injEq] at h2
      rw [← h2.1]
      exact hW2
    | revisit radius => exact borderRevisit_WF env radius ih

/-! ### Claim C2: the edge classification invariant -/

/-- The per-state part of claim C2: Inner iff both slots filled, Border
only if on the border list with slot1 empty, Front otherwise. -/
def EdgeClassOk (s : BPState) : Prop :=
  ∀ e, e < s.edges.length →
    (((getE s e).etype = EType.Inner) ↔
      ((getE s e).tri0 ≠ none ∧ (getE s e).tri1 ≠ none)) ∧
    ((getE s e).etype = EType.Border → e ∈ s.border ∧ (getE s e).tri1 = none) ∧
    ((getE s e).etype ≠ EType.Inner → (getE s e).etype ≠ EType.Border →
      (getE s e).etype = EType.Front)

/-- C2.  In every reachable state, every edge's classification satisfies:
Inner iff both triangle slots are filled; Border only if the edge was
explicitly marked Border (it is on the border list) and its slot1 is
empty; Front otherwise.  Moreover an edge is created Front (the fresh
edge appended by the create-if-null branch is Front with only slot0
filled), filling slot0 keeps it Front, and filling slot1 makes it
Inner. -/
theorem edgeClass_invariant (env : Env) (hsr : SROk env) {s : BPState}
    (h : Reachable env s) :
    EdgeClassOk s ∧
    (∀ s' u w tid, GetLinkingEdge s' u w = none →
      ∃ e2 : EdgeData, e2.etype = EType.Front ∧ e2.tri0 = some tid ∧
        e2.tri1 = none ∧ (addEdgePair env s' u w tid).edges = s'.edges ++ [e2]) ∧
    (∀ s' eid tid, (getE s' eid).tri0 = none → some tid ≠ (getE s' eid).tri1 →
      ∃ e2 : EdgeData, AddAdjacentTriangle env s' eid tid =
          { s' with edges := s'.edges.set eid e2 } ∧
        e2.tri0 = some tid ∧ e2.etype = EType.Front) ∧
    (∀ s' eid tid, some tid ≠ (getE s' eid).tri0 → (getE s' eid).tri0 ≠ none →
      (getE s' eid).tri1 = none →
      AddAdjacentTriangle env s' eid tid =
        { s' with edges := s'.edges.set eid { getE s' eid with tri1 := some tid, etype := EType.Inner } }) := by
  have hW : WF env.pts.length s := Reachable_WF env hsr h
  refine ⟨?_, ?_, ?_, ?_⟩
  · intro e he
    refine ⟨?_, ?_, ?_⟩
    · constructor
      · intro hi
        exact ⟨hW.tri0_some e he, (hW.inner_iff e he).mp hi⟩
      · intro hc
        exact (hW.inner_iff e he).mpr hc.2
    · intro hb
      refine ⟨(hW.border_iff e he).mp hb, ?_⟩
      cases ht1 : (getE s e).tri1 with
      | none => rfl
      | some t =>
        have hin : (getE s e).etype = EType.Inner :=
          (hW.inner_iff e he).mpr (by rw [ht1]; exact fun hc => Option.noConfusion hc)
        rw [hb] at hin
        exact EType.noConfusion hin
    · intro h1 h2
      cases hety : (getE s e).etype with
      | Front => rfl
      | Inner => exact absurd hety h1
      | Border => exact absurd hety h2
  · intro s' u w tid hgle
    obtain ⟨e2, ht0, ht1, hty, hpair, heq⟩ := addEdgePair_fresh env hgle
    exact ⟨e2, hty, ht0, ht1, by rw [heq]⟩
  · intro s' eid tid h0 h1
    obtain ⟨e2, heq, ht0, ht1e, hty, hpair⟩ := AddAdjacentTriangle_slot0 h0 h1
    exact ⟨e2, heq, ht0, hty⟩
  · intro s' eid tid hdup h0 h1
    exact AddAdjacentTriangle_slot1 hdup h0 h1

theorem edgeClass_invariant_witness :
    SROk envC4 ∧ Reachable envC4 (initState envC4) ∧
    EdgeClassOk (initState envC4) :=
  ⟨fun q r i hi => absurd hi (List.not_mem_nil i), Relation.ReflTransGen.refl,
    (edgeClass_invariant envC4 (fun q r i hi => absurd hi (List.not_mem_nil i))
      Relation.ReflTransGen.refl).1⟩

/-! ### Claim C6: the fatal errors of Run -/

/-- When some radius of the list is non-positive, the radius loop either
reaches it and throws `invalidRadius`, or exhausts its fuel first. -/
theorem runRadii_bad (env : Env) (hsr : SROk env) (fuel : Nat) :
    ∀ radii : List ℝ, ∀ s : BPState, WF env.pts.length s →
      (∃ r ∈ radii, r ≤ 0) →
      runRadii env fuel radii s = Except.error Err.invalidRadius ∨
      runRadii env fuel radii s = Except.ok none := by
  intro radii
  induction radii with
  | nil =>
    intro s _ hex
    obtain ⟨r, hr, -⟩ := hex
    exact absurd hr (List.not_mem_nil r)
  | cons r rs ih =>
    intro s hW hex
    by_cases hr : r ≤ 0
    · left
      conv_lhs => unfold runRadii
      rw [if_pos hr]
    · have hex' : ∃ x ∈ rs, x ≤ 0 := by
        obtain ⟨x, hx, hxle⟩ := hex
        rcases List.mem_cons.mp hx with rfl | hx'
        · exact absurd hxle hr
        · exact ⟨x, hx', hxle⟩
      rcases runRadius_WF env hsr fuel r hW with hnone | ⟨s1, hsome, hW1⟩
      · right
        conv_lhs => unfold runRadii
        rw [if_neg hr]
        rw [hnone]
      · have heq : runRadii env fuel (r :: rs) s = runRadii env fuel rs s1 := by
          conv_lhs => unfold runRadii
          rw [if_neg hr]
          rw [hsome]
        rw [heq]
        exact ih s1 hW1 hex'

/-- C6.  `Run` fails fatally on an input without normals
(`missingNormals`) and on a non-positive radius (`invalidRadius`, unless
the fuel of the inner loops — an artifact of this embedding, the C++
loops are unbounded — runs out before the bad radius is reached); with
normals and positive radii it returns the accumulated mesh without
error (`ok none` again meaning fuel exhaustion, not an error). -/
theorem run_error_characterization (env : Env) (radii : List ℝ) (fuel : Nat) :
    (env.hasNormals = false → Run env radii fuel = Except.error Err.missingNormals) ∧
    (env.hasNormals = true → SROk env → (∃ r ∈ radii, r ≤ 0) →
      Run env radii fuel = Except.error Err.invalidRadius ∨
      Run env radii fuel = Except.ok none) ∧
    (env.hasNormals = true → SROk env → (∀ r ∈ radii, 0 < r) →
      Run env radii fuel = Except.ok none ∨
      ∃ mesh nrm, Run env radii fuel = Except.ok (some (mesh, nrm))) := by
  refine ⟨?_, ?_, ?_⟩
  · intro h
    unfold Run
    rw [if_pos h]
  · intro h hsr hex
    have hnf : ¬ env.hasNormals = false := by
      rw [h]
      exact fun hc => Bool.noConfusion hc
    rcases runRadii_bad env hsr fuel radii (initState env) (WF_init env) hex
      with hbad | hok
    · left
      unfold Run
      rw [if_neg hnf]
      rw [hbad]
    · right
      unfold Run
      rw [if_neg hnf]
      rw [hok]
  · intro h hsr hpos
    have hnf : ¬ env.hasNormals = false := by
      rw [h]
      exact fun hc => Bool.noConfusion hc
    rcases runRadii_WF env hsr fuel radii hpos (initState env) (WF_init env)
      with hnone | ⟨s1, hsome, -⟩
    · left
      unfold Run
      rw [if_neg hnf]
      rw [hnone]
    · right
      refine ⟨s1.meshTris, s1.meshNormals, ?_⟩
      unfold Run
      rw [if_neg hnf]
      rw [hsome]

/-! ### Claim C7: no two emitted triangles share an index triple -/

/-- When the radius loop completes, its result state satisfies the store
invariant whatever the radii were. -/
theorem runRadii_ok_WF (env : Env) (hsr : SROk env) (fuel : Nat) :
    ∀ radii : List ℝ, ∀ s s1 : BPState, WF env.pts.length s →
      runRadii env fuel radii s = Except.ok (some s1) →
      WF env.pts.length s1 := by
  intro radii
  induction radii with
  | nil =>
    intro s s1 hW h
    have heq : runRadii env fuel [] s = Except.ok (some s) := rfl
    rw [heq] at h
    injection h with h2
    injection h2 with h3
    rw [← h3]
    exact hW
  | cons r rs ih =>
    intro s s1 hW h
    by_cases hr : r ≤ 0
    · have heq : runRadii env fuel (r :: rs) s = Except.error Err.invalidRadius := by
        conv_lhs => unfold runRadii
        rw [if_pos hr]
      rw [heq] at h
      exact Except.noConfusion h
    · rcases runRadius_WF env hsr fuel r hW with hnone | ⟨t, hsome, hWt⟩
      · have heq : runRadii env fuel (r :: rs) s = Except.ok none := by
          conv_lhs => unfold runRadii
          rw [if_neg hr]
          rw [hnone]
        rw [heq] at h
        injection h with h2
        exact Option.noConfusion h2
      · have heq : runRadii env fuel (r :: rs) s = runRadii env fuel rs t := by
          conv_lhs => unfold runRadii
          rw [if_neg hr]
          rw [hsome]
        rw [heq] at h
        exact ih t s1 hWt h

/-- Claim C7's property of an emitted mesh: no two entries share the same
unordered index triple. -/
def DistinctTriples (mesh : List (Nat × Nat × Nat)) : Prop :=
  ∀ i, i < mesh.length → ∀ j, j < mesh.length → i ≠ j →
    tripleF (mesh.getD i (0, 0, 0)).1 (mesh.getD i (0, 0, 0)).2.1
        (mesh.getD i (0, 0, 0)).2.2 ≠
      tripleF (mesh.getD j (0, 0, 0)).1 (mesh.getD j (0, 0, 0)).2.1
        (mesh.getD j (0, 0, 0)).2.2

/-- C7.  For every input point cloud and radius list, no two triangles
appended to the output mesh over the whole run share the same unordered
triple of vertex indices. -/
theorem mesh_triangles_distinct (env : Env) (hsr : SROk env) (radii : List ℝ)
    (fuel : Nat) (mesh : List (Nat × Nat × Nat)) (nrm : List Vec3)
    (hok : Run env radii fuel = Except.ok (some (mesh, nrm))) :
    DistinctTriples mesh := by
  unfold Run at hok
  by_cases hnf : env.hasNormals = false
  · rw [if_pos hnf] at hok
    exact Except.noConfusion hok
  · rw [if_neg hnf] at hok
    rcases hrr : runRadii env fuel radii (initState env) with er | o
    · rw [hrr] at hok
      simp only [] at hok
      exact Except.noConfusion hok
    · rcases o with _ | s1
      · rw [hrr] at hok
        simp only [] at hok
        injection hok with h2
        exact Option.noConfusion h2
      · rw [hrr] at hok
        simp only [] at hok
        injection hok with h2
        injection h2 with h3
        simp only [Prod.mk.injEq] at h3
        have hW1 := runRadii_ok_WF env hsr fuel radii (initState env) s1
          (WF_init env) hrr
        have hmesh : mesh = s1.meshTris := h3.1.symm
        subst hmesh
        intro i hi j hj hij
        have hlen := hW1.mesh_len
        rw [hW1.mesh_match i (by omega), hW1.mesh_match j (by omega)]
        exact hW1.tri_nodup i (by omega) j (by omega) hij

theorem mesh_triangles_distinct_witness :
    Run envC4 [] 0 = Except.ok (some ([], [])) ∧ DistinctTriples [] :=
  ⟨rfl, mesh_triangles_distinct envC4
    (fun q r i hi => absurd hi (List.not_mem_nil i)) [] 0 [] [] rfl⟩

/-! ### Claim C10: a successfully expanded edge becomes Inner -/

/-- C10.  In every reachable engine state whose store holds at most one
edge per unordered vertex pair, whenever the expansion loop pops a Front
edge and successfully creates a triangle for it (the triangle count
grows), that same edge's classification is Inner immediately after the
`CreateTriangle` call and the new triangle fills its second slot, so no
edge is ever expanded into a new triangle twice. -/
theorem expanded_edge_inner (env : Env) (hsr : SROk env) {s : BPState}
    (h : Reachable env s)
    (huni : ∀ e1, e1 < s.edges.length → ∀ e2, e2 < s.edges.length →
      samePair (getE s e1) (getE s e2) → e1 = e2)
    {eid : Nat} {rest : List Nat} (hfr : s.front = eid :: rest)
    (hF : (getE s eid).etype = EType.Front)
    {radius : ℝ} {s' : BPState}
    (hok : expandStep env s radius = Except.ok s')
    (htri : s'.tris.length = s.tris.length + 1) :
    (getE s' eid).etype = EType.Inner ∧
    (getE s' eid).tri1 = some s.tris.length := by
  have hW : WF env.pts.length s := Reachable_WF env hsr h
  have helt : eid < s.edges.length := hW.front_lt eid (by rw [hfr]; simp)
  have hW_pop : WF env.pts.length { s with front := rest } := by
    refine WFb_front hW rest ?_
    intro e he
    exact hW.front_lt e (by rw [hfr]; exact List.mem_cons_of_mem _ he)
  rw [expandStep_cons env radius hfr] at hok
  set sp := { s with front := rest } with hspdef
  have heltp : eid < sp.edges.length := helt
  have hFp : (getE sp eid).etype = EType.Front := hF
  have ht0 : (getE sp eid).tri0 ≠ none := hW_pop.tri0_some eid heltp
  obtain ⟨candOpt, center, hfcv⟩ := FindCandidateVertex_ok env sp eid radius ht0
  rw [expandBody_eq env hFp hfcv] at hok
  cases candOpt with
  | none =>
    rw [expandDecide_none] at hok
    injection hok with h2
    exfalso
    have hts : s'.tris = s.tris := by
      rw [← h2]
      rfl
    rw [hts] at htri
    omega
  | some cand =>
    rw [expandDecide_some] at hok
    split_ifs at hok with hc1 hc2
    · injection hok with h2
      exfalso
      have hts : s'.tris = s.tris := by
        rw [← h2]
        rfl
      rw [hts] at htri
      omega
    · injection hok with h2
      exfalso
      have hts : s'.tris = s.tris := by
        rw [← h2]
        rfl
      rw [hts] at htri
      omega
    · push_neg at hc2
      obtain ⟨hnl1x, hnl2x⟩ := hc2
      have hnl1 : linkNotFront sp
          (GetLinkingEdge sp cand (getE sp eid).source) = false :=
        Bool.eq_false_iff.mpr hnl1x
      have hnl2 : linkNotFront sp
          (GetLinkingEdge sp cand (getE sp eid).target) = false :=
        Bool.eq_false_iff.mpr hnl2x
      obtain ⟨t0, ht0eq, hmem, hcs, hct, hco⟩ :=
        FindCandidateVertex_spec env sp eid radius hfcv
      have hcand_lt : cand < env.pts.length := hsr _ _ cand hmem
      have hsrc_lt := hW_pop.src_lt eid heltp
      have htgt_lt := hW_pop.tgt_lt eid heltp
      have hst := hW_pop.no_loop eid heltp
      have hfresh := expand_fresh hW_pop heltp hFp ht0eq hcs hct hco
      have hg1 : ∀ x, x < sp.edges.length →
          pairEq (getE sp x) (getE sp eid).source (getE sp eid).target →
          (getE sp x).etype = EType.Front := by
        intro x hx hp
        have hxeid : x = eid := hW_pop.pair_uni x hx eid heltp
          (samePair_of_pairEq hp (Or.inl ⟨rfl, rfl⟩))
        rw [hxeid]
        exact hFp
      have hg2 : ∀ x, x < sp.edges.length →
          pairEq (getE sp x) (getE sp eid).target cand →
          (getE sp x).etype = EType.Front := by
        intro x hx hp
        exact linkNotFront_false_guard hW_pop hcand_lt htgt_lt hct hnl2 x hx
          (pairEq_swap hp)
      have hg3 : ∀ x, x < sp.edges.length →
          pairEq (getE sp x) cand (getE sp eid).source →
          (getE sp x).etype = EType.Front := by
        intro x hx hp
        exact linkNotFront_false_guard hW_pop hcand_lt hsrc_lt hcs hnl1 x hx hp
      obtain ⟨s2, hok2, -, -, -, -, hfill⟩ := expandCommit_WF env center hW_pop
        hW_pop.vel hsrc_lt htgt_lt hcand_lt hst hcs hct hfresh hg1 hg2 hg3
      rw [hok2] at hok
      injection hok with h2
      rw [← h2]
      exact hfill eid heltp (Or.inl ⟨rfl, rfl⟩)

/-! ### A concrete 3-4-5 run: one seed, then one expansion

The cloud is a 3-4-5 right triangle in the z = 0 plane plus a fourth
point mirrored across the x-axis, all normals +z.  The radius search is
modelled at exactly the two queries this run makes: the seed query at
vertex 0 and the candidate query at the midpoint of the edge (0, 1). -/

noncomputable def env4 : Env :=
  { pts := [⟨0, 0, 0⟩, ⟨3, 0, 0⟩, ⟨0, 4, 0⟩, ⟨0, -4, 0⟩]
    nms := [⟨0, 0, 1⟩, ⟨0, 0, 1⟩, ⟨0, 0, 1⟩, ⟨0, 0, 1⟩]
    hasNormals := true
    sr := fun q _ =>
      if q.y = 0 ∧ q.x = 0 then [0, 1, 2]
      else if q.y = 0 ∧ q.x = 3 / 2 then [3] else []
    coplanar := fun _ _ _ _ => false
    segDist := fun _ _ _ _ => 0 }

theorem SROk_env4 : SROk env4 := by
  intro q r i hi
  show i < 4
  simp only [env4] at hi
  split_ifs at hi
  · simp only [List.mem_cons, List.not_mem_nil, or_false] at hi
    rcases hi with rfl | rfl | rfl <;> norm_num
  · simp only [List.mem_cons, List.not_mem_nil, or_false] at hi
    subst hi
    norm_num
  · cases hi

theorem sqrt9 : Real.sqrt 9 = 3 := by
  rw [show (9 : ℝ) = 3 ^ 2 by norm_num]
  exact Real.sqrt_sq (by norm_num)

theorem sqrt16 : Real.sqrt 16 = 4 := by
  rw [show (16 : ℝ) = 4 ^ 2 by norm_num]
  exact Real.sqrt_sq (by norm_num)

theorem sqrt25 : Real.sqrt 25 = 5 := by
  rw [show (25 : ℝ) = 5 ^ 2 by norm_num]
  exact Real.sqrt_sq (by norm_num)

theorem sqrt144 : Real.sqrt 144 = 12 := by
  rw [show (144 : ℝ) = 12 ^ 2 by norm_num]
  exact Real.sqrt_sq (by norm_num)

/-- The pivot-ball center over the seed triangle (0, 1, 2). -/
noncomputable def c0 : Vec3 := ⟨3 / 2, 2, Real.sqrt (51 / 100)⟩

/-- The pivot-ball center over the expansion triangle (0, 1, 3). -/
noncomputable def c1 : Vec3 := ⟨3 / 2, -2, Real.sqrt (51 / 100)⟩

theorem cbc012 : ComputeBallCenter env4.pts env4.nms 0 1 2 (13 / 5) = some c0 := by
  unfold ComputeBallCenter
  simp only []
  norm_num [env4, getV, Vec3.sub_def, Vec3.add_def, Vec3.smul_def, Vec3.squaredNorm,
    Vec3.cross, Vec3.dot, Vec3.norm, Vec3.sdiv, sqrt9, sqrt16, sqrt25, sqrt144, c0]

theorem cbc013 : ComputeBallCenter env4.pts env4.nms 0 1 3 (13 / 5) = some c1 := by
  unfold ComputeBallCenter
  simp only []
  norm_num [env4, getV, Vec3.sub_def, Vec3.add_def, Vec3.smul_def, Vec3.squaredNorm,
    Vec3.cross, Vec3.dot, Vec3.norm, Vec3.sdiv, sqrt9, sqrt16, sqrt25, sqrt144, c1]

theorem IC012 : IsCompatible env4.pts env4.nms 0 1 2 = true := by
  unfold IsCompatible ComputeFaceNormal
  norm_num [env4, getV, Vec3.sub_def, Vec3.add_def, Vec3.smul_def, Vec3.cross,
    Vec3.dot, Vec3.norm, Vec3.squaredNorm, Vec3.sdiv, sqrt144]

theorem IC301 : IsCompatible env4.pts env4.nms 3 0 1 = true := by
  unfold IsCompatible ComputeFaceNormal
  norm_num [env4, getV, Vec3.sub_def, Vec3.add_def, Vec3.smul_def, Vec3.cross,
    Vec3.dot, Vec3.norm, Vec3.squaredNorm, Vec3.sdiv, sqrt144]

/-- The state after the seed triangle (0, 1, 2) is created (before the
three front pushes of the seed commit). -/
noncomputable def seedCore : BPState :=
  { vedges := [[0, 2], [0, 1], [1, 2], []]
    vtype := [VType.Front, VType.Front, VType.Front, VType.Orphan]
    edges := [⟨0, 1, some 0, none, EType.Front⟩, ⟨1, 2, some 0, none, EType.Front⟩,
      ⟨2, 0, some 0, none, EType.Front⟩]
    tris := [⟨0, 1, 2, c0⟩]
    front := [], border := []
    meshTris := [(0, 1, 2)], meshNormals := [⟨0, 0, 1⟩] }

theorem FN012 : ComputeFaceNormal (getV env4.pts 0) (getV env4.pts 1)
    (getV env4.pts 2) = ⟨0, 0, 1⟩ := by
  unfold ComputeFaceNormal
  norm_num [env4, getV, Vec3.sub_def, Vec3.cross, Vec3.norm, Vec3.squaredNorm,
    Vec3.sdiv, sqrt144, Vec3.mk.injEq]

theorem FN013 : ComputeFaceNormal (getV env4.pts 0) (getV env4.pts 1)
    (getV env4.pts 3) = ⟨0, 0, -1⟩ := by
  unfold ComputeFaceNormal
  norm_num [env4, getV, Vec3.sub_def, Vec3.cross, Vec3.norm, Vec3.squaredNorm,
    Vec3.sdiv, sqrt144, Vec3.mk.injEq]

/-- The per-step states of the seed `CreateTriangle(0, 1, 2, c0)`. -/
noncomputable def sA : BPState :=
  { vedges := [[], [], [], []]
    vtype := [VType.Orphan, VType.Orphan, VType.Orphan, VType.Orphan]
    edges := [], tris := [⟨0, 1, 2, c0⟩], front := [], border := []
    meshTris := [], meshNormals := [] }

noncomputable def sB : BPState :=
  { sA with edges := [⟨0, 1, some 0, none, EType.Front⟩]
            vedges := [[0], [0], [], []] }

noncomputable def sC : BPState :=
  { sA with edges := [⟨0, 1, some 0, none, EType.Front⟩,
      ⟨1, 2, some 0, none, EType.Front⟩]
            vedges := [[0], [0, 1], [1], []] }

noncomputable def sD : BPState :=
  { sA with edges := [⟨0, 1, some 0, none, EType.Front⟩,
      ⟨1, 2, some 0, none, EType.Front⟩, ⟨2, 0, some 0, none, EType.Front⟩]
            vedges := [[0, 2], [0, 1], [1, 2], []] }

theorem aep1 : addEdgePair env4 sA 0 1 0 = sB := by
  unfold addEdgePair AddAdjacentTriangle
  rw [show GetLinkingEdge sA 0 1 = none from rfl]
  simp only []
  split_ifs with h1 h2 h3 h4
  · exfalso
    norm_num [sA, env4, getV, getE, getT, oppositeOfTri, Vec3.add_def,
      Vec3.sub_def, Vec3.cross, Vec3.dot, Vec3.norm, Vec3.squaredNorm, Vec3.sdiv,
      sqrt9, sqrt144] at h3
  · rfl
  · exact absurd rfl h2
  · exact absurd rfl h2
  · exact absurd ⟨fun hc => Option.noConfusion hc, fun hc => Option.noConfusion hc⟩ h1

theorem aep2 : addEdgePair env4 sB 1 2 0 = sC := by
  unfold addEdgePair AddAdjacentTriangle
  rw [show GetLinkingEdge sB 1 2 = none from rfl]
  simp only []
  split_ifs with h1 h2 h3 h4
  · exfalso
    norm_num [sB, sA, env4, getV, getE, getT, oppositeOfTri, Vec3.add_def,
      Vec3.sub_def, Vec3.cross, Vec3.dot, Vec3.norm, Vec3.squaredNorm, Vec3.sdiv,
      sqrt9, sqrt144] at h3
  · rfl
  · exact absurd rfl h2
  · exact absurd rfl h2
  · exact absurd ⟨fun hc => Option.noConfusion hc, fun hc => Option.noConfusion hc⟩ h1

theorem aep3 : addEdgePair env4 sC 2 0 0 = sD := by
  unfold addEdgePair AddAdjacentTriangle
  rw [show GetLinkingEdge sC 2 0 = none from rfl]
  simp only []
  split_ifs with h1 h2 h3 h4
  · exfalso
    norm_num [sC, sA, env4, getV, getE, getT, oppositeOfTri, Vec3.add_def,
      Vec3.sub_def, Vec3.cross, Vec3.dot, Vec3.norm, Vec3.squaredNorm, Vec3.sdiv,
      sqrt9, sqrt144] at h3
  · rfl
  · exact absurd rfl h2
  · exact absurd rfl h2
  · exact absurd ⟨fun hc => Option.noConfusion hc, fun hc => Option.noConfusion hc⟩ h1

theorem CT1_eval : CreateTriangle env4 (initState env4) 0 1 2 c0 = seedCore := by
  unfold CreateTriangle
  simp only []
  rw [show ({ initState env4 with
      tris := (initState env4).tris ++ [⟨0, 1, 2, c0⟩] } : BPState) = sA from rfl]
  rw [show (initState env4).tris.length = 0 from rfl]
  rw [aep1, aep2, aep3]
  rw [show UpdateType (UpdateType (UpdateType sD 0) 1) 2 =
    ({ sD with vtype := [VType.Front, VType.Front, VType.Front, VType.Orphan] } :
      BPState) from rfl]
  rw [FN012]
  rw [if_pos (show (-1e-16 : ℝ) < Vec3.dot ⟨0, 0, 1⟩ (getV env4.nms 0) by
    norm_num [Vec3.dot, getV, env4])]
  rfl

/-- The state returned by the successful seed at vertex 0: the three
seed edges pushed (each `push_front`) onto the front queue. -/
noncomputable def S1 : BPState := { seedCore with front := [0, 1, 2] }

theorem seedCommit_eval :
    seedCommit env4 (initState env4) 0 1 2 c0 = Except.ok (S1, true) := by
  have g0 : GetLinkingEdge (CreateTriangle env4 (initState env4) 0 1 2 c0) 0 2 =
      some 2 := by rw [CT1_eval]; rfl
  have g1 : GetLinkingEdge (CreateTriangle env4 (initState env4) 0 1 2 c0) 1 2 =
      some 1 := by rw [CT1_eval]; rfl
  have g2 : GetLinkingEdge (CreateTriangle env4 (initState env4) 0 1 2 c0) 0 1 =
      some 0 := by rw [CT1_eval]; rfl
  rw [seedCommit_eq env4 (initState env4) 0 1 2 c0 rfl rfl rfl g0 g1 g2]
  rw [CT1_eval]
  rw [show seedPushes seedCore 2 1 0 = S1 from rfl]
  rw [if_pos (show 0 < S1.front.length by norm_num [S1, seedCore])]

theorem TTS_eval :
    TryTriangleSeed env4 (initState env4) 0 1 2 [0, 1, 2] (13 / 5) = some c0 := by
  unfold TryTriangleSeed
  split_ifs with g1 g2 g3
  · exfalso
    rw [IC012] at g1
    exact Bool.noConfusion g1
  · exact absurd g2 (fun hc => Bool.noConfusion hc)
  · exact absurd g3 (fun hc => Bool.noConfusion hc)
  · rw [cbc012]
    simp only []
    split_ifs with g4
    · rfl
    · exact absurd rfl g4

theorem inner_eval :
    trySeedInner env4 (initState env4) 0 1 [2] [0, 1, 2] (13 / 5) = some (2, c0) := by
  unfold trySeedInner
  rw [if_neg (show ¬(getVT (initState env4) 2 ≠ VType.Orphan) from not_ne_iff.mpr rfl),
    if_neg (show ¬((2 : Nat) = 0) by decide)]
  rw [TTS_eval]

theorem outer_eval :
    trySeedOuter env4 (initState env4) 0 [0, 1, 2] [0, 1, 2] (13 / 5) =
      Except.ok (S1, true) := by
  have st0 : trySeedOuter env4 (initState env4) 0 [0, 1, 2] [0, 1, 2] (13 / 5) =
      trySeedOuter env4 (initState env4) 0 [1, 2] [0, 1, 2] (13 / 5) := by
    conv_lhs => unfold trySeedOuter
    rw [if_neg (show ¬(getVT (initState env4) 0 ≠ VType.Orphan) from
        not_ne_iff.mpr rfl),
      if_pos (show (0 : Nat) = 0 from rfl)]
  rw [st0]
  conv_lhs => unfold trySeedOuter
  rw [if_neg (show ¬(getVT (initState env4) 1 ≠ VType.Orphan) from
      not_ne_iff.mpr rfl),
    if_neg (show ¬((1 : Nat) = 0) by decide)]
  rw [inner_eval]
  simp only []
  rw [seedCommit_eval]

theorem trySeed_eval : TrySeed env4 (initState env4) 0 (13 / 5) =
    Except.ok (S1, true) := by
  have hsr0 : env4.sr (getV env4.pts 0) (2 * (13 / 5)) = [0, 1, 2] := by
    simp only [env4]
    rw [if_pos ⟨rfl, rfl⟩]
  unfold TrySeed
  simp only []
  rw [hsr0]
  rw [if_neg (show ¬(([0, 1, 2] : List Nat).length < 3) by norm_num)]
  exact outer_eval

/-- The popped state of the expansion step, and the per-step states of
the expansion `CreateTriangle(0, 1, 3, c1)`. -/
noncomputable def sP : BPState := { S1 with front := [1, 2] }

noncomputable def tA : BPState :=
  { vedges := [[0, 2], [0, 1], [1, 2], []]
    vtype := [VType.Front, VType.Front, VType.Front, VType.Orphan]
    edges := [⟨0, 1, some 0, none, EType.Front⟩, ⟨1, 2, some 0, none, EType.Front⟩,
      ⟨2, 0, some 0, none, EType.Front⟩]
    tris := [⟨0, 1, 2, c0⟩, ⟨0, 1, 3, c1⟩]
    front := [1, 2], border := []
    meshTris := [(0, 1, 2)], meshNormals := [⟨0, 0, 1⟩] }

noncomputable def tB : BPState :=
  { tA with edges := [⟨0, 1, some 0, some 1, EType.Inner⟩,
      ⟨1, 2, some 0, none, EType.Front⟩, ⟨2, 0, some 0, none, EType.Front⟩] }

noncomputable def tC : BPState :=
  { tA with edges := [⟨0, 1, some 0, some 1, EType.Inner⟩,
      ⟨1, 2, some 0, none, EType.Front⟩, ⟨2, 0, some 0, none, EType.Front⟩,
      ⟨3, 1, some 1, none, EType.Front⟩]
            vedges := [[0, 2], [0, 1, 3], [1, 2], [3]] }

noncomputable def tD : BPState :=
  { tA with edges := [⟨0, 1, some 0, some 1, EType.Inner⟩,
      ⟨1, 2, some 0, none, EType.Front⟩, ⟨2, 0, some 0, none, EType.Front⟩,
      ⟨3, 1, some 1, none, EType.Front⟩, ⟨0, 3, some 1, none, EType.Front⟩]
            vedges := [[0, 2, 4], [0, 1, 3], [1, 2], [3, 4]] }

/-- The state after the expansion `CreateTriangle` (before the two front
pushes of the commit). -/
noncomputable def expCore : BPState :=
  { vedges := [[0, 2, 4], [0, 1, 3], [1, 2], [3, 4]]
    vtype := [VType.Front, VType.Front, VType.Front, VType.Front]
    edges := [⟨0, 1, some 0, some 1, EType.Inner⟩,
      ⟨1, 2, some 0, none, EType.Front⟩, ⟨2, 0, some 0, none, EType.Front⟩,
      ⟨3, 1, some 1, none, EType.Front⟩, ⟨0, 3, some 1, none, EType.Front⟩]
    tris := [⟨0, 1, 2, c0⟩, ⟨0, 1, 3, c1⟩]
    front := [1, 2], border := []
    meshTris := [(0, 1, 2), (0, 3, 1)], meshNormals := [⟨0, 0, 1⟩, ⟨0, 0, -1⟩] }

theorem aepX1 : addEdgePair env4 tA 0 1 1 = tB := by
  unfold addEdgePair AddAdjacentTriangle
  rw [show GetLinkingEdge tA 0 1 = some 0 from rfl]
  simp only []
  split_ifs with h1 h2 h3 h4
  · exact absurd h2 (fun hc => Option.noConfusion hc)
  · exact absurd h2 (fun hc => Option.noConfusion hc)
  · rfl
  · exact absurd rfl h4
  · exact absurd ⟨by decide, by decide⟩ h1

theorem aepX2 : addEdgePair env4 tB 1 3 1 = tC := by
  unfold addEdgePair AddAdjacentTriangle
  rw [show GetLinkingEdge tB 1 3 = none from rfl]
  simp only []
  split_ifs with h1 h2 h3 h4
  · rfl
  · exfalso
    norm_num [tB, tA, env4, getV, getE, getT, oppositeOfTri, Vec3.add_def,
      Vec3.sub_def, Vec3.cross, Vec3.dot, Vec3.norm, Vec3.squaredNorm, Vec3.sdiv,
      sqrt9, sqrt144] at h3
  · exact absurd rfl h2
  · exact absurd rfl h2
  · exact absurd ⟨fun hc => Option.noConfusion hc, fun hc => Option.noConfusion hc⟩ h1

theorem aepX3 : addEdgePair env4 tC 3 0 1 = tD := by
  unfold addEdgePair AddAdjacentTriangle
  rw [show GetLinkingEdge tC 3 0 = none from rfl]
  simp only []
  split_ifs with h1 h2 h3 h4
  · rfl
  · exfalso
    norm_num [tC, tA, env4, getV, getE, getT, oppositeOfTri, Vec3.add_def,
      Vec3.sub_def, Vec3.cross, Vec3.dot, Vec3.norm, Vec3.squaredNorm, Vec3.sdiv,
      sqrt9, sqrt144] at h3
  · exact absurd rfl h2
  · exact absurd rfl h2
  · exact absurd ⟨fun hc => Option.noConfusion hc, fun hc => Option.noConfusion hc⟩ h1

theorem CT2_eval : CreateTriangle env4 sP 0 1 3 c1 = expCore := by
  unfold CreateTriangle
  simp only []
  rw [show ({ sP with tris := sP.tris ++ [⟨0, 1, 3, c1⟩] } : BPState) = tA from rfl]
  rw [show sP.tris.length = 1 from rfl]
  rw [aepX1, aepX2, aepX3]
  rw [show UpdateType (UpdateType (UpdateType tD 0) 1) 3 =
    ({ tD with vtype := [VType.Front, VType.Front, VType.Front, VType.Front] } :
      BPState) from rfl]
  rw [FN013]
  rw [if_neg (show ¬((-1e-16 : ℝ) < Vec3.dot ⟨0, 0, -1⟩ (getV env4.nms 0)) by
    norm_num [Vec3.dot, getV, env4])]
  rfl

theorem mulself_s51 : Real.sqrt (51 / 100) * Real.sqrt (51 / 100) = 51 / 100 :=
  Real.mul_self_sqrt (by norm_num)

theorem mulself_s451 : Real.sqrt (451 / 100) * Real.sqrt (451 / 100) = 451 / 100 :=
  Real.mul_self_sqrt (by norm_num)

theorem hv_eval : (getV env4.pts 1 - getV env4.pts 0).sdiv
    (getV env4.pts 1 - getV env4.pts 0).norm = ⟨1, 0, 0⟩ := by
  have hsub : getV env4.pts 1 - getV env4.pts 0 = ⟨3, 0, 0⟩ := by
    norm_num [env4, getV, Vec3.sub_def, Vec3.mk.injEq]
  rw [hsub]
  unfold Vec3.sdiv Vec3.norm Vec3.squaredNorm
  norm_num [sqrt9, Vec3.mk.injEq]

theorem ha_eval : (c0 - (0.5 : ℝ) • (getV env4.pts 0 + getV env4.pts 1)).sdiv
    (c0 - (0.5 : ℝ) • (getV env4.pts 0 + getV env4.pts 1)).norm =
    ⟨0, 2 / Real.sqrt (451 / 100),
      Real.sqrt (51 / 100) / Real.sqrt (451 / 100)⟩ := by
  have hsub : c0 - (0.5 : ℝ) • (getV env4.pts 0 + getV env4.pts 1) =
      ⟨0, 2, Real.sqrt (51 / 100)⟩ := by
    norm_num [c0, env4, getV, Vec3.sub_def, Vec3.add_def, Vec3.smul_def, Vec3.mk.injEq]
  rw [hsub]
  have hnorm : (⟨0, 2, Real.sqrt (51 / 100)⟩ : Vec3).norm = Real.sqrt (451 / 100) := by
    unfold Vec3.norm Vec3.squaredNorm
    rw [show (0 : ℝ) * 0 + 2 * 2 + Real.sqrt (51 / 100) * Real.sqrt (51 / 100) =
      451 / 100 by rw [mulself_s51]; norm_num]
  rw [hnorm]
  unfold Vec3.sdiv
  norm_num [Vec3.mk.injEq]

theorem hb_eval : (c1 - (0.5 : ℝ) • (getV env4.pts 0 + getV env4.pts 1)).sdiv
    (c1 - (0.5 : ℝ) • (getV env4.pts 0 + getV env4.pts 1)).norm =
    ⟨0, -2 / Real.sqrt (451 / 100),
      Real.sqrt (51 / 100) / Real.sqrt (451 / 100)⟩ := by
  have hsub : c1 - (0.5 : ℝ) • (getV env4.pts 0 + getV env4.pts 1) =
      ⟨0, -2, Real.sqrt (51 / 100)⟩ := by
    norm_num [c1, env4, getV, Vec3.sub_def, Vec3.add_def, Vec3.smul_def, Vec3.mk.injEq]
  rw [hsub]
  have hnorm : (⟨0, -2, Real.sqrt (51 / 100)⟩ : Vec3).norm =
      Real.sqrt (451 / 100) := by
    unfold Vec3.norm Vec3.squaredNorm
    rw [show (0 : ℝ) * 0 + -2 * -2 + Real.sqrt (51 / 100) * Real.sqrt (51 / 100) =
      451 / 100 by rw [mulself_s51]; norm_num]
  rw [hnorm]
  unfold Vec3.sdiv
  norm_num [Vec3.mk.injEq]

theorem hadotb : Vec3.dot
    ⟨0, 2 / Real.sqrt (451 / 100), Real.sqrt (51 / 100) / Real.sqrt (451 / 100)⟩
    ⟨0, -2 / Real.sqrt (451 / 100), Real.sqrt (51 / 100) / Real.sqrt (451 / 100)⟩ =
    -349 / 451 := by
  unfold Vec3.dot
  simp only [div_mul_div_comm]
  rw [mulself_s451, mulself_s51]
  norm_num

theorem candStep_eval :
    candidateStep env4 0 1 2 ((0.5 : ℝ) • (getV env4.pts 0 + getV env4.pts 1))
      ⟨1, 0, 0⟩
      ⟨0, 2 / Real.sqrt (451 / 100), Real.sqrt (51 / 100) / Real.sqrt (451 / 100)⟩
      (13 / 5) [3] (none, 2 * Real.pi, 0) 3 =
    (some 3, Real.arccos (-349 / 451), c1) := by
  unfold candidateStep
  rw [if_neg (show ¬((3 : Nat) = 0 ∨ (3 : Nat) = 1 ∨ (3 : Nat) = 2) by decide)]
  rw [if_neg (show ¬(env4.coplanar (getV env4.pts 0) (getV env4.pts 1)
      (getV env4.pts 2) (getV env4.pts 3) = true ∧
      (env4.segDist ((0.5 : ℝ) • (getV env4.pts 0 + getV env4.pts 1))
        (getV env4.pts 3) (getV env4.pts 0) (getV env4.pts 2) < 1e-12 ∨
       env4.segDist ((0.5 : ℝ) • (getV env4.pts 0 + getV env4.pts 1))
        (getV env4.pts 3) (getV env4.pts 1) (getV env4.pts 2) < 1e-12))
    from fun hc => Bool.noConfusion hc.1)]
  rw [cbc013]
  simp only []
  rw [hb_eval]
  rw [hadotb]
  rw [min_eq_left (show (-349 / 451 : ℝ) ≤ 1 by norm_num)]
  rw [max_eq_left (show (-1 : ℝ) ≤ -349 / 451 by norm_num)]
  split_ifs with k1 k2 k3 k4 k5
  · exfalso
    refine absurd k1 (not_lt.mpr ?_)
    simp only [Vec3.cross, Vec3.dot]
    ring_nf
    positivity
  · exfalso
    refine absurd k1 (not_lt.mpr ?_)
    simp only [Vec3.cross, Vec3.dot]
    ring_nf
    positivity
  · exfalso
    refine absurd k1 (not_lt.mpr ?_)
    simp only [Vec3.cross, Vec3.dot]
    ring_nf
    positivity
  · exact absurd k4 (not_le.mpr
      (lt_of_le_of_lt (Real.arccos_le_pi _) (by linarith [Real.pi_pos])))
  · rfl
  · exact absurd rfl k5

theorem FCV_eval : FindCandidateVertex env4 sP 0 (13 / 5) =
    Except.ok (some 3, c1) := by
  have hsrmp : env4.sr ((0.5 : ℝ) • (getV env4.pts 0 + getV env4.pts 1))
      (2 * (13 / 5)) = [3] := by
    simp only [env4]
    split_ifs with m1 m2
    · exfalso
      norm_num [getV, Vec3.add_def, Vec3.smul_def] at m1
    · rfl
    · exact absurd ⟨by norm_num [getV, Vec3.add_def, Vec3.smul_def],
        by norm_num [getV, Vec3.add_def, Vec3.smul_def]⟩ m2
  unfold FindCandidateVertex
  simp only []
  rw [show (getE sP 0).tri0 = some 0 from rfl]
  simp only []
  rw [show (getE sP 0).source = 0 from rfl, show (getE sP 0).target = 1 from rfl,
    show getT sP 0 = (⟨0, 1, 2, c0⟩ : TriData) from rfl]
  simp only []
  rw [show oppositeOfTri (⟨0, 1, 2, c0⟩ : TriData) 0 1 = 2 from rfl]
  rw [hsrmp]
  rw [hv_eval, ha_eval]
  simp only [List.foldl_cons, List.foldl_nil]
  rw [candStep_eval]

/-- The state after the expansion step: triangle (0, 1, 3) created, edge 0
now Inner, the two fresh edges pushed onto the front queue. -/
noncomputable def S2 : BPState := { expCore with front := [3, 4, 1, 2] }

theorem expandStep_eval : expandStep env4 S1 (13 / 5) = Except.ok S2 := by
  rw [expandStep_cons env4 (13 / 5) (show S1.front = 0 :: [1, 2] from rfl)]
  rw [show ({ S1 with front := [1, 2] } : BPState) = sP from rfl]
  unfold expandBody
  rw [if_neg (show ¬((getE sP 0).etype ≠ EType.Front) from not_ne_iff.mpr rfl)]
  rw [FCV_eval]
  simp only []
  rw [expandDecide_some]
  rw [show (getE sP 0).source = 0 from rfl, show (getE sP 0).target = 1 from rfl]
  rw [if_neg (show ¬(getVT sP 3 = VType.Inner ∨
      IsCompatible env4.pts env4.nms 3 0 1 = false) from fun hc => hc.elim
      (fun h1 => VType.noConfusion h1)
      (fun h2 => by rw [IC301] at h2; exact Bool.noConfusion h2))]
  rw [if_neg (show ¬(linkNotFront sP (GetLinkingEdge sP 3 0) = true ∨
      linkNotFront sP (GetLinkingEdge sP 3 1) = true) from fun hc => hc.elim
      (fun h => Bool.noConfusion h) (fun h => Bool.noConfusion h))]
  have g40 : GetLinkingEdge (CreateTriangle env4 sP 0 1 3 c1) 3 0 = some 4 := by
    rw [CT2_eval]; rfl
  have g31 : GetLinkingEdge (CreateTriangle env4 sP 0 1 3 c1) 3 1 = some 3 := by
    rw [CT2_eval]; rfl
  rw [expandCommit_push_eq env4 sP 0 1 3 c1 g40 g31]
  rw [CT2_eval]
  rw [show commitPushes expCore 4 3 = S2 from rfl]

/-! ### Claim C9: the front-queue discipline -/

/-- Claim C9's reading of the seed commit (spec: "FIFO on initial seed
emission"): identical to `seedCommit` except that the three linking edges
of the new seed triangle are enqueued at the BACK of the front queue, so
they would be popped in push order. -/
noncomputable def seedCommitFIFO (env : Env) (s : BPState) (v nb0 nb1 : Nat)
    (center : Vec3) : Except Err (BPState × Bool) :=
  if linkNotFront s (GetLinkingEdge s v nb1) = true then Except.ok (s, false)
  else if linkNotFront s (GetLinkingEdge s nb0 nb1) = true then Except.ok (s, false)
  else if linkNotFront s (GetLinkingEdge s v nb0) = true then Except.ok (s, false)
  else
    let s1 := CreateTriangle env s v nb0 nb1 center
    match GetLinkingEdge s1 v nb1, GetLinkingEdge s1 nb0 nb1,
        GetLinkingEdge s1 v nb0 with
    | some x0, some x1, some x2 =>
      let s2 := (if (getE s1 x0).etype = EType.Front
        then { s1 with front := s1.front ++ [x0] } else s1)
      let s3 := (if (getE s2 x1).etype = EType.Front
        then { s2 with front := s2.front ++ [x1] } else s2)
      let s4 := (if (getE s3 x2).etype = EType.Front
        then { s3 with front := s3.front ++ [x2] } else s3)
      if 0 < s4.front.length then Except.ok (s4, true)
      else Except.ok (s4, false)
    | _, _, _ => Except.error Err.nullLinkingEdge

theorem seedCommitFIFO_eval : seedCommitFIFO env4 (initState env4) 0 1 2 c0 =
    Except.ok ({ seedCore with front := [2, 1, 0] }, true) := by
  have g0 : GetLinkingEdge (CreateTriangle env4 (initState env4) 0 1 2 c0) 0 2 =
      some 2 := by rw [CT1_eval]; rfl
  have g1 : GetLinkingEdge (CreateTriangle env4 (initState env4) 0 1 2 c0) 1 2 =
      some 1 := by rw [CT1_eval]; rfl
  have g2 : GetLinkingEdge (CreateTriangle env4 (initState env4) 0 1 2 c0) 0 1 =
      some 0 := by rw [CT1_eval]; rfl
  unfold seedCommitFIFO
  rw [if_neg (show ¬(linkNotFront (initState env4)
      (GetLinkingEdge (initState env4) 0 2) = true) from fun hc => Bool.noConfusion hc),
    if_neg (show ¬(linkNotFront (initState env4)
      (GetLinkingEdge (initState env4) 1 2) = true) from fun hc => Bool.noConfusion hc),
    if_neg (show ¬(linkNotFront (initState env4)
      (GetLinkingEdge (initState env4) 0 1) = true) from fun hc => Bool.noConfusion hc)]
  simp only []
  rw [g0, g1, g2]
  simp only []
  rw [CT1_eval]
  rfl

/-- C9 refuted on the seed side: the code pushes the three seed edges
with `push_front`, leaving the front queue [0, 1, 2] (the LAST pushed
edge, 0, at the head, so pops are newest-first); the claim's FIFO reading
would leave [2, 1, 0]. -/
theorem seedQueue_claim_cex :
    seedCommit env4 (initState env4) 0 1 2 c0 =
      Except.ok ({ seedCore with front := [0, 1, 2] }, true) ∧
    seedCommitFIFO env4 (initState env4) 0 1 2 c0 =
      Except.ok ({ seedCore with front := [2, 1, 0] }, true) ∧
    ([0, 1, 2] : List Nat) ≠ [2, 1, 0] :=
  ⟨seedCommit_eval, seedCommitFIFO_eval, by decide⟩

/-- C9 (amended).  The front queue is a deque operated LIFO at BOTH push
sites of the pivoting engine: a successful expansion prepends its (up to
two) new Front edges, and a successful seed emission prepends its three
edges (so seed edges are popped newest-first, not in push order); only
the border revisit of a radius change appends at the back. -/
theorem front_queue_discipline :
    (∀ env s src tgt cand center s',
      expandCommit env s src tgt cand center = Except.ok s' →
      ∃ l, s'.front = l ++ s.front) ∧
    (∀ env s v nb0 nb1 center s' b,
      seedCommit env s v nb0 nb1 center = Except.ok (s', b) →
      ∃ l, s'.front = l ++ s.front) ∧
    (∀ env s radius, ∃ l, (borderRevisit env s radius).front = s.front ++ l) := by
  refine ⟨?_, ?_, ?_⟩
  · intro env s src tgt cand center s' hok
    rcases hg0 : GetLinkingEdge (CreateTriangle env s src tgt cand center) cand src
      with _ | x0
    · unfold expandCommit at hok
      simp only [] at hok
      rw [hg0] at hok
      rcases hg1 : GetLinkingEdge (CreateTriangle env s src tgt cand center) cand tgt
        with _ | x1 <;> rw [hg1] at hok <;> simp only [] at hok <;>
        exact Except.noConfusion hok
    · rcases hg1 : GetLinkingEdge (CreateTriangle env s src tgt cand center) cand tgt
        with _ | x1
      · unfold expandCommit at hok
        simp only [] at hok
        rw [hg0, hg1] at hok
        simp only [] at hok
        exact Except.noConfusion hok
      · rw [expandCommit_push_eq env s src tgt cand center hg0 hg1] at hok
        injection hok with h2
        obtain ⟨l, hl, -, -, -⟩ :=
          commitPushes_spec (CreateTriangle env s src tgt cand center) x0 x1
        refine ⟨l, ?_⟩
        rw [← h2, hl, CreateTriangle_front]
  · intro env s v nb0 nb1 center s' b hok
    by_cases g1 : linkNotFront s (GetLinkingEdge s v nb1) = true
    · have heq : seedCommit env s v nb0 nb1 center = Except.ok (s, false) := by
        unfold seedCommit
        rw [if_pos g1]
      rw [heq] at hok
      injection hok with h2
      simp only [Prod.mk.injEq] at h2
      exact ⟨[], by rw [← h2.1]; rfl⟩
    by_cases g2 : linkNotFront s (GetLinkingEdge s nb0 nb1) = true
    · have heq : seedCommit env s v nb0 nb1 center = Except.ok (s, false) := by
        unfold seedCommit
        rw [if_neg g1, if_pos g2]
      rw [heq] at hok
      injection hok with h2
      simp only [Prod.mk.injEq] at h2
      exact ⟨[], by rw [← h2.1]; rfl⟩
    by_cases g3 : linkNotFront s (GetLinkingEdge s v nb0) = true
    · have heq : seedCommit env s v nb0 nb1 center = Except.ok (s, false) := by
        unfold seedCommit
        rw [if_neg g1, if_neg g2, if_pos g3]
      rw [heq] at hok
      injection hok with h2
      simp only [Prod.mk.injEq] at h2
      exact ⟨[], by rw [← h2.1]; rfl⟩
    rcases hga : GetLinkingEdge (CreateTriangle env s v nb0 nb1 center) v nb1
      with _ | x0
    · have heq : seedCommit env s v nb0 nb1 center =
          Except.error Err.nullLinkingEdge := by
        unfold seedCommit
        rw [if_neg g1, if_neg g2, if_neg g3]
        simp only []
        rw [hga]
      rw [heq] at hok
      exact Except.noConfusion hok
    rcases hgb : GetLinkingEdge (CreateTriangle env s v nb0 nb1 center) nb0 nb1
      with _ | x1
    · have heq : seedCommit env s v nb0 nb1 center =
          Except.error Err.nullLinkingEdge := by
        unfold seedCommit
        rw [if_neg g1, if_neg g2, if_neg g3]
        simp only []
        rw [hga, hgb]
      rw [heq] at hok
      exact Except.noConfusion hok
    rcases hgc : GetLinkingEdge (CreateTriangle env s v nb0 nb1 center) v nb0
      with _ | x2
    · have heq : seedCommit env s v nb0 nb1 center =
          Except.error Err.nullLinkingEdge := by
        unfold seedCommit
        rw [if_neg g1, if_neg g2, if_neg g3]
        simp only []
        rw [hga, hgb, hgc]
      rw [heq] at hok
      exact Except.noConfusion hok
    rw [seedCommit_eq env s v nb0 nb1 center (Bool.eq_false_iff.mpr g1)
      (Bool.eq_false_iff.mpr g2) (Bool.eq_false_iff.mpr g3) hga hgb hgc] at hok
    obtain ⟨l, hl, -, -, -⟩ :=
      seedPushes_spec (CreateTriangle env s v nb0 nb1 center) x0 x1 x2
    split_ifs at hok <;>
      (injection hok with h2
       simp only [Prod.mk.injEq] at h2
       refine ⟨l, ?_⟩
       rw [← h2.1, hl, CreateTriangle_front])
  · intro env s radius
    obtain ⟨l, hl⟩ := revisitGo_front env radius s.border s
    refine ⟨l, ?_⟩
    unfold borderRevisit
    exact hl

theorem front_queue_discipline_seed_witness :
    seedCommit env4 (initState env4) 0 1 2 c0 = Except.ok (S1, true) ∧
    (∃ l, S1.front = l ++ (initState env4).front) :=
  ⟨seedCommit_eval,
    front_queue_discipline.2.1 env4 (initState env4) 0 1 2 c0 S1 true
      seedCommit_eval⟩

/-- C10's witness run: the seed state S1 is reachable (one seed step from
the constructor state), pops its Front edge 0, and the expansion step
creates triangle (0, 1, 3), turning edge 0 Inner with the new triangle in
its second slot. -/
theorem expanded_edge_inner_witness :
    SROk env4 ∧ Reachable env4 S1 ∧
    (∀ e1, e1 < S1.edges.length → ∀ e2, e2 < S1.edges.length →
      samePair (getE S1 e1) (getE S1 e2) → e1 = e2) ∧
    S1.front = 0 :: [1, 2] ∧ (getE S1 0).etype = EType.Front ∧
    expandStep env4 S1 (13 / 5) = Except.ok S2 ∧
    S2.tris.length = S1.tris.length + 1 ∧
    ((getE S2 0).etype = EType.Inner ∧ (getE S2 0).tri1 = some S1.tris.length) := by
  have hreach : Reachable env4 S1 :=
    Relation.ReflTransGen.single
      (EngineStep.seed 0 (13 / 5) true (by norm_num [env4]) trySeed_eval)
  have huni := (Reachable_WF env4 SROk_env4 hreach).pair_uni
  exact ⟨SROk_env4, hreach, huni, rfl, rfl, expandStep_eval, rfl,
    expanded_edge_inner env4 SROk_env4 hreach huni rfl rfl expandStep_eval rfl⟩

end BPA
